import Mathlib

/-!
# maphack: entity-data record engine and condition evaluator

A shallow embedding of `src/game/server/maphack_manager.cpp`.

C strings are modelled as the list of their characters before the terminating
NUL (`CStr`); the characters are taken to be 7-bit, so that the sign of `char`
plays no part in the comparisons of the tokenizer.  A `char *` that walks a record buffer is modelled by the suffix
of the text it points at (`Cursor.ptr`), by `Cursor.null` for `NULL`, and by
`Cursor.wild` for a pointer that has left the string.  An operation whose C
code would read or write through such a pointer, or overflow a fixed stack
buffer, has no defined result and returns `none`.
-/

namespace MapHack

set_option maxRecDepth 100000

/-- A C string: its characters up to, and without, the terminating NUL. -/
abbrev CStr := List Char

/-- Size of the token buffers (`char szToken[MAPKEY_MAXLENGTH]`). -/
def MAPKEY_MAXLENGTH : Nat := 2048

/-- The value of a `const char *` that scans a record buffer. -/
inductive Cursor where
  | ptr (rest : CStr)
  | null
  | wild
  deriving DecidableEq, Repr

/-- Modelled from the spec: `V_strncpy( dest, src, maxLen )` of the engine's
string library is absent from src/; it copies at most `maxLen - 1` characters
and always terminates the destination. -/
def V_strncpy (src : CStr) (maxLen : Nat) : CStr :=
  src.take (maxLen - 1)

/-- Modelled from the spec: `V_strcat( dest, src, destSize )` of the engine's
string library is absent from src/; it appends as many characters of `src` as
fit in a destination of `destSize` bytes, terminator included, and nothing
when the destination is already full. -/
def V_strcat (dest src : CStr) (destSize : Nat) : CStr :=
  dest ++ src.take (destSize - 1 - dest.length)

/-- Modelled from the spec: `V_sprintf_safe( buf, ... )` of the engine's string
library is absent from src/; the formatted text is cut to the size of the
destination array, terminator included. -/
def V_sprintf_safe (bufSize : Nat) (formatted : CStr) : CStr :=
  formatted.take (bufSize - 1)

/-- Modelled from the spec: `V_stricmp( a, b ) == 0` of the engine's string
library is absent from src/; equality of two strings up to the case of the
letters A to Z. -/
def V_stricmp (a b : CStr) : Bool :=
  a.map Char.toLower == b.map Char.toLower

/-- Modelled from the spec: `V_strstr( hay, needle )` of the engine's string
library is absent from src/; the offset of the first occurrence of `needle` in
`hay`, `none` for `NULL`. -/
def V_strstr : CStr → CStr → Option Nat
  | [], needle => if needle.isEmpty then some 0 else none
  | c :: hay, needle =>
    if needle.isPrefixOf (c :: hay) then some 0
    else (V_strstr hay needle).map (· + 1)

/-- A string between double quotes, the `"\"%s\""` of the format strings. -/
def quoted (s : CStr) : CStr := '"' :: (s ++ ['"'])

/-! ## The entity tokenizer -/

/-- The single-character tokens of the entity tokenizer: the braces, the
parentheses and the apostrophe. -/
def isBraceChar (c : Char) : Bool :=
  c == '{' || c == '}' || c == '(' || c == ')' || c == Char.ofNat 39

/-- The `skipwhite:` loop of the tokenizer together with its `//` comment
skipping: the text from the first character of the next token on, `none` when
the terminator is reached first.  The flag tells that a comment is being
skipped. -/
def skipWhite : Bool → CStr → Option CStr
  | _, [] => none
  | true, c :: cs => if c = '\n' then skipWhite false cs else skipWhite true cs
  | false, c :: cs =>
    if c.toNat ≤ 32 then skipWhite false cs
    else if c = '/' ∧ cs.head? = some '/' then skipWhite true cs
    else some (c :: cs)

/-- The quoted-string loop of the tokenizer, entered after the opening quote
with room for `n` more characters: the token and the pointer after the closing
quote.  When the terminator comes first the pointer has been moved past it
(`Cursor.wild`).  A token that fills the token buffer is outside the model. -/
def readQuoted : Nat → CStr → Option (CStr × Cursor)
  | 0, _ => none
  | _ + 1, [] => some ([], Cursor.wild)
  | n + 1, c :: cs =>
    if c = '"' then some ([], Cursor.ptr cs)
    else (readQuoted n cs).map fun r => (c :: r.1, r.2)

/-- The regular-word loop of the tokenizer, entered after the first character
of the word with room for `n` more characters: the rest of the word, which
ends before a character that is not above the space or is a single-character
token, and the text that follows it.  A word that fills the token buffer is
outside the model. -/
def readWord : Nat → CStr → Option (CStr × CStr)
  | _, [] => some ([], [])
  | n, c :: cs =>
    if isBraceChar c || decide (c.toNat ≤ 32) then some ([], c :: cs)
    else
      match n with
      | 0 => none
      | m + 1 => (readWord m cs).map fun r => (c :: r.1, r.2)

/-- The tokenizer on a pointer into the text. -/
def parseAt (data : CStr) : Option (CStr × Cursor) :=
  match skipWhite false data with
  | none => some ([], Cursor.null)
  | some [] => some ([], Cursor.null)
  | some (c :: cs) =>
    if c = '"' then readQuoted MAPKEY_MAXLENGTH cs
    else if isBraceChar c then some ([c], Cursor.ptr cs)
    else (readWord (MAPKEY_MAXLENGTH - 2) cs).map fun r => (c :: r.1, Cursor.ptr r.2)

/-- Modelled from the spec: `MapEntity_ParseToken( data, newToken )` is the
engine's entity tokenizer, absent from src/.  It skips whitespace (every
character up to the space) and `//` comments, then reads one token: a quoted
string without its quotes, one of the single characters `{ } ( )` and the
apostrophe, or a word that runs to the next whitespace or single-character
token.  It returns the token and the pointer after it; at the end of the text
the token is empty and the pointer is `NULL`, and `NULL` is passed through. -/
def MapEntity_ParseToken : Cursor → Option (CStr × Cursor)
  | Cursor.null => some ([], Cursor.null)
  | Cursor.wild => none
  | Cursor.ptr data => parseAt data

/-! ## The entity-data record -/

/-- The record of `maphack_manager.h`: the text buffer `m_pEntData`, the
iteration pointer `m_pCurrentKey` and the allocated size `m_iBlockSize`. -/
structure MapHackEntityData_t where
  m_pEntData : CStr
  m_pCurrentKey : Cursor
  m_iBlockSize : Nat
  deriving DecidableEq, Repr

/-- The offset of the first occurrence of a character, as found by the
`while ( psz && *psz != 0 )` scans of the record code. -/
def findChar (x : Char) : CStr → Option Nat
  | [] => none
  | c :: cs => if c = x then some 0 else (findChar x cs).map (· + 1)

/-- The loop of `MapHackEntityData_t::GetKeyValue`. -/
def GetKeyValue.scan (pszKeyName : CStr) (bufSize : Nat) :
    Nat → Cursor → Option (Option CStr)
  | 0, _ => none
  | _ + 1, Cursor.null => some none
  | n + 1, pszInputData =>
    match MapEntity_ParseToken pszInputData with
    | none => none
    | some (szToken, p1) =>
      if szToken.head? = some '}' then some none
      else if V_stricmp szToken pszKeyName then
        match MapEntity_ParseToken p1 with
        | none => none
        | some (szValue, _) => some (some (V_strncpy szValue bufSize))
      else
        match MapEntity_ParseToken p1 with
        | none => none
        | some (_, p2) => GetKeyValue.scan pszKeyName bufSize n p2

/-- `MapHackEntityData_t::GetKeyValue`: `some (some v)` when it returns true
with `v` copied to the caller's buffer of `bufSize` bytes, `some none` when it
returns false. -/
def GetKeyValue (self : MapHackEntityData_t) (pszKeyName : CStr) (bufSize : Nat) :
    Option (Option CStr) :=
  GetKeyValue.scan pszKeyName bufSize (self.m_pEntData.length + 1)
    (Cursor.ptr self.m_pEntData)

/-- `MapHackEntityData_t::InsertValue`: the returned flag and the record
afterwards.  Allocation is taken to succeed. -/
def InsertValue (self : MapHackEntityData_t) (pszKeyName pszNewValue : CStr) :
    Option (Bool × MapHackEntityData_t) :=
  match findChar '}' self.m_pEntData with
  | none => some (false, self)
  | some 0 => none
  | some (i + 1) =>
    let cut := self.m_pEntData.take i
    let szLine := V_sprintf_safe 256
      ('\n' :: (quoted pszKeyName ++ ' ' :: quoted pszNewValue))
    let blockSize := self.m_iBlockSize + szLine.length + 3
    let appended := V_strcat (V_strcat cut szLine blockSize) ['\n', '}'] blockSize
    some (true, { self with m_pEntData := appended, m_iBlockSize := blockSize })

/-- The replacement branch of `MapHackEntityData_t::SetKeyValue`, entered with
`pInputData` just after the matching key token.  The branch pastes into the
block as it is, without `realloc`: `V_strncpy` and `V_strcat` write up to the
terminator of the new text, so that a new text which does not fit the
`m_iBlockSize` bytes of the block with its terminator is written past the end
of the block, and the call has no defined result. -/
def SetKeyValue.replace (self : MapHackEntityData_t) (pszNewValue : CStr)
    (pInputData : Cursor) : Option (Bool × MapHackEntityData_t) :=
  let szNewValue := V_sprintf_safe 1024 (quoted pszNewValue)
  let newValueLen := szNewValue.length + 1
  let entDataSize := self.m_pEntData.length + newValueLen
  match pInputData with
  | Cursor.ptr (c :: prev) =>
    match parseAt (c :: prev) with
    | some (_, Cursor.ptr post) =>
      let pPostData := V_strncpy post entDataSize
      let offset := self.m_pEntData.length - (c :: prev).length
      let pasted := c :: V_strncpy szNewValue newValueLen
      let joined := V_strcat pasted pPostData (entDataSize - offset + 1)
      let text := self.m_pEntData.take offset ++ joined
      if text.length < self.m_iBlockSize then
        some (true, { self with m_pEntData := text, m_pCurrentKey := Cursor.ptr text })
      else none
    | _ => none
  | _ => none

/-- The loop of `MapHackEntityData_t::SetKeyValue`. -/
def SetKeyValue.scan (self : MapHackEntityData_t) (pszKeyName pszNewValue : CStr)
    (keyInstance : Int) (currentKeyInstance : Int) :
    Nat → Cursor → Option (Bool × MapHackEntityData_t)
  | 0, _ => none
  | _ + 1, Cursor.null => InsertValue self pszKeyName pszNewValue
  | n + 1, pInputData =>
    match MapEntity_ParseToken pInputData with
    | none => none
    | some (szToken, p1) =>
      if szToken.head? = some '}' then InsertValue self pszKeyName pszNewValue
      else if szToken = pszKeyName then
        if currentKeyInstance + 1 > keyInstance then
          SetKeyValue.replace self pszNewValue p1
        else InsertValue self pszKeyName pszNewValue
      else
        match MapEntity_ParseToken p1 with
        | none => none
        | some (_, p2) =>
          SetKeyValue.scan self pszKeyName pszNewValue keyInstance currentKeyInstance n p2

/-- `MapHackEntityData_t::SetKeyValue`: the returned flag and the record
afterwards. -/
def SetKeyValue (self : MapHackEntityData_t) (pszKeyName pszNewValue : CStr)
    (keyInstance : Int) : Option (Bool × MapHackEntityData_t) :=
  SetKeyValue.scan self pszKeyName pszNewValue keyInstance 0
    (self.m_pEntData.length + 1) (Cursor.ptr self.m_pEntData)

/-- The first loop of `MapHackEntityData_t::RemoveValue`: the flag
`bValueFound` and the pointer `pPrevData` at its exit. -/
def RemoveValue.scan (pszKeyName : CStr) : Nat → Cursor → Cursor → Option (Bool × Cursor)
  | 0, _, _ => none
  | _ + 1, Cursor.null, pPrevData => some (false, pPrevData)
  | n + 1, pInputData, _ =>
    match MapEntity_ParseToken pInputData with
    | none => none
    | some (szToken, p1) =>
      if szToken.head? = some '}' then some (false, pInputData)
      else if szToken = pszKeyName then some (true, pInputData)
      else RemoveValue.scan pszKeyName n p1 pInputData

/-- The copy into `char szLine[1024]` in `RemoveValue`: the text up to and
including the first newline.  Without a newline the array is left without a
terminator (or, when nothing was copied, holds the empty line, on which the
stripping loop does not end), and a line that does not fit overflows it. -/
def RemoveValue.line (src : CStr) : Option CStr :=
  match findChar '\n' src with
  | none => none
  | some i => if i + 1 < 1024 then some (src.take (i + 1)) else none

/-- The `while ( pszCurrent )` loop of `RemoveValue` seen from `pszFrom`: the
text that is left after every further occurrence of the line is cut out. -/
def RemoveValue.strip (szLine : CStr) : Nat → CStr → CStr
  | 0, from_ => from_
  | n + 1, from_ =>
    match V_strstr from_ szLine with
    | none => from_
    | some j => from_.take j ++ RemoveValue.strip szLine n (from_.drop (j + szLine.length))

/-- `MapHackEntityData_t::RemoveValue`: the returned flag and the record
afterwards. -/
def RemoveValue (self : MapHackEntityData_t) (pszKeyName : CStr) :
    Option (Bool × MapHackEntityData_t) :=
  match RemoveValue.scan pszKeyName (self.m_pEntData.length + 1)
      (Cursor.ptr self.m_pEntData) Cursor.null with
  | none => none
  | some (false, _) => some (false, self)
  | some (true, Cursor.ptr (_ :: afterNewline)) =>
    match RemoveValue.line afterNewline with
    | none => none
    | some szLine =>
      match V_strstr self.m_pEntData szLine with
      | none => some (false, self)
      | some i =>
        let rest := self.m_pEntData.drop (i + szLine.length)
        let stripped := self.m_pEntData.take i ++ RemoveValue.strip szLine (rest.length + 1) rest
        some (true, { self with m_pEntData := stripped })
  | some (true, Cursor.ptr []) => none
  | some (true, _) => some (true, self)

/-- The fix-up of `GetNextKey` for key names with trailing spaces. -/
def stripTrailingSpaces (s : CStr) : CStr :=
  (s.reverse.dropWhile fun c => c == ' ').reverse

/-- `MapHackEntityData_t::GetNextKey`: `some (key, value)` when it returns
true with the two output buffers, `none` when it returns false, and the record
with the moved iteration pointer. -/
def GetNextKey (self : MapHackEntityData_t) :
    Option (Option (CStr × CStr) × MapHackEntityData_t) :=
  match MapEntity_ParseToken self.m_pCurrentKey with
  | none => none
  | some (szToken, p1) =>
    if szToken.head? = some '}' then some (none, self)
    else if p1 = Cursor.null then some (none, { self with m_pCurrentKey := Cursor.null })
    else
      let pszKeyName := stripTrailingSpaces (V_strncpy szToken MAPKEY_MAXLENGTH)
      match MapEntity_ParseToken p1 with
      | none => none
      | some (szValue, p2) =>
        if p2 = Cursor.null then some (none, { self with m_pCurrentKey := p2 })
        else if szValue.head? = some '}' then some (none, { self with m_pCurrentKey := p2 })
        else some (some (pszKeyName, V_strncpy szValue MAPKEY_MAXLENGTH),
          { self with m_pCurrentKey := p2 })

/-- `MapHackEntityData_t::GetFirstKey`. -/
def GetFirstKey (self : MapHackEntityData_t) :
    Option (Option (CStr × CStr) × MapHackEntityData_t) :=
  GetNextKey { self with m_pCurrentKey := Cursor.ptr self.m_pEntData }

/-- The pairs that `GetNextKey` hands out from the iteration pointer on, until
it returns false. -/
def allPairs.loop : Nat → MapHackEntityData_t → Option (List (CStr × CStr))
  | 0, _ => none
  | n + 1, self =>
    match GetNextKey self with
    | none => none
    | some (none, _) => some []
    | some (some kv, next) => (allPairs.loop n next).map fun rest => kv :: rest

/-- The sequence of key/value pairs of a record as its own iterator reads it:
`GetFirstKey`, then `GetNextKey` until it returns false. -/
def allPairs (self : MapHackEntityData_t) : Option (List (CStr × CStr)) :=
  allPairs.loop (self.m_pEntData.length + 1)
    { self with m_pCurrentKey := Cursor.ptr self.m_pEntData }

/-- The loop behind `isCompleteRecord`. -/
def isCompleteRecord.scan : Nat → CStr → Bool
  | 0, _ => false
  | n + 1, data =>
    match parseAt data with
    | some (szToken, Cursor.ptr rest) =>
      if szToken.head? = some '}' then rest.isEmpty
      else
        match parseAt rest with
        | some (szValue, Cursor.ptr rest2) =>
          !(szValue.head? = some '}') && isCompleteRecord.scan n rest2
        | _ => false
    | _ => false

/-- The syntactically complete record of the spec: the text tokenizes as a
sequence of key/value pairs followed by one closing brace, with which the text
ends. -/
def isCompleteRecord (text : CStr) : Bool :=
  isCompleteRecord.scan (text.length + 1) text

/-! ## Serialization of the staged records -/

/-- The copy loop of `CMapHackManager::GetEntDataString`: the characters
written to `pszOut` from index `outIdx` on. -/
def GetEntDataString.copy (outSize : Nat) : Nat → CStr → CStr
  | _, [] => []
  | outIdx, c :: cs =>
    if outIdx ≥ outSize then []
    else if c = '}' then ['}']
    else if c = '\t' then ' ' :: GetEntDataString.copy outSize (outIdx + 1) cs
    else c :: GetEntDataString.copy outSize (outIdx + 1) cs

/-- `CMapHackManager::GetEntDataString`: the string left in `pszOut` and the
returned length. -/
def GetEntDataString (pEntData : MapHackEntityData_t) (outSize : Nat) : CStr × Nat :=
  let written := '{' :: GetEntDataString.copy outSize 1 pEntData.m_pEntData
  let outIdx := written.length
  if outIdx ≥ outSize then (written.take (outSize - 1), outSize - 1)
  else (written, outIdx)

/-- The body of the loop of `CMapHackManager::FinalizeEntData` for one staged
record: `m_pNewMapData` afterwards. -/
def FinalizeEntData.step (m_pNewMapData : CStr) (pEntData : MapHackEntityData_t) : CStr :=
  let bufSize := pEntData.m_pEntData.length + 3
  let (pszBuffer, outLen) := GetEntDataString pEntData bufSize
  if outLen ≥ bufSize then m_pNewMapData
  else
    let line := pszBuffer.take outLen ++ ['\n']
    let newLen := m_pNewMapData.length + bufSize + 1
    V_strcat m_pNewMapData line newLen

/-- `CMapHackManager::FinalizeEntData`: the entity stream `m_pNewMapData` built
from the staged records `m_vecEntData`. -/
def FinalizeEntData (m_vecEntData : List MapHackEntityData_t) : CStr :=
  m_vecEntData.foldl FinalizeEntData.step []

/-- The text of a record up to and including its closing brace. -/
def throughBrace : CStr → CStr
  | [] => []
  | c :: cs => if c = '}' then ['}'] else c :: throughBrace cs

/-- A tab becomes a space. -/
def tabToSpace (c : Char) : Char := if c = '\t' then ' ' else c

/-- The block of one record in the entity stream. -/
def entityBlock (pEntData : MapHackEntityData_t) : CStr :=
  '{' :: ((throughBrace pEntData.m_pEntData).map tabToSpace ++ ['\n'])

/-- The concatenation of the blocks of the staged records. -/
def entityStream : List MapHackEntityData_t → CStr
  | [] => []
  | r :: rs => entityBlock r ++ entityStream rs

/-- The constructor `MapHackEntityData_t( pEntBlock, entBlockSize )`. -/
def MapHackEntityData_t.new (pEntBlock : CStr) (entBlockSize : Nat) : MapHackEntityData_t :=
  ⟨pEntBlock, Cursor.ptr pEntBlock, entBlockSize⟩

/-! ## The condition evaluator -/

/-- The kinds of `MapHackType_t` (`KeyValues::types_t`) that the manager uses. -/
inductive MapHackType_t where
  | TYPE_NONE
  | TYPE_STRING
  | TYPE_INT
  | TYPE_FLOAT
  | TYPE_COLOR
  deriving DecidableEq, Repr

/-- The floating-point side of the C library, which the embedding takes as a
parameter: the type of a `float`, its zero, `V_atof`, the six comparisons of
the `switch` of `TestIfCondBlock` by operator index, the `"%f"` rendering, and
whether `strtod` leaves `errno` at `ERANGE` for a text. -/
structure FloatLib where
  F : Type
  zero : F
  V_atof : CStr → F
  compare : Nat → F → F → Bool
  render : F → CStr
  strtodRange : CStr → Bool

/-- `MapHackVariable_t` without its colour channel; the members of the union
are kept apart, each read only under its own type as the getters do.
`m_pszValue` is `none` for the `NULL` of the constructor, which stays until a
setter allocates the text. -/
structure MapHackVariable_t (F : Type) where
  m_szName : CStr
  m_Type : MapHackType_t
  m_pszValue : Option CStr
  m_iValue : Int
  m_flValue : F

/-- `LONG_MAX` of the 32-bit targets of the engine. -/
def LONG_MAX : Int := 2147483647

/-- `LONG_MIN` of the 32-bit targets of the engine. -/
def LONG_MIN : Int := -2147483648

/-- The conversion of an integer to `int`. -/
def toInt32 (x : Int) : Int := (x + 2147483648) % 4294967296 - 2147483648

/-- The characters of `isspace` in the C locale. -/
def isSpaceC (c : Char) : Bool := c == ' ' || (decide (9 ≤ c.toNat) && decide (c.toNat ≤ 13))

/-- The value of a run of decimal digits. -/
def digitsValue (ds : CStr) : Nat := ds.foldl (fun acc c => acc * 10 + (c.toNat - 48)) 0

/-- The length of an optional sign at the head of a text. -/
def signLength (s : CStr) : Nat :=
  if s.head? = some '-' ∨ s.head? = some '+' then 1 else 0

/-- Modelled from the spec: `strtol( s, &end, 10 )` of the C library is absent
from src/; it skips whitespace, reads an optional sign and decimal digits, and
gives the value (clamped to `LONG_MIN`/`LONG_MAX`), the offset where the scan
ended (0 without a digit) and whether it set `errno` to `ERANGE`. -/
def strtol (s : CStr) : Int × Nat × Bool :=
  let ws := s.takeWhile isSpaceC
  let s1 := s.dropWhile isSpaceC
  let s2 := s1.drop (signLength s1)
  let ds := s2.takeWhile Char.isDigit
  if ds.isEmpty then (0, 0, false)
  else
    let v : Int := if s1.head? = some '-' then -(digitsValue ds : Int) else digitsValue ds
    let pEnd := ws.length + signLength s1 + ds.length
    if v > LONG_MAX then (LONG_MAX, pEnd, true)
    else if v < LONG_MIN then (LONG_MIN, pEnd, true)
    else (v, pEnd, false)

/-- The length of an exponent part at the head of a text: `e` or `E`, an
optional sign and at least one digit. -/
def exponentLength : CStr → Nat
  | [] => 0
  | e :: t =>
    if e = 'e' ∨ e = 'E' then
      let ds := (t.drop (signLength t)).takeWhile Char.isDigit
      if ds.isEmpty then 0 else 1 + signLength t + ds.length
    else 0

/-- Modelled from the spec: the end pointer of `strtod( s, &end )` of the C
library, absent from src/, as an offset: whitespace, an optional sign, decimal
digits with an optional point and an optional exponent; 0 when the mantissa has
no digit.  This is the scan of the non-POSIX build, without the hexadecimal
form that the `#ifdef POSIX` branch undoes. -/
def strtodEnd (s : CStr) : Nat :=
  let ws := s.takeWhile isSpaceC
  let s1 := s.dropWhile isSpaceC
  let s2 := s1.drop (signLength s1)
  let intDigits := s2.takeWhile Char.isDigit
  let s3 := s2.dropWhile Char.isDigit
  match s3 with
  | '.' :: t =>
    let fracDigits := t.takeWhile Char.isDigit
    if intDigits.length + fracDigits.length = 0 then 0
    else ws.length + signLength s1 + intDigits.length + 1 + fracDigits.length +
      exponentLength (t.dropWhile Char.isDigit)
  | _ =>
    if intDigits.length = 0 then 0
    else ws.length + signLength s1 + intDigits.length + exponentLength s3

/-- Modelled from the spec: `V_atoi( s )` of the engine's string library is
absent from src/; an optional minus sign and the decimal digits that follow,
converted to `int`.  Its hexadecimal and character-constant forms are outside
the model. -/
def V_atoi (s : CStr) : Int :=
  if s.head? = some '-' then toInt32 (-(digitsValue ((s.drop 1).takeWhile Char.isDigit) : Int))
  else toInt32 (digitsValue (s.takeWhile Char.isDigit))

/-- `CMapHackManager::GetTypeForString` in the non-POSIX build, with `errno`
made explicit: the flag `errnoRange` tells whether `errno` is `ERANGE` on
entry, and the second component whether it is on return. -/
def GetTypeForString (fl : FloatLib) (errnoRange : Bool) (pszValue : CStr) :
    MapHackType_t × Bool :=
  let len := pszValue.length
  let (iValLong, pIEnd, range) := strtol pszValue
  let pFEnd := strtodEnd pszValue
  let errnoAfter := errnoRange || range || fl.strtodRange pszValue
  let iVal := toInt32 iValLong
  let bOverflow := (iVal == LONG_MAX || iVal == LONG_MIN) && errnoAfter
  if pszValue.isEmpty then (MapHackType_t.TYPE_STRING, errnoAfter)
  else if pFEnd > pIEnd ∧ pFEnd = len then (MapHackType_t.TYPE_FLOAT, errnoAfter)
  else if pIEnd = len ∧ bOverflow = false then (MapHackType_t.TYPE_INT, errnoAfter)
  else (MapHackType_t.TYPE_STRING, errnoAfter)

/-- The loop of `V_SplitString`. -/
def V_SplitString.go (sep : CStr) : Nat → CStr → List CStr
  | 0, _ => []
  | n + 1, cur =>
    match V_strstr cur sep with
    | some i =>
      let rest := V_SplitString.go sep n (cur.drop (i + sep.length))
      if i > 0 then cur.take i :: rest else rest
    | none => if cur.isEmpty then [] else [cur]

/-- Modelled from the spec: `V_SplitString( s, sep, out )` of the engine's
string library is absent from src/; the pieces of `s` between the occurrences
of the separator, in order, the empty pieces left out. -/
def V_SplitString (s sep : CStr) : List CStr :=
  V_SplitString.go sep (s.length + 1) s

/-- Modelled from the spec: `Q_StripPrecedingAndTrailingWhitespace( s )` of the
engine's string library is absent from src/; the text without the whitespace
at its end and at its start. -/
def Q_StripPrecedingAndTrailingWhitespace (s : CStr) : CStr :=
  ((s.reverse.dropWhile isSpaceC).reverse).dropWhile isSpaceC

/-- Modelled from the spec: `FStrEq( a, b )` of the engine is absent from src/;
equality of two strings up to letter case. -/
def FStrEq (a b : CStr) : Bool := V_stricmp a b

/-- The six operators `pszOps` in their probe order. -/
def pszOps : List CStr :=
  [['=', '='], ['!', '='], ['>', '='], ['>'], ['<', '='], ['<']]

/-- The operator of index `op`. -/
def opText (op : Nat) : CStr := pszOps.getD op []

/-- The truth value of `a op b` on integers, by operator index. -/
def intCompare (op : Nat) (a b : Int) : Bool :=
  match op with
  | 0 => a == b
  | 1 => a != b
  | 2 => decide (a ≥ b)
  | 3 => decide (a > b)
  | 4 => decide (a ≤ b)
  | 5 => decide (a < b)
  | _ => false

/-- The condition string made of a left operand, a space, the operator, a
space and a right operand. -/
def condText (l : CStr) (op : Nat) (r : CStr) : CStr :=
  l ++ ' ' :: (opText op ++ ' ' :: r)

/-- A plain operand text: not empty, without whitespace and without operator
characters. -/
def OperandText (s : CStr) : Prop :=
  s ≠ [] ∧ ∀ c ∈ s, isSpaceC c = false ∧ c ≠ '=' ∧ c ≠ '!' ∧ c ≠ '<' ∧ c ≠ '>'

instance (s : CStr) : Decidable (OperandText s) := by unfold OperandText; infer_instance

/-- The decimal text of a natural number. -/
def decimalNat (n : Nat) : CStr :=
  if n = 0 then ['0'] else (Nat.digits 10 n).reverse.map fun d => Char.ofNat (48 + d)

/-- The decimal literal of an integer, the `"%d"` of the format strings. -/
def decimalText (a : Int) : CStr :=
  if a < 0 then '-' :: decimalNat a.natAbs else decimalNat a.natAbs

/-- The default constructor of `MapHackVariable_t`. -/
def MapHackVariable_t.init (fl : FloatLib) : MapHackVariable_t fl.F :=
  ⟨[], MapHackType_t.TYPE_INT, none, 0, fl.zero⟩

/-- `MapHackVariable_t::Convert`. -/
def MapHackVariable_t.Convert (fl : FloatLib) (v : MapHackVariable_t fl.F) :
    MapHackVariable_t fl.F :=
  match v.m_Type with
  | MapHackType_t.TYPE_INT => { v with m_pszValue := some (decimalText v.m_iValue) }
  | MapHackType_t.TYPE_FLOAT => { v with m_pszValue := some (fl.render v.m_flValue) }
  | _ => v

/-- `MapHackVariable_t::SetInt`. -/
def MapHackVariable_t.SetInt (fl : FloatLib) (v : MapHackVariable_t fl.F) (i : Int) :
    MapHackVariable_t fl.F :=
  MapHackVariable_t.Convert fl { v with m_iValue := i }

/-- `MapHackVariable_t::SetFloat`. -/
def MapHackVariable_t.SetFloat (fl : FloatLib) (v : MapHackVariable_t fl.F) (x : fl.F) :
    MapHackVariable_t fl.F :=
  MapHackVariable_t.Convert fl { v with m_flValue := x }

/-- `MapHackVariable_t::SetString`. -/
def MapHackVariable_t.SetString {F : Type} (v : MapHackVariable_t F) (s : CStr) :
    MapHackVariable_t F :=
  { v with m_pszValue := some s }

/-- `MapHackVariable_t::GetInt`. -/
def MapHackVariable_t.GetInt {F : Type} (v : MapHackVariable_t F) : Int :=
  if v.m_Type = MapHackType_t.TYPE_INT then v.m_iValue else 0

/-- `MapHackVariable_t::GetFloat`. -/
def MapHackVariable_t.GetFloat (fl : FloatLib) (v : MapHackVariable_t fl.F) : fl.F :=
  if v.m_Type = MapHackType_t.TYPE_FLOAT then v.m_flValue else fl.zero

/-- `MapHackVariable_t::GetString`: `m_pszValue` for a String, `none` when that
is `NULL`, and the empty text for every other type. -/
def MapHackVariable_t.GetString {F : Type} (v : MapHackVariable_t F) : Option CStr :=
  if v.m_Type = MapHackType_t.TYPE_STRING then v.m_pszValue else some []

/-- The first loop of `TestIfCondBlock`: the index `op` at which it stops and
the strings that `V_SplitString` produced. -/
def TestIfCondBlock.split (psz : CStr) : List CStr → Nat → Nat × List CStr
  | [], op => (op, [])
  | sep :: rest, op =>
    if (V_strstr psz sep).isSome then (op, V_SplitString psz sep)
    else TestIfCondBlock.split psz rest (op + 1)

/-- The resolution of one operand of `TestIfCondBlock`: the variable that
`pLVal` or `pRVal` points to, `none` for `NULL`. -/
def TestIfCondBlock.operand (fl : FloatLib)
    (GetVariableByName : CStr → Option (MapHackVariable_t fl.F))
    (type : MapHackType_t) (text : CStr) : Option (MapHackVariable_t fl.F) :=
  let l : MapHackVariable_t fl.F := { MapHackVariable_t.init fl with m_Type := type }
  match type with
  | MapHackType_t.TYPE_STRING =>
    match GetVariableByName text with
    | some pVar => some pVar
    | none => some (l.SetString text)
  | MapHackType_t.TYPE_INT => some (MapHackVariable_t.SetInt fl l (V_atoi text))
  | MapHackType_t.TYPE_FLOAT => some (MapHackVariable_t.SetFloat fl l (fl.V_atof text))
  | _ => none

/-- The `switch ( op )` of `TestIfCondBlock` on two `int` values. -/
def TestIfCondBlock.switchInt (op : Nat) (l r : Int) : Bool :=
  match op with
  | 0 => l == r
  | 1 => l != r
  | 2 => decide (l ≥ r)
  | 3 => decide (l > r)
  | 4 => decide (l ≤ r)
  | 5 => decide (l < r)
  | _ => false

/-- Modelled from the spec: `FStrEq` of the engine, absent from src/, on two
pointers of which either may be `NULL` (`none`); it compares the characters of
both strings, so that the call has no defined result when one of them is
`NULL`. -/
def FStrEq.ptr (a b : Option CStr) : Option Bool :=
  match a, b with
  | some x, some y => some (FStrEq x y)
  | _, _ => none

/-- The `switch ( op )` of `TestIfCondBlock` on two strings as `GetString`
returns them: `==` and `!=` hand both to `FStrEq`, the other operators read
neither. -/
def TestIfCondBlock.switchString (op : Nat) (l r : Option CStr) : Option Bool :=
  match op with
  | 0 => FStrEq.ptr l r
  | 1 => (FStrEq.ptr l r).map fun b => !b
  | _ => some false

/-- The `// Test` block of `TestIfCondBlock`; `none` when it hands a `NULL` to
`FStrEq`. -/
def TestIfCondBlock.test (fl : FloatLib) (op : Nat) (pLVal pRVal : MapHackVariable_t fl.F) :
    Option Bool :=
  if pLVal.m_Type = MapHackType_t.TYPE_INT ∧ pRVal.m_Type = MapHackType_t.TYPE_INT then
    some (TestIfCondBlock.switchInt op pLVal.GetInt pRVal.GetInt)
  else if pLVal.m_Type = MapHackType_t.TYPE_FLOAT ∧
      pRVal.m_Type = MapHackType_t.TYPE_FLOAT then
    if op < 6 then
      some (fl.compare op (MapHackVariable_t.GetFloat fl pLVal)
        (MapHackVariable_t.GetFloat fl pRVal))
    else some false
  else if pLVal.m_Type = MapHackType_t.TYPE_STRING ∧
      pRVal.m_Type = MapHackType_t.TYPE_STRING then
    TestIfCondBlock.switchString op pLVal.GetString pRVal.GetString
  else some false

/-- `CMapHackManager::TestIfCondBlock`, with the variable store as the lookup
`GetVariableByName` and `errno` on entry as `errnoRange`: `some` of the
returned flag, `none` when the code reads `vecOutStrings[0]` or
`vecOutStrings[1]` although the split produced fewer strings, or compares a
String variable whose text is `NULL`. -/
def TestIfCondBlock (fl : FloatLib)
    (GetVariableByName : CStr → Option (MapHackVariable_t fl.F))
    (errnoRange : Bool) (psz : CStr) : Option Bool :=
  let found := TestIfCondBlock.split psz pszOps 0
  let cleared := found.2.map fun s => if s.head? = some '%' then ' ' :: s.drop 1 else s
  let vecOutStrings := cleared.map Q_StripPrecedingAndTrailingWhitespace
  match vecOutStrings with
  | l :: r :: _ =>
    let lType := GetTypeForString fl errnoRange l
    let rType := GetTypeForString fl lType.2 r
    match TestIfCondBlock.operand fl GetVariableByName lType.1 l,
        TestIfCondBlock.operand fl GetVariableByName rType.1 r with
    | some pLVal, some pRVal => TestIfCondBlock.test fl found.1 pLVal pRVal
    | _, _ => some false
  | _ => none

/-- A one-point stand-in for the float library, for conditions that touch no
float. -/
def unitFloat : FloatLib :=
  ⟨Unit, (), fun _ => (), fun _ _ _ => false, fun _ => [], fun _ => false⟩

/-- A variable store that holds the one String variable `s` with the text `5`. -/
def storeOfS : CStr → Option (MapHackVariable_t Unit) := fun pszName =>
  if pszName = ['s'] then some ⟨['s'], MapHackType_t.TYPE_STRING, some ['5'], 0, ()⟩ else none

/-- A variable store that holds the one Int variable `health` with the value
100. -/
def storeOfHealth : CStr → Option (MapHackVariable_t Unit) := fun pszName =>
  if pszName = "health".toList then
    some ⟨"health".toList, MapHackType_t.TYPE_INT, some "100".toList, 100, ()⟩
  else none

/-! ## Records in the quoted layout

The entity lump of a level and the lines written by `InsertValue` hold every
key and every value between double quotes.  `recordText` renders such a
record, with arbitrary whitespace before each key, between key and value and
before the closing brace. -/

/-- One `"key" "value"` pair of a record text together with the whitespace in
front of the key (`lead`) and between key and value (`sep`). -/
structure Entry where
  lead : CStr
  key : CStr
  sep : CStr
  value : CStr
  deriving DecidableEq, Repr

/-- The text of one pair. -/
def Entry.text (e : Entry) : CStr :=
  e.lead ++ (quoted e.key ++ (e.sep ++ quoted e.value))

/-- The text of a sequence of pairs. -/
def entriesText : List Entry → CStr
  | [] => []
  | e :: es => e.text ++ entriesText es

/-- The text of a record: its pairs, the whitespace `tail` and the closing
brace. -/
def recordText (es : List Entry) (tail : CStr) : CStr :=
  entriesText es ++ (tail ++ ['}'])

/-- Whitespace for the tokenizer: every character is at most the space. -/
def White (s : CStr) : Prop := ∀ c ∈ s, c.toNat ≤ 32

/-- A string free of the double quote and of the closing brace. -/
def Clean (s : CStr) : Prop := ∀ c ∈ s, c ≠ '"' ∧ c ≠ '}'

/-- A string that a quoted token of a record can hold: free of the double quote
and of the closing brace, and shorter than the token buffer. -/
def Plain (s : CStr) : Prop := Clean s ∧ s.length < MAPKEY_MAXLENGTH

/-- A well-formed pair: whitespace around plain tokens, and at least one
whitespace character between key and value. -/
def Entry.WF (e : Entry) : Prop :=
  White e.lead ∧ Plain e.key ∧ White e.sep ∧ e.sep ≠ [] ∧ Plain e.value

/-- A well-formed record: well-formed pairs, and at least one whitespace
character before the closing brace. -/
def RecordWF (es : List Entry) (tail : CStr) : Prop :=
  (∀ e ∈ es, e.WF) ∧ White tail ∧ tail ≠ []

instance (s : CStr) : Decidable (White s) := by unfold White; infer_instance

instance (s : CStr) : Decidable (Clean s) := by unfold Clean; infer_instance

instance (s : CStr) : Decidable (Plain s) := by unfold Plain; infer_instance

instance (e : Entry) : Decidable e.WF := by unfold Entry.WF; infer_instance

instance (es : List Entry) (tail : CStr) : Decidable (RecordWF es tail) := by
  unfold RecordWF; infer_instance

/-- The sequence of key/value pairs of a sequence of entries. -/
def pairsOf (es : List Entry) : List (CStr × CStr) :=
  es.map fun e => (e.key, e.value)

/-- What `GetKeyValue` is to find in a sequence of pairs: the value of the
first pair whose key equals `key` up to letter case. -/
def lookupNoCase (key : CStr) : List Entry → Option CStr
  | [] => none
  | e :: es => if V_stricmp e.key key then some e.value else lookupNoCase key es

/-- A sequence of pairs with the value of the first pair of key `key` replaced
by `value`. -/
def setFirstPair (key value : CStr) : List (CStr × CStr) → List (CStr × CStr)
  | [] => []
  | p :: ps => if p.1 = key then (p.1, value) :: ps else p :: setFirstPair key value ps

/-- The record `"k" "1"`, `"z" "2"` of the long-value examples, as
`BuildEntityList` stages it: the text after the opening brace and a block of
the text length plus `MAPHACK_ENTDATA_BLOCK_PADDING`. -/
def shortRecord : MapHackEntityData_t :=
  MapHackEntityData_t.new "\n\"k\" \"1\"\n\"z\" \"2\"\n\x7d".toList (18 + 1024)

/-- The text of `shortRecord` after `SetKeyValue( "k", v, 0 )` with a value of
1022 characters: the formatted value is cut after 1023 characters and has lost
its closing quote. -/
def cutText (v : CStr) : CStr :=
  "\n\"k\" \"".toList ++ (v ++ "\n\"z\" \"2\"\n\x7d".toList)

/-- The text of `shortRecord` after a second `SetKeyValue( "k", v, 0 )` with
the same value of 1022 characters. -/
def cutTwiceText (v : CStr) : CStr :=
  "\n\"k\" \"".toList ++ (v ++ "z\" \"2\"\n\x7d".toList)

/-- The line that `InsertValue` formats into `char szLine[256]`. -/
def insertLine (key value : CStr) : CStr :=
  V_sprintf_safe 256 ('\n' :: (quoted key ++ ' ' :: quoted value))

/-- The pair that `InsertValue` appends to a record whose closing brace was
preceded by the whitespace `tail`. -/
def insertedEntry (tail key value : CStr) : Entry :=
  ⟨tail.dropLast ++ ['\n'], key, [' '], value⟩

/-! ## `SetKeyValue` on a well-formed record -/

/-- The quoted new value as `SetKeyValue` formats it into `char szNewValue[1024]`. -/
def setValueText (value : CStr) : CStr :=
  V_sprintf_safe 1024 (quoted value)

/-- The record text after the replacement branch of `SetKeyValue` pasted the
text `sz` over the value of the first pair with key `key`: one whitespace
character is kept between the key and the pasted text. -/
def replacedText (key sz tail : CStr) : List Entry → CStr
  | [] => tail ++ ['}']
  | e :: es =>
    if e.key = key then
      e.lead ++ (quoted e.key ++ (e.sep.take 1 ++ (sz ++ recordText es tail)))
    else e.text ++ replacedText key sz tail es

/-- The pairs after `SetKeyValue` replaced the value of the first pair with
key `key`. -/
def setFirst (key value : CStr) : List Entry → List Entry
  | [] => []
  | e :: es =>
    if e.key = key then { e with sep := e.sep.take 1, value := value } :: es
    else e :: setFirst key value es

/-! ## Operands of a condition -/

/-- The operand strings of `TestIfCondBlock`: `vecOutStrings` after the split at
the first operator found, the clearing of a leading `%` and the strip. -/
def operandTexts (psz : CStr) : List CStr :=
  ((TestIfCondBlock.split psz pszOps 0).2.map fun s =>
    if s.head? = some '%' then ' ' :: s.drop 1 else s).map Q_StripPrecedingAndTrailingWhitespace

/-- The texts that the `strtod` of some C libraries reads to their end as a
float although they are outside the decimal form of `strtodEnd`: `inf`,
`infinity`, `nan` with an optional suffix in parentheses, and the hexadecimal
form, each after an optional sign and in any case of letters. -/
def specialFloat (s : CStr) : Bool :=
  let t := (s.drop (signLength s)).map Char.toLower
  t == "inf".toList || t == "infinity".toList || t == "nan".toList ||
    ("nan(".toList.isPrefixOf t && t.getLast? == some ')') || "0x".toList.isPrefixOf t

/-- A text that is not a number for `GetTypeForString`: neither the integer
scan nor the float scan reaches its end, and it is none of the special float
texts. -/
def NonNumeric (s : CStr) : Prop :=
  (strtol s).2.1 ≠ s.length ∧ strtodEnd s ≠ s.length ∧ specialFloat s = false

instance (s : CStr) : Decidable (NonNumeric s) := by unfold NonNumeric; infer_instance

/-- Whether `errno` is `ERANGE` when `TestIfCondBlock` returns, given whether
it was on entry: the flag as the two calls of `GetTypeForString` leave it.  No
statement of `TestIfCondBlock` or `GetTypeForString` assigns `errno`, so that
a range error of `strtol` or `strtod` stays for the calls that follow. -/
def TestIfCondBlock.errnoAfter (fl : FloatLib) (errnoRange : Bool) (psz : CStr) : Bool :=
  match operandTexts psz with
  | l :: r :: _ => (GetTypeForString fl (GetTypeForString fl errnoRange l).2 r).2
  | _ => errnoRange

/-! ## The manager: variables, events and the delayed queue

The containers `CUtlDict` and `CUtlVector` of the engine are absent from src/.
A dictionary is modelled by the list of its elements in the order in which
`FOR_EACH_DICT` walks them, an element pointer by the index of the element in
that list, and `Find` compares names without regard to the case of letters, as
the default of `CUtlDict` does.  Which of several elements of one name `Find`
gives depends on the shape of the tree of the container; the model gives the
first one, and the theorems about a lookup are stated for names that are held
once.  `Insert` puts the new element last, although the container walks its
elements in the order of their names; nothing below depends on the position. -/

/-- The kinds of `MapHackEventType_t`. -/
inductive MapHackEventType_t where
  | MAPHACK_EVENT_INVALID
  | MAPHACK_EVENT_TRIGGER
  | MAPHACK_EVENT_TIMED
  | MAPHACK_EVENT_OUTPUT
  | MAPHACK_EVENT_GAMEEVENT
  deriving DecidableEq, Repr

/-- `MapHackEvent_t` without the fields of the Output and GameEvent kinds;
`m_pKVData` is `none` for `NULL`, and `KV` is the type of the sub-trees. -/
structure MapHackEvent_t (F KV : Type) where
  m_szName : CStr
  m_Type : MapHackEventType_t
  m_bTriggered : Bool
  m_flTriggerTime : F
  m_pKVData : Option KV
  m_iDataType : Int
  m_bRepeat : Bool
  m_bStopped : Bool
  m_flDelayTime : F

/-- `MapHackDelayedEvent_t`; `m_pEvent` is the index of the event in
`m_dictEvents`. -/
structure MapHackDelayedEvent_t (F : Type) where
  m_pEvent : Nat
  m_flTriggerTime : F

/-- The members of `CMapHackManager` that the variable store and the scheduler
use. -/
structure CMapHackManager (F KV : Type) where
  m_dictEvents : List (MapHackEvent_t F KV)
  m_dictVars : List (MapHackVariable_t F)
  m_vecEventQueue : List (MapHackDelayedEvent_t F)
  m_bPreEntity : Bool

/-- `CMapHackManager::GetVariableByName`. -/
def GetVariableByName {F KV : Type} (self : CMapHackManager F KV) (pszName : CStr) :
    Option (MapHackVariable_t F) :=
  self.m_dictVars.find? fun v => V_stricmp v.m_szName pszName

/-- `MapHack_GetTypeByIdentifier` on a string that is not `NULL`. -/
def MapHack_GetTypeByIdentifier (pszIdent : CStr) : MapHackType_t :=
  if FStrEq pszIdent "int".toList then MapHackType_t.TYPE_INT
  else if FStrEq pszIdent "float".toList then MapHackType_t.TYPE_FLOAT
  else if FStrEq pszIdent "string".toList then MapHackType_t.TYPE_STRING
  else if FStrEq pszIdent "color".toList then MapHackType_t.TYPE_COLOR
  else MapHackType_t.TYPE_NONE

/-- One sub-key of the `vars` section: its name and its `type` and `value`
strings, `none` for a key that the sub-key does not hold. -/
structure VarDecl where
  name : CStr
  type : Option CStr
  value : Option CStr

/-- Modelled from the spec: `sscanf( s, "%d %d %d", ... ) == 3` of the C library
is absent from src/; three decimal integers, each after optional whitespace. -/
def sscanf3 (s : CStr) : Option (Int × Int × Int) :=
  let a := strtol s
  let s1 := s.drop a.2.1
  let b := strtol s1
  let c := strtol (s1.drop b.2.1)
  if a.2.1 = 0 ∨ b.2.1 = 0 ∨ c.2.1 = 0 then none
  else some (toInt32 a.1, toInt32 b.1, toInt32 c.1)

/-- The text `"%d %d %d"` of a colour, whose channels are stored as
`unsigned char`. -/
def colorText (clr : Int × Int × Int) : CStr :=
  decimalText (clr.1 % 256) ++ ' ' :: (decimalText (clr.2.1 % 256) ++
    ' ' :: decimalText (clr.2.2 % 256))

/-- The body of the loop of `RegisterVariables`: the variable made from one
sub-key, `none` when the type is unknown and the sub-key is skipped.  A colour
whose value `sscanf` does not read as three integers is inserted as the
constructor left it, with `m_pszValue` still `NULL`. -/
def RegisterVariables.make (fl : FloatLib) (pVariable : VarDecl) :
    Option (MapHackVariable_t fl.F) :=
  let pszType := pVariable.type.getD "int".toList
  let pszValue := pVariable.value.getD ['0']
  let pVar : MapHackVariable_t fl.F :=
    { MapHackVariable_t.init fl with m_szName := V_strncpy pVariable.name 128 }
  match MapHack_GetTypeByIdentifier pszType with
  | MapHackType_t.TYPE_NONE => none
  | MapHackType_t.TYPE_INT =>
    some (MapHackVariable_t.SetInt fl { pVar with m_Type := MapHackType_t.TYPE_INT }
      (V_atoi pszValue))
  | MapHackType_t.TYPE_FLOAT =>
    some (MapHackVariable_t.SetFloat fl { pVar with m_Type := MapHackType_t.TYPE_FLOAT }
      (fl.V_atof pszValue))
  | MapHackType_t.TYPE_STRING =>
    some (MapHackVariable_t.SetString { pVar with m_Type := MapHackType_t.TYPE_STRING } pszValue)
  | MapHackType_t.TYPE_COLOR =>
    match sscanf3 pszValue with
    | some clr =>
      some { pVar with m_Type := MapHackType_t.TYPE_COLOR, m_pszValue := some (colorText clr) }
    | none => some { pVar with m_Type := MapHackType_t.TYPE_COLOR }

/-- `CMapHackManager::RegisterVariables` on the sub-keys of the `vars` section. -/
def RegisterVariables (fl : FloatLib) {KV : Type} (self : CMapHackManager fl.F KV) :
    List VarDecl → CMapHackManager fl.F KV
  | [] => self
  | pVariable :: rest =>
    match RegisterVariables.make fl pVariable with
    | none => RegisterVariables fl self rest
    | some pVar =>
      RegisterVariables fl { self with m_dictVars := self.m_dictVars ++ [pVar] } rest

/-- What `MapHack_VariableValueHelper` gives back: the returned string (`none`
for `NULL`), the type that it stores through `pType` when it stores one, the
warning that it prints when it prints one, and the manager afterwards. -/
structure VariableValue (F KV : Type) where
  value : Option CStr
  type : Option MapHackType_t
  warning : Option CStr
  manager : CMapHackManager F KV

/-- `MapHack_VariableValueHelper`, with the manager of `GetMapHackManager()`
passed in. -/
def MapHack_VariableValueHelper {F KV : Type} (self : CMapHackManager F KV)
    (pszValue : Option CStr) : VariableValue F KV :=
  match pszValue with
  | some ('%' :: pszVar) =>
    match GetVariableByName self pszVar with
    | none =>
      ⟨pszValue, none,
        some ("MapHack WARNING: Variable \"".toList ++ pszVar ++ "\" does not exist!\n".toList),
        self⟩
    | some pVar => ⟨pVar.m_pszValue, some pVar.m_Type, none, self⟩
  | _ => ⟨pszValue, none, none, self⟩

/-- A manager without variables, events and queue entries, in post-phase. -/
def emptyManager : CMapHackManager Unit Unit := ⟨[], [], [], false⟩

/-- A manager whose store holds the one Int variable `health` of value 100. -/
def managerOfHealth : CMapHackManager Unit Unit :=
  ⟨[], [⟨"health".toList, MapHackType_t.TYPE_INT, some "100".toList, 100, ()⟩], [], false⟩

/-! ## The scheduler

Times are values of the `float` type `fl.F`; `fl.compare 3` is `>`,
`fl.compare 4` is `<=` and `fl.zero` is `0.0f`.  The directive interpreter
(`RunEntities` with everything that it dispatches to, and `Precache`) enters as
a parameter: a run of a sub-tree at a time gives the manager after the run and
the messages that it handed to `MapHack_DebugMsg` and `Warning`, and what is
proved about the scheduler holds whatever the run does.  The functions of the
scheduler give the manager afterwards together with their messages; the
message `Triggered event` marks a fire. -/

/-- What the scheduler takes from outside: the sum of two floats and the
interpreter. -/
structure Engine (fl : FloatLib) (KV : Type) where
  add : fl.F → fl.F → fl.F
  RunEntities : fl.F → KV → CMapHackManager fl.F KV → CMapHackManager fl.F KV × List CStr
  Precache : KV → List CStr

/-- The constructor of `MapHackEvent_t`. -/
def MapHackEvent_t.init (fl : FloatLib) (KV : Type) : MapHackEvent_t fl.F KV :=
  ⟨[], MapHackEventType_t.MAPHACK_EVENT_INVALID, false, fl.zero, none, -1, false, false, fl.zero⟩

/-- The event that `RegisterEvents` makes in its `case MAPHACK_EVENT_TRIGGER`,
which waits for a manual trigger. -/
def RegisterEvents.trigger (fl : FloatLib) (KV : Type) (pszName : CStr) :
    MapHackEvent_t fl.F KV :=
  { MapHackEvent_t.init fl KV with
    m_szName := V_strncpy pszName 128
    m_Type := MapHackEventType_t.MAPHACK_EVENT_TRIGGER
    m_bTriggered := true
    m_flTriggerTime := fl.zero }

/-- The event that `RegisterEvents` makes in its `case MAPHACK_EVENT_TIMED`, from
the name of the sub-key and its `delay`, `repeat` and `startdisabled` values as
`GetFloat` and `GetBool` read them. -/
def RegisterEvents.timed (fl : FloatLib) (KV : Type) (pszName : CStr) (delay : fl.F)
    (bRepeat : Bool) (startdisabled : Bool) : MapHackEvent_t fl.F KV :=
  { MapHackEvent_t.init fl KV with
    m_szName := V_strncpy pszName 128
    m_Type := MapHackEventType_t.MAPHACK_EVENT_TIMED
    m_flDelayTime := delay
    m_bRepeat := bRepeat
    m_bStopped := startdisabled }

/-- The assignment of `RegisterEvents` at a label that it found for the event:
the data type of the label and a copy of the sub-tree. -/
def RegisterEvents.label {F KV : Type} (pEvent : MapHackEvent_t F KV) (dataType : Int)
    (pSub : KV) : MapHackEvent_t F KV :=
  { pEvent with m_iDataType := dataType, m_pKVData := some pSub }

/-- `CMapHackManager::GetEventByName`: the index of the event, `none` for
`NULL`. -/
def GetEventByName {F KV : Type} (self : CMapHackManager F KV) (pszName : CStr) : Option Nat :=
  self.m_dictEvents.findIdx? fun e => V_stricmp e.m_szName pszName

/-- Modelled from the spec: `GetEventByName` on a name pointer that may be
`NULL` (`none`); `CUtlDict::Find` of the engine, absent from src/, gives the
invalid index for a `NULL` name, so that no event is found. -/
def GetEventByName.ptr {F KV : Type} (self : CMapHackManager F KV) (pszName : Option CStr) :
    Option Nat :=
  match pszName with
  | some name => GetEventByName self name
  | none => none

/-- Modelled from the spec: the `%s` of the engine's message functions, absent
from src/, for a pointer that may be `NULL`, which the C libraries of the
engine's targets print as `(null)`. -/
def printedName (psz : Option CStr) : CStr :=
  match psz with
  | some s => s
  | none => "(null)".toList

/-- The message `Triggered event "%s"\n` of `TriggerEvent`. -/
def triggeredMsg (name : CStr) : CStr :=
  "Triggered event \"".toList ++ name ++ "\"\n".toList

/-- The end of `TriggerEvent`, on the event as the run of the sub-tree left it:
`m_bTriggered = true`, and the next fire time of a repeating event. -/
def TriggerEvent.finish {fl : FloatLib} {KV : Type} (env : Engine fl KV) (curtime : fl.F)
    (pEvent : MapHackEvent_t fl.F KV) : MapHackEvent_t fl.F KV :=
  { pEvent with
    m_bTriggered := true
    m_flTriggerTime :=
      if pEvent.m_bRepeat then env.add curtime pEvent.m_flDelayTime else pEvent.m_flTriggerTime }

/-- The run of the sub-tree in `TriggerEvent`, by `m_iDataType`. -/
def TriggerEvent.run {fl : FloatLib} {KV : Type} (env : Engine fl KV) (curtime : fl.F)
    (self : CMapHackManager fl.F KV) (m_iDataType : Int) (m_pKVData : KV) :
    CMapHackManager fl.F KV × List CStr :=
  if m_iDataType = 0 then env.RunEntities curtime m_pKVData self
  else if m_iDataType = 1 then (self, env.Precache m_pKVData)
  else (self, [])

/-- A write through an event pointer: the event at index `i` replaced by its
image under `f`. -/
def writeEvent {F KV : Type} (self : CMapHackManager F KV) (i : Nat)
    (f : MapHackEvent_t F KV → MapHackEvent_t F KV) : CMapHackManager F KV :=
  match self.m_dictEvents[i]? with
  | some e => { self with m_dictEvents := self.m_dictEvents.set i (f e) }
  | none => self

/-- `CMapHackManager::TriggerEvent` at the time `curtime`; `pEvent` is `none`
for `NULL`, and an index that the dictionary does not hold is treated like
`NULL`. -/
def TriggerEvent {fl : FloatLib} {KV : Type} (env : Engine fl KV) (curtime : fl.F)
    (self : CMapHackManager fl.F KV) (pEvent : Option Nat) (flDelay : fl.F) :
    CMapHackManager fl.F KV × List CStr :=
  match pEvent with
  | none => (self, [])
  | some i =>
    match self.m_dictEvents[i]? with
    | none => (self, [])
    | some ev =>
      match ev.m_pKVData with
      | none => (self, [])
      | some kv =>
        if fl.compare 3 flDelay fl.zero then
          ({ self with
              m_vecEventQueue := self.m_vecEventQueue ++ [⟨i, env.add curtime flDelay⟩] }, [])
        else
          let r := TriggerEvent.run env curtime self ev.m_iDataType kv
          (writeEvent r.1 i (TriggerEvent.finish env curtime), triggeredMsg ev.m_szName :: r.2)

/-- The body of the first loop of `HandleEvents` at the dictionary index `i`,
with the messages so far. -/
def HandleEvents.timed {fl : FloatLib} {KV : Type} (env : Engine fl KV) (curtime : fl.F)
    (acc : CMapHackManager fl.F KV × List CStr) (i : Nat) :
    CMapHackManager fl.F KV × List CStr :=
  match acc.1.m_dictEvents[i]? with
  | none => acc
  | some pEvent =>
    if pEvent.m_Type = MapHackEventType_t.MAPHACK_EVENT_TIMED then
      if (pEvent.m_bTriggered && !pEvent.m_bRepeat) || pEvent.m_bStopped then acc
      else if fl.compare 4 pEvent.m_flTriggerTime curtime then
        let r := TriggerEvent env curtime acc.1 (some i) fl.zero
        (r.1, acc.2 ++ r.2)
      else acc
    else acc

/-- Modelled from the spec: `CUtlVector::FastRemove( elem )` of the engine is
absent from src/; it copies the last element into the slot `elem` and shortens
the vector by one. -/
def FastRemove {α : Type} (v : List α) (elem : Nat) : List α :=
  match v.getLast? with
  | none => v
  | some last => (v.set elem last).dropLast

/-- The loop `FOR_EACH_VEC( m_vecEventQueue, i )` of `HandleEvents` from the
index `i` on, the count read anew at every turn; `none` when the fuel runs out
before the loop ends. -/
def HandleEvents.queue {fl : FloatLib} {KV : Type} (env : Engine fl KV) (curtime : fl.F) :
    Nat → Nat → CMapHackManager fl.F KV × List CStr →
      Option (CMapHackManager fl.F KV × List CStr)
  | 0, _, _ => none
  | fuel + 1, i, acc =>
    match acc.1.m_vecEventQueue[i]? with
    | none => some acc
    | some delayed =>
      if fl.compare 4 delayed.m_flTriggerTime curtime then
        let r := TriggerEvent env curtime acc.1 (some delayed.m_pEvent) fl.zero
        HandleEvents.queue env curtime fuel (i + 1)
          ({ r.1 with m_vecEventQueue := FastRemove r.1.m_vecEventQueue i }, acc.2 ++ r.2)
      else HandleEvents.queue env curtime fuel (i + 1) acc

/-- `CMapHackManager::HandleEvents` at the time `curtime`: the walk over the
positions that the dictionary has when it starts, then the delayed queue. -/
def HandleEvents {fl : FloatLib} {KV : Type} (env : Engine fl KV) (curtime : fl.F) (fuel : Nat)
    (self : CMapHackManager fl.F KV) : Option (CMapHackManager fl.F KV × List CStr) :=
  HandleEvents.queue env curtime fuel 0
    ((List.range self.m_dictEvents.length).foldl (HandleEvents.timed env curtime) (self, []))

/-- The keys of a `$start` node: `event`, and `delay` when the node holds it. -/
structure StartKV where
  event : CStr
  delay : Option CStr

/-- `CMapHackManager::KvStartEvent` at the time `curtime`. -/
def KvStartEvent {fl : FloatLib} {KV : Type} (curtime : fl.F) (self : CMapHackManager fl.F KV)
    (pKV : StartKV) : CMapHackManager fl.F KV × List CStr :=
  if self.m_bPreEntity then (self, [])
  else
    let pszEventName := (MapHack_VariableValueHelper self (some pKV.event)).value
    let pszDelay := (MapHack_VariableValueHelper self pKV.delay).value
    let warnings := ((MapHack_VariableValueHelper self (some pKV.event)).warning).toList ++
      ((MapHack_VariableValueHelper self pKV.delay).warning).toList
    match GetEventByName.ptr self pszEventName with
    | some i =>
      (writeEvent self i fun pEvent =>
        { pEvent with
          m_bStopped := false
          m_flTriggerTime := curtime
          m_flDelayTime :=
            match pszDelay with
            | some d => fl.V_atof d
            | none => pEvent.m_flDelayTime },
        warnings ++ ["Started event \"".toList ++ printedName pszEventName ++ "\"\n".toList])
    | none =>
      (self, warnings ++
        ["MapHack WARNING: Event \"".toList ++ printedName pszEventName ++
          "\" doesn't exist!\n".toList])

/-- `CMapHackManager::KvStopEvent`. -/
def KvStopEvent {F KV : Type} (self : CMapHackManager F KV) (event : CStr) :
    CMapHackManager F KV × List CStr :=
  if self.m_bPreEntity then (self, [])
  else
    let pszEventName := (MapHack_VariableValueHelper self (some event)).value
    let warnings := ((MapHack_VariableValueHelper self (some event)).warning).toList
    match GetEventByName.ptr self pszEventName with
    | some i =>
      (writeEvent self i fun pEvent => { pEvent with m_bTriggered := false, m_bStopped := true },
        warnings ++ ["Stopped event \"".toList ++ printedName pszEventName ++ "\"\n".toList])
    | none =>
      (self, warnings ++
        ["MapHack WARNING: Event \"".toList ++ printedName pszEventName ++
          "\" doesn't exist!\n".toList])

/-- A stand-in for the float library on whole numbers, on which the sums and
comparisons of floats are exact. -/
@[reducible] def intFloat : FloatLib :=
  ⟨Int, 0, V_atoi, intCompare, decimalText, fun _ => false⟩

/-- An engine over `intFloat` whose sub-trees do nothing. -/
def idleEngine : Engine intFloat Unit :=
  ⟨Int.add, fun _ _ self => (self, []), fun _ => []⟩

/-- The message of the sub-trees of `tracingEngine`. -/
def ranMsg : CStr := "ran the sub-tree\n".toList

/-- The message of the precache lists of `tracingEngine`. -/
def precachedMsg : CStr := "precached\n".toList

/-- An engine over `intFloat` whose sub-trees leave the manager alone and print
`ranMsg`, and whose precache lists print `precachedMsg`. -/
def tracingEngine : Engine intFloat Unit :=
  ⟨Int.add, fun _ _ self => (self, [ranMsg]), fun _ => [precachedMsg]⟩

/-- The Timed event `t` with a delay of 2 and `repeat`, registered with an
`entities` sub-tree. -/
def timerEvent (startdisabled : Bool) : MapHackEvent_t Int Unit :=
  RegisterEvents.label (RegisterEvents.timed intFloat Unit ['t'] 2 true startdisabled) 0 ()

/-- The Timed event `t` without `repeat`, after its one fire. -/
def firedOnceEvent : MapHackEvent_t Int Unit :=
  { RegisterEvents.label (RegisterEvents.timed intFloat Unit ['t'] 2 false false) 0 () with
    m_bTriggered := true }

/-- A manager in post-phase that holds the given events and nothing else. -/
def managerOfEvents (events : List (MapHackEvent_t Int Unit)) : CMapHackManager Int Unit :=
  ⟨events, [], [], false⟩

/-- The manual-trigger event of the given name, registered with an `entities`
sub-tree. -/
def manualEvent (name : CStr) : MapHackEvent_t Int Unit :=
  RegisterEvents.label (RegisterEvents.trigger intFloat Unit name) 0 ()

/-- The entries of a delayed queue as pairs of event index and fire time. -/
def queueView {F KV : Type} (self : CMapHackManager F KV) : List (Nat × F) :=
  self.m_vecEventQueue.map fun d => (d.m_pEvent, d.m_flTriggerTime)

/-! ## Bounded copies

`ParseEntityData` copies into `new char[size]` and `GetEntDataString` into an
output of `outSize` characters.  The functions below list the indices of the
array that the code writes, in the order of the writes. -/

/-- The copy loop of `ParseEntityData` from the buffer index `bufIdx` on: the
indices of `pszNewData` that it writes, and `bufIdx` when it ends. -/
def ParseEntityData.loop (size : Nat) : Nat → CStr → List Nat × Nat
  | bufIdx, [] => ([], bufIdx)
  | bufIdx, c :: rest =>
    if bufIdx ≥ size then ([], bufIdx)
    else if c = '}' then ([bufIdx, bufIdx + 1], bufIdx + 1)
    else
      let r := ParseEntityData.loop size (bufIdx + 1) rest
      (bufIdx :: r.1, r.2)

/-- The indices of `pszNewData` that `ParseEntityData` writes: those of the
loop, then the one of the terminator after the bounds check. -/
def ParseEntityData.writes (pszEntData : CStr) (size : Nat) : List Nat :=
  let r := ParseEntityData.loop size 0 pszEntData
  r.1 ++ [if r.2 ≥ size then size - 1 else r.2]

/-- `CMapHackManager::ParseEntityData`: the record that holds the copied text,
`none` when a write falls outside of the `size` characters of the array. -/
def ParseEntityData (pszEntData : CStr) (size : Nat) : Option MapHackEntityData_t :=
  if ∀ i ∈ ParseEntityData.writes pszEntData size, i < size then
    some (MapHackEntityData_t.new ((throughBrace pszEntData).take (size - 1)) size)
  else none

/-- The copy loop of `GetEntDataString` from the output index `outIdx` on: the
indices of `pszOut` that it writes, and `outIdx` when it ends. -/
def GetEntDataString.loop (outSize : Nat) : Nat → CStr → List Nat × Nat
  | outIdx, [] => ([], outIdx)
  | outIdx, c :: rest =>
    if outIdx ≥ outSize then ([], outIdx)
    else if c = '}' then ([outIdx, outIdx + 1], outIdx + 1)
    else
      let r := GetEntDataString.loop outSize (outIdx + 1) rest
      (outIdx :: r.1, r.2)

/-- The indices of `pszOut` that `GetEntDataString` writes: index 0 for the
opening brace, those of the loop, then the one of the terminator. -/
def GetEntDataString.writes (pEntData : MapHackEntityData_t) (outSize : Nat) : List Nat :=
  let r := GetEntDataString.loop outSize 1 pEntData.m_pEntData
  0 :: (r.1 ++ [if r.2 ≥ outSize then outSize - 1 else r.2])

/-! ## The document model and the match predicate -/

/-- Modelled from the spec: the document model `KeyValues` of the engine is
absent from src/; a named node that holds either a string or an ordered list of
sub-keys. -/
inductive KeyValues where
  | value (name : CStr) (string : CStr)
  | block (name : CStr) (subKeys : List KeyValues)

/-- The result of `KeyValues::GetName`. -/
def KeyValues.GetName : KeyValues → CStr
  | KeyValues.value name _ => name
  | KeyValues.block name _ => name

/-- The result of `KeyValues::GetString()` on the node itself: its string, and
the empty default for a node that holds sub-keys. -/
def KeyValues.GetString : KeyValues → CStr
  | KeyValues.value _ string => string
  | KeyValues.block _ _ => []

/-- The chain `GetFirstSubKey()`, `GetNextKey()`: all sub-keys in order. -/
def KeyValues.subKeys : KeyValues → List KeyValues
  | KeyValues.value _ _ => []
  | KeyValues.block _ subKeys => subKeys

/-- Whether a node holds sub-keys rather than a string. -/
def KeyValues.isBlock : KeyValues → Bool
  | KeyValues.value _ _ => false
  | KeyValues.block _ _ => true

/-- The chain `GetFirstTrueSubKey()`, `GetNextTrueSubKey()`: the sub-keys that
hold sub-keys themselves. -/
def KeyValues.trueSubKeys (kv : KeyValues) : List KeyValues :=
  kv.subKeys.filter KeyValues.isBlock

/-- The result of `KeyValues::FindKey( name )`: the first sub-key of that name,
names compared without regard to the case of letters. -/
def KeyValues.FindKey (kv : KeyValues) (name : CStr) : Option KeyValues :=
  kv.subKeys.find? fun k => V_stricmp k.GetName name

/-- The result of `KeyValues::GetString( name, default )`: the string of the
sub-key, the default (`none` for `NULL`) without such a sub-key or when it holds
sub-keys. -/
def KeyValues.GetStringOf (kv : KeyValues) (name : CStr) (defaultValue : Option CStr) :
    Option CStr :=
  match kv.FindKey name with
  | some (KeyValues.value _ string) => some string
  | _ => defaultValue

/-- The loop of the template `CMapHackManager::HasMatches` over the sub-keys of
`pParentNode`, with `totalKeys` and `totalMatches` so far; `GetKeyValue` is the
lookup of the entity variant with its buffer size, `none` where it has no
defined result.  The loop has no defined result either when the key is found
and the expected value resolves to `NULL`, the text of a variable that was
never set, which it hands to `FStrEq`. -/
def HasMatches.loop {F KV : Type} (self : CMapHackManager F KV)
    (GetKeyValue : CStr → Nat → Option (Option CStr)) :
    List KeyValues → Nat → Nat → Option (Nat × Nat)
  | [], totalKeys, totalMatches => some (totalKeys, totalMatches)
  | pMatchNode :: rest, totalKeys, totalMatches =>
    let pszMatchValue := (MapHack_VariableValueHelper self (some pMatchNode.GetString)).value
    match GetKeyValue pMatchNode.GetName 256 with
    | none => none
    | some (some szTempValue) =>
      match FStrEq.ptr (some szTempValue) pszMatchValue with
      | none => none
      | some eq =>
        HasMatches.loop self GetKeyValue rest (totalKeys + 1)
          (if eq then totalMatches + 1 else totalMatches)
    | some none => HasMatches.loop self GetKeyValue rest (totalKeys + 1) totalMatches

/-- The template `CMapHackManager::HasMatches`. -/
def HasMatches {F KV : Type} (self : CMapHackManager F KV) (pParentNode : KeyValues)
    (GetKeyValue : CStr → Nat → Option (Option CStr)) : Option Bool :=
  (HasMatches.loop self GetKeyValue pParentNode.subKeys 0 0).map fun r =>
    r.1 != 0 && r.1 == r.2

/-- What `HasMatches` asks of one sub-key of the match block on a record with
the pairs `es`: the record holds a key of that name, up to the case of letters,
and the first 255 characters of the value of the first such pair equal the
expected value, after substitution, up to the case of letters. -/
def nodeMatches {F KV : Type} (self : CMapHackManager F KV) (es : List Entry)
    (pMatchNode : KeyValues) : Bool :=
  match lookupNoCase pMatchNode.GetName es,
      (MapHack_VariableValueHelper self (some pMatchNode.GetString)).value with
  | some v, some expected => FStrEq (V_strncpy v 256) expected
  | _, _ => false

/-- The pre-entity branch of `CMapHackManager::KvFilter` over `m_vecEntData`:
the records that stay, `none` where a call on a record has no defined result. -/
def KvFilter.pre {F KV : Type} (self : CMapHackManager F KV) (pKV : KeyValues) :
    List MapHackEntityData_t → Option (List MapHackEntityData_t)
  | [] => some []
  | pEntData :: rest =>
    match GetFirstKey pEntData with
    | none => none
    | some (none, r) => (KvFilter.pre self pKV rest).map fun kept => r :: kept
    | some (some _, r) =>
      match HasMatches self pKV (GetKeyValue r) with
      | none => none
      | some true => KvFilter.pre self pKV rest
      | some false => (KvFilter.pre self pKV rest).map fun kept => r :: kept

/-- The loop `while ( pEntData->GetNextKey( ... ) )` of the pre-entity branch of
`KvRemoveAllEntities`: whether it found the class name, and the record with the
moved iteration pointer. -/
def KvRemoveAllEntities.scan (classname : CStr) :
    Nat → MapHackEntityData_t → Option (Bool × MapHackEntityData_t)
  | 0, _ => none
  | n + 1, pEntData =>
    match GetNextKey pEntData with
    | none => none
    | some (none, r) => some (false, r)
    | some (some (szKeyName, szValue), r) =>
      if FStrEq szKeyName "classname".toList && FStrEq szValue classname then some (true, r)
      else KvRemoveAllEntities.scan classname n r

/-- The pre-entity branch of `CMapHackManager::KvRemoveAllEntities` over
`m_vecEntData`: the records that stay. -/
def KvRemoveAllEntities.pre (pKV : KeyValues) :
    List MapHackEntityData_t → Option (List MapHackEntityData_t)
  | [] => some []
  | pEntData :: rest =>
    let classname := (pKV.GetStringOf "classname".toList (some [])).getD []
    match GetFirstKey pEntData with
    | none => none
    | some (none, r) => (KvRemoveAllEntities.pre pKV rest).map fun kept => r :: kept
    | some (some _, r) =>
      match KvRemoveAllEntities.scan classname (r.m_pEntData.length + 1) r with
      | none => none
      | some (true, _) => KvRemoveAllEntities.pre pKV rest
      | some (false, r2) => (KvRemoveAllEntities.pre pKV rest).map fun kept => r2 :: kept

/-- The staged record with the given pairs, one per line. -/
def recordOf (pairs : List (CStr × CStr)) : MapHackEntityData_t :=
  MapHackEntityData_t.new
    (recordText (pairs.map fun p => ⟨['\n'], p.1, [' '], p.2⟩) ['\n'])
    ((recordText (pairs.map fun p => ⟨['\n'], p.1, [' '], p.2⟩) ['\n']).length + 1024)

/-- The layout of a staged record: its pairs, the whitespace before the closing
brace, the iteration pointer and the block size. -/
structure Layout where
  es : List Entry
  tail : CStr
  cur : Cursor
  blockSize : Nat

/-- The staged record of a layout. -/
def Layout.record (l : Layout) : MapHackEntityData_t :=
  ⟨recordText l.es l.tail, l.cur, l.blockSize⟩

/-- What the pre-entity `$filter` asks of a record with the pairs `es`: the
node has a sub-key, and every sub-key is matched. -/
def filterMatches {F KV : Type} (self : CMapHackManager F KV) (pKV : KeyValues)
    (es : List Entry) : Bool :=
  !pKV.subKeys.isEmpty && pKV.subKeys.all (nodeMatches self es)

/-- A pair that the pre-entity `$remove_all` takes for the class name `c`: the
key is `classname` and the value is `c`, both up to the case of letters (and
the key up to trailing spaces). -/
def isClassPair (c : CStr) (e : Entry) : Bool :=
  FStrEq (stripTrailingSpaces e.key) "classname".toList && FStrEq e.value c

/-! ## Live entities -/

/-- What the manager takes from the live-entity runtime, for entities of the
type `E`: `IsPlayer()`, `ClassMatches( name )`, whether the pooled string of a
name is the entity name, and `GetKeyValue( name, buf, size )` with the value
that it finds. -/
structure EntityLib (E : Type) where
  IsPlayer : E → Bool
  ClassMatches : E → CStr → Bool
  HasEntityName : E → CStr → Bool
  GetKeyValue : E → CStr → Nat → Option CStr

/-- `MapHack_IsSafeEntity`; `none` is the `NULL` pointer. -/
def MapHack_IsSafeEntity {E : Type} (lib : EntityLib E) (pEntity : Option E) : Bool :=
  match pEntity with
  | none => false
  | some e => !(lib.IsPlayer e || lib.ClassMatches e "worldspawn".toList)

/-- The post-entity branch of `CMapHackManager::KvFilter` over the entity list:
the entities that it hands to `UTIL_Remove`, in order.  Where `HasMatches` has
no defined result the list ends: nothing is known to be removed after that. -/
def KvFilter.post {E F KV : Type} (lib : EntityLib E) (self : CMapHackManager F KV)
    (pKV : KeyValues) : List (Option E) → List E
  | [] => []
  | none :: rest => KvFilter.post lib self pKV rest
  | some pEntity :: rest =>
    if !MapHack_IsSafeEntity lib (some pEntity) then KvFilter.post lib self pKV rest
    else
      match HasMatches self pKV (fun name size => some (lib.GetKeyValue pEntity name size)) with
      | none => []
      | some true => pEntity :: KvFilter.post lib self pKV rest
      | some false => KvFilter.post lib self pKV rest

/-- One of the two loops of the post-entity branch of `KvRemoveAllEntities`:
the safe entities that the test selects. -/
def KvRemoveAllEntities.loop {E : Type} (lib : EntityLib E) (test : E → Bool) :
    List (Option E) → List E
  | [] => []
  | none :: rest => KvRemoveAllEntities.loop lib test rest
  | some pEntity :: rest =>
    if !MapHack_IsSafeEntity lib (some pEntity) then KvRemoveAllEntities.loop lib test rest
    else if test pEntity then pEntity :: KvRemoveAllEntities.loop lib test rest
    else KvRemoveAllEntities.loop lib test rest

/-- The post-entity branch of `CMapHackManager::KvRemoveAllEntities`: the
entities that it hands to `UTIL_Remove`, by target name when the node holds
one, by class name otherwise. -/
def KvRemoveAllEntities.post {E F KV : Type} (lib : EntityLib E) (self : CMapHackManager F KV)
    (pKV : KeyValues) (gEntList : List (Option E)) : List E :=
  match (MapHack_VariableValueHelper self
      (pKV.GetStringOf "targetname".toList none)).value with
  | some pszTargetName =>
    KvRemoveAllEntities.loop lib (fun e => lib.HasEntityName e pszTargetName) gEntList
  | none =>
    match (MapHack_VariableValueHelper self
        (pKV.GetStringOf "classname".toList none)).value with
    | some pszClassName =>
      KvRemoveAllEntities.loop lib (fun e => lib.ClassMatches e pszClassName) gEntList
    | none => []

/-- A live entity of the examples: whether it is a player, its class name, its
target name and its key/value pairs. -/
structure SampleEntity where
  player : Bool
  classname : CStr
  targetname : CStr
  pairs : List (CStr × CStr)

/-- The runtime of the sample entities, with names compared without regard to
the case of letters. -/
def sampleLib : EntityLib SampleEntity :=
  ⟨fun e => e.player, fun e name => V_stricmp e.classname name,
    fun e name => V_stricmp e.targetname name,
    fun e name size =>
      (e.pairs.find? fun p => V_stricmp p.1 name).map fun p => V_strncpy p.2 size⟩

/-- The world entity of the examples. -/
def sampleWorld : SampleEntity :=
  ⟨false, "worldspawn".toList, ['x'], [("classname".toList, "worldspawn".toList)]⟩

/-- The player of the examples, named `x`. -/
def samplePlayer : SampleEntity :=
  ⟨true, "player".toList, ['x'], [("classname".toList, "player".toList)]⟩

/-- A prop of the examples, named `x`. -/
def sampleProp : SampleEntity :=
  ⟨false, "prop".toList, ['x'], [("classname".toList, "prop".toList)]⟩

/-! ## Registration of events -/

/-- The table `g_pszMapHackKeyWords`. -/
def g_pszMapHackKeyWords : List CStr :=
  ["entities".toList, "events".toList, "precache".toList, "vars".toList, "includes".toList,
    "pre_entities".toList]

/-- `MapHack_IsKeyWord`. -/
def MapHack_IsKeyWord (psz : CStr) : Bool :=
  g_pszMapHackKeyWords.any fun keyWord => FStrEq psz keyWord

/-- `MapHack_GetLabel( psz, &dataType )`: the returned string, and the data type
afterwards (`dataType` is its value before the call). -/
def MapHack_GetLabel (psz : CStr) (dataType : Int) : CStr × Int :=
  match findChar ':' psz with
  | some i =>
    let pszChr := psz.drop (i + 1)
    (pszChr,
      if FStrEq pszChr "entities".toList then 0
      else if FStrEq pszChr "precache".toList then 1
      else dataType)
  | none => (psz, dataType)

/-- `CMapHackManager::GetEventTypeByString`. -/
def GetEventTypeByString (pszString : CStr) : MapHackEventType_t :=
  if FStrEq pszString "EVENT_TRIGGER".toList then MapHackEventType_t.MAPHACK_EVENT_TRIGGER
  else if FStrEq pszString "EVENT_TIMED".toList then MapHackEventType_t.MAPHACK_EVENT_TIMED
  else if FStrEq pszString "EVENT_OUTPUT".toList then MapHackEventType_t.MAPHACK_EVENT_OUTPUT
  else if FStrEq pszString "EVENT_GAMEEVENT".toList then
    MapHackEventType_t.MAPHACK_EVENT_GAMEEVENT
  else MapHackEventType_t.MAPHACK_EVENT_INVALID

/-- Modelled from the spec: `KeyValues::GetBool( name, default )` of the engine
is absent from src/; the integer of the string of the sub-key is not zero, and
the default without such a sub-key. -/
def KeyValues.GetBool (kv : KeyValues) (name : CStr) (defaultValue : Bool) : Bool :=
  match kv.GetStringOf name none with
  | some s => V_atoi s != 0
  | none => defaultValue

/-- The event that the first loop of `RegisterEvents` makes from a sub-key of
the `events` section.  `GetFloat( "delay", 1.0f )` is the float of the string of
the sub-key `delay`, and of `1.0` without it; the fields of the Output and
GameEvent kinds are not modelled. -/
def RegisterEvents.declare (fl : FloatLib) (pKVEvent : KeyValues) :
    MapHackEvent_t fl.F KeyValues :=
  match GetEventTypeByString
      ((pKVEvent.GetStringOf "type".toList (some "EVENT_TRIGGER".toList)).getD []) with
  | MapHackEventType_t.MAPHACK_EVENT_TRIGGER =>
    RegisterEvents.trigger fl KeyValues pKVEvent.GetName
  | MapHackEventType_t.MAPHACK_EVENT_TIMED =>
    RegisterEvents.timed fl KeyValues pKVEvent.GetName
      (fl.V_atof ((pKVEvent.GetStringOf "delay".toList (some "1.0".toList)).getD []))
      (pKVEvent.GetBool "repeat".toList true) (pKVEvent.GetBool "startdisabled".toList false)
  | type =>
    { MapHackEvent_t.init fl KeyValues with
      m_szName := V_strncpy pKVEvent.GetName 128
      m_Type := type }

/-- The first loop of `RegisterEvents`, over the sub-keys of the `events`
section. -/
def RegisterEvents.declared (fl : FloatLib) (self : CMapHackManager fl.F KeyValues) :
    List KeyValues → CMapHackManager fl.F KeyValues
  | [] => self
  | pKVEvent :: rest =>
    if MapHack_IsKeyWord pKVEvent.GetName then RegisterEvents.declared fl self rest
    else
      RegisterEvents.declared fl
        { self with m_dictEvents := self.m_dictEvents ++ [RegisterEvents.declare fl pKVEvent] }
        rest

/-- The second loop of `RegisterEvents`, over the top-level sub-keys of the
script: events with default properties for labels that name no event yet. -/
def RegisterEvents.unregistered (fl : FloatLib) (self : CMapHackManager fl.F KeyValues) :
    List KeyValues → CMapHackManager fl.F KeyValues
  | [] => self
  | pSubKey :: rest =>
    if MapHack_IsKeyWord pSubKey.GetName then RegisterEvents.unregistered fl self rest
    else
      let pszLabel := (MapHack_GetLabel pSubKey.GetName 0).1
      match GetEventByName self pszLabel with
      | some _ => RegisterEvents.unregistered fl self rest
      | none =>
        RegisterEvents.unregistered fl
          { self with
            m_dictEvents := self.m_dictEvents ++
              [{ MapHackEvent_t.init fl KeyValues with
                  m_szName := V_strncpy pszLabel 128
                  m_Type := MapHackEventType_t.MAPHACK_EVENT_TRIGGER }] }
          rest

/-- The search of the third loop of `RegisterEvents` for one event: the first
top-level sub-key whose name holds the name of the event gives the event its
data type and a copy of itself. -/
def RegisterEvents.search {F : Type} (pEvent : MapHackEvent_t F KeyValues) :
    List KeyValues → MapHackEvent_t F KeyValues
  | [] => pEvent
  | pSub :: rest =>
    if (V_strstr pSub.GetName pEvent.m_szName).isSome then
      RegisterEvents.label pEvent (MapHack_GetLabel pSub.GetName 0).2 pSub
    else RegisterEvents.search pEvent rest

/-- `CMapHackManager::RegisterEvents( pKV, pMapHack )`; `pKV` is `none` without
an `events` section. -/
def RegisterEvents (fl : FloatLib) (self : CMapHackManager fl.F KeyValues)
    (pKV : Option KeyValues) (pMapHack : KeyValues) : CMapHackManager fl.F KeyValues :=
  let s1 :=
    match pKV with
    | some kv => RegisterEvents.declared fl self kv.trueSubKeys
    | none => self
  let s2 := RegisterEvents.unregistered fl s1 pMapHack.trueSubKeys
  { s2 with
    m_dictEvents := s2.m_dictEvents.map fun pEvent =>
      RegisterEvents.search pEvent pMapHack.trueSubKeys }

/-- A manager of scripts without variables, events and queue entries, in
post-phase. -/
def emptyScript : CMapHackManager Int KeyValues := ⟨[], [], [], false⟩

/-! ## The load of a script -/

/-- The manager together with the script `m_pMapHack` that it holds (`none` for
`NULL`) and its identifier. -/
structure LoadState (F : Type) where
  manager : CMapHackManager F KeyValues
  m_pMapHack : Option KeyValues
  m_pszIdentifier : CStr

/-- `CMapHackManager::ResetMapHack`, on the members of the model. -/
def ResetMapHack {F : Type} (st : LoadState F) (bDeleteKeyValues : Bool) : LoadState F :=
  { manager :=
      { st.manager with m_vecEventQueue := [], m_dictEvents := [], m_dictVars := [] }
    m_pMapHack := if bDeleteKeyValues then none else st.m_pMapHack
    m_pszIdentifier := if bDeleteKeyValues then [] else st.m_pszIdentifier }

/-- What `LoadMapHack` takes from outside: `LoadIncludes`, which reads files,
and the interpreter `RunEntities`. -/
structure Loader (F : Type) where
  LoadIncludes : Option KeyValues → Nat → LoadState F → LoadState F
  RunEntities : Option KeyValues → LoadState F → LoadState F

/-- The sub-keys of the `vars` section as `RegisterVariables` reads them. -/
def varDecls (pKV : Option KeyValues) : List VarDecl :=
  match pKV with
  | some kv =>
    kv.trueSubKeys.map fun pVariable =>
      ⟨pVariable.GetName, pVariable.GetStringOf "type".toList none,
        pVariable.GetStringOf "value".toList none⟩
  | none => []

/-- `CMapHackManager::LoadMapHack( pKV, loadFlags, pszIdentifier )`: the returned
flag and the state afterwards.  The load flags are bits: `MAPHACK_INCLUDE` is
bit 0, `MAPHACK_RUN_ENTITIES` bit 1, `MAPHACK_REGISTER_EVENTS` bit 2,
`MAPHACK_REGISTER_VARS` bit 3 and `MAPHACK_LOAD_INCLUDES` bit 4. -/
def LoadMapHack (fl : FloatLib) (ext : Loader fl.F) (st : LoadState fl.F)
    (pKV : Option KeyValues) (loadFlags : Nat) (pszIdentifier : CStr) :
    Bool × LoadState fl.F :=
  match pKV with
  | none => (false, st)
  | some kv =>
    if !FStrEq kv.GetName "maphack".toList then (false, st)
    else
      let s1 : LoadState fl.F :=
        if loadFlags.testBit 0 then st
        else
          { ResetMapHack st true with m_pszIdentifier := pszIdentifier, m_pMapHack := some kv }
      let s2 :=
        if loadFlags.testBit 4 then
          ext.LoadIncludes (kv.FindKey "includes".toList) loadFlags s1
        else s1
      let s3 : LoadState fl.F :=
        if loadFlags.testBit 3 then
          { s2 with
            manager := RegisterVariables fl s2.manager (varDecls (kv.FindKey "vars".toList)) }
        else s2
      let s4 : LoadState fl.F :=
        if loadFlags.testBit 2 then
          { s3 with manager := RegisterEvents fl s3.manager (kv.FindKey "events".toList) kv }
        else s3
      let s5 :=
        if loadFlags.testBit 1 then ext.RunEntities (kv.FindKey "entities".toList) s4 else s4
      (true, s5)

/-- A loader that reads no file and runs nothing. -/
def idleLoader : Loader Int := ⟨fun _ _ st => st, fun _ st => st⟩

/-- A state that holds the script `maphack` with the variable `health` and the
event `a`. -/
def loadedState : LoadState Int :=
  ⟨⟨[RegisterEvents.trigger intFloat KeyValues ['a']],
      [⟨"health".toList, MapHackType_t.TYPE_INT, some "100".toList, 100, 0⟩], [], false⟩,
    some (KeyValues.block "maphack".toList []), "maphack".toList⟩

/-! ## The recursion of `RunEntities`

`RunEntities` re-enters itself through `$if` (`KvIfCond`) and through a
`$trigger` without delay (`KvTriggerEvent`, `TriggerEvent`).  The model below
follows the counter `g_iMapHackEntitiesRecursionLevel` along these two paths;
every other child of a sub-tree, and the update of the Output events after
the loop, is work of the rest of the interpreter that does not re-enter
`RunEntities` and enters as a parameter on the manager.  A run gives `none`
when its fuel, the number of activations that may be nested, does not
suffice. -/

/-- The constant `MAPHACK_ENTITIES_MAX_RECURSION_LEVEL`. -/
def MAPHACK_ENTITIES_MAX_RECURSION_LEVEL : Nat := 64

/-- The manager together with the counter `g_iMapHackEntitiesRecursionLevel`. -/
structure RunState (F : Type) where
  manager : CMapHackManager F KeyValues
  g_iMapHackEntitiesRecursionLevel : Nat

/-- What the recursion takes from outside: the sum of two floats, the condition
evaluator on a manager, the handling of a child that is neither `$if` nor
`$trigger`, and the update of the Output events after the loop. -/
structure Handlers (fl : FloatLib) where
  add : fl.F → fl.F → fl.F
  TestIfCondBlock : CMapHackManager fl.F KeyValues → CStr → Bool
  other : KeyValues → CMapHackManager fl.F KeyValues → CMapHackManager fl.F KeyValues
  updateOutputs : CMapHackManager fl.F KeyValues → CMapHackManager fl.F KeyValues

/-- `CMapHackManager::TriggerEvent` inside a run: as `TriggerEvent`, with the
nested `RunEntities` as `run`. -/
def TriggerEvent.nested {fl : FloatLib} (h : Handlers fl)
    (run : RunState fl.F → Option KeyValues → Option (RunState fl.F)) (curtime : fl.F)
    (st : RunState fl.F) (pEvent : Option Nat) (flDelay : fl.F) : Option (RunState fl.F) :=
  match pEvent with
  | none => some st
  | some i =>
    match st.manager.m_dictEvents[i]? with
    | none => some st
    | some ev =>
      match ev.m_pKVData with
      | none => some st
      | some kv =>
        if fl.compare 3 flDelay fl.zero then
          some { st with
            manager :=
              { st.manager with
                m_vecEventQueue :=
                  st.manager.m_vecEventQueue ++ [⟨i, h.add curtime flDelay⟩] } }
        else
          match (if ev.m_iDataType = 0 then run st (some kv) else some st) with
          | none => none
          | some r =>
            some { r with
              manager := writeEvent r.manager i fun e =>
                { e with
                  m_bTriggered := true
                  m_flTriggerTime :=
                    if e.m_bRepeat then h.add curtime e.m_flDelayTime else e.m_flTriggerTime } }

/-- `CMapHackManager::KvTriggerEvent` inside a run; there is no result either
when the event is found and the delay resolves to `NULL`, the text of a
variable that was never set, which the code hands to `V_atof`. -/
def KvTriggerEvent {fl : FloatLib} (h : Handlers fl)
    (run : RunState fl.F → Option KeyValues → Option (RunState fl.F)) (curtime : fl.F)
    (st : RunState fl.F) (pKV : KeyValues) : Option (RunState fl.F) :=
  if st.manager.m_bPreEntity then some st
  else
    let pszEventName :=
      (MapHack_VariableValueHelper st.manager (pKV.GetStringOf "event".toList (some []))).value
    let pszDelay :=
      (MapHack_VariableValueHelper st.manager
        (pKV.GetStringOf "delay".toList (some "0.0".toList))).value
    match GetEventByName.ptr st.manager pszEventName with
    | some i =>
      match pszDelay with
      | some delay => TriggerEvent.nested h run curtime st (some i) (fl.V_atof delay)
      | none => none
    | none => some st

/-- `CMapHackManager::KvIfCond` inside a run. -/
def KvIfCond {fl : FloatLib} (h : Handlers fl)
    (run : RunState fl.F → Option KeyValues → Option (RunState fl.F))
    (st : RunState fl.F) (pKV : KeyValues) : Option (RunState fl.F) :=
  match pKV.GetStringOf "cond".toList none with
  | none => some st
  | some pszCond =>
    match pKV.FindKey "entities".toList with
    | none => some st
    | some pEntities =>
      if h.TestIfCondBlock st.manager pszCond then run st (some pEntities) else some st

/-- The loop of `RunEntities` over the true sub-keys of the sub-tree. -/
def RunEntities.children {fl : FloatLib} (h : Handlers fl)
    (run : RunState fl.F → Option KeyValues → Option (RunState fl.F)) (curtime : fl.F) :
    RunState fl.F → List KeyValues → Option (RunState fl.F)
  | st, [] => some st
  | st, pKVEnt :: rest =>
    let r :=
      if V_stricmp pKVEnt.GetName "$if".toList then KvIfCond h run st pKVEnt
      else if V_stricmp pKVEnt.GetName "$trigger".toList then
        KvTriggerEvent h run curtime st pKVEnt
      else some { st with manager := h.other pKVEnt st.manager }
    match r with
    | none => none
    | some st2 => RunEntities.children h run curtime st2 rest

/-- `CMapHackManager::RunEntities` with the fuel `fuel`. -/
def RunEntities {fl : FloatLib} (h : Handlers fl) (curtime : fl.F) :
    Nat → RunState fl.F → Option KeyValues → Option (RunState fl.F)
  | 0 => fun _ _ => none
  | fuel + 1 => fun st pKV =>
    match pKV with
    | none => some st
    | some kv =>
      if st.g_iMapHackEntitiesRecursionLevel + 1 > MAPHACK_ENTITIES_MAX_RECURSION_LEVEL then
        some { st with g_iMapHackEntitiesRecursionLevel := 0 }
      else
        match RunEntities.children h (RunEntities h curtime fuel) curtime
            { st with
              g_iMapHackEntitiesRecursionLevel := st.g_iMapHackEntitiesRecursionLevel + 1 }
            kv.trueSubKeys with
        | none => none
        | some r =>
          some { manager :=
                  if r.manager.m_bPreEntity then r.manager else h.updateOutputs r.manager
                 g_iMapHackEntitiesRecursionLevel := 0 }

/-- Handlers over `intFloat` that do nothing, with conditions that are true. -/
def idleHandlers : Handlers intFloat :=
  ⟨Int.add, fun _ _ => true, fun _ self => self, fun self => self⟩

/-- A `$trigger` node for the event `e`, without a delay. -/
def triggerSelf : KeyValues :=
  KeyValues.block "$trigger".toList [KeyValues.value "event".toList ['e']]

/-- The state in post-phase after `RegisterEvents` on the script whose one
top-level sub-key is `pSubKey`, with the counter of nested runs at 0. -/
def selfTriggering (pSubKey : KeyValues) : RunState Int :=
  ⟨RegisterEvents intFloat emptyScript none (KeyValues.block "maphack".toList [pSubKey]), 0⟩

/-- The top-level sub-key `e` that triggers the event `e` twice, without
delay. -/
def triggersTwice : KeyValues :=
  KeyValues.block ['e'] [triggerSelf, triggerSelf]

/-- The top-level sub-key `e` that triggers the event `e` once, without
delay. -/
def triggersOnce : KeyValues :=
  KeyValues.block ['e'] [triggerSelf]

/-- A state in post-phase whose one event is `e`, with the `entities` sub-tree
`body`. -/
def SelfTriggers (body : KeyValues) (st : RunState Int) : Prop :=
  st.manager.m_bPreEntity = false ∧
    ∃ ev, st.manager.m_dictEvents = [ev] ∧ ev.m_szName = ['e'] ∧ ev.m_pKVData = some body ∧
      ev.m_iDataType = 0

/-! # Theorems -/

@[simp] theorem quoted_length (s : CStr) : (quoted s).length = s.length + 2 := by
  simp [quoted]

/-! ## The tokenizer on the quoted layout -/

theorem skipWhite_white (w : CStr) (hw : White w) (c : Char) (rest : CStr)
    (hc : 32 < c.toNat) (hs : c ≠ '/') :
    skipWhite false (w ++ c :: rest) = some (c :: rest) := by
  induction w with
  | nil => simp [skipWhite, hs, Nat.not_le.mpr hc]
  | cons a w ih =>
    have ha : a.toNat ≤ 32 := hw a (by simp)
    have hw' : White w := fun x hx => hw x (by simp [hx])
    simp [skipWhite, ha, ih hw']

theorem readQuoted_closed (s : CStr) (hs : ∀ c ∈ s, c ≠ '"') (n : Nat)
    (hn : s.length < n) (rest : CStr) :
    readQuoted n (s ++ '"' :: rest) = some (s, Cursor.ptr rest) := by
  induction s generalizing n with
  | nil =>
    cases n with
    | zero => simp at hn
    | succ n => simp [readQuoted]
  | cons a s ih =>
    cases n with
    | zero => simp at hn
    | succ n =>
      have ha : a ≠ '"' := hs a (by simp)
      have hs' : ∀ c ∈ s, c ≠ '"' := fun x hx => hs x (by simp [hx])
      have hn' : s.length < n := by simpa using hn
      simp [readQuoted, ha, ih hs' n hn']

theorem readQuoted_open (s : CStr) (hs : ∀ c ∈ s, c ≠ '"') (n : Nat)
    (hn : s.length < n) :
    readQuoted n s = some (s, Cursor.wild) := by
  induction s generalizing n with
  | nil =>
    cases n with
    | zero => simp at hn
    | succ n => simp [readQuoted]
  | cons a s ih =>
    cases n with
    | zero => simp at hn
    | succ n =>
      have ha : a ≠ '"' := hs a (by simp)
      have hs' : ∀ c ∈ s, c ≠ '"' := fun x hx => hs x (by simp [hx])
      have hn' : s.length < n := by simpa using hn
      simp [readQuoted, ha, ih hs' n hn']

theorem parseAt_quoted (w : CStr) (hw : White w) (s : CStr) (hs : ∀ c ∈ s, c ≠ '"')
    (hl : s.length < MAPKEY_MAXLENGTH) (rest : CStr) :
    parseAt (w ++ (quoted s ++ rest)) = some (s, Cursor.ptr rest) := by
  have h := skipWhite_white w hw '"' (s ++ '"' :: rest) (by decide) (by decide)
  simp only [quoted, List.cons_append, List.append_assoc, List.singleton_append] at h ⊢
  simp [parseAt, h, readQuoted_closed s hs MAPKEY_MAXLENGTH hl rest]

theorem parseAt_unclosed (w : CStr) (hw : White w) (s : CStr) (hs : ∀ c ∈ s, c ≠ '"')
    (hl : s.length < MAPKEY_MAXLENGTH) :
    parseAt (w ++ '"' :: s) = some (s, Cursor.wild) := by
  have h := skipWhite_white w hw '"' s (by decide) (by decide)
  simp [parseAt, h, readQuoted_open s hs MAPKEY_MAXLENGTH hl]

theorem parseAt_brace (w : CStr) (hw : White w) (rest : CStr) :
    parseAt (w ++ '}' :: rest) = some (['}'], Cursor.ptr rest) := by
  have h := skipWhite_white w hw '}' rest (by decide) (by decide)
  simp [parseAt, h, isBraceChar]

/-! ## Lookup in a well-formed record -/

theorem recordText_cons (e : Entry) (es : List Entry) (tail : CStr) :
    recordText (e :: es) tail =
      e.lead ++ (quoted e.key ++ (e.sep ++ (quoted e.value ++ recordText es tail))) := by
  simp [recordText, entriesText, Entry.text, List.append_assoc]

theorem recordText_nil (tail : CStr) : recordText [] tail = tail ++ ['}'] := by
  simp [recordText, entriesText]

theorem Clean.head_ne_brace {s : CStr} (h : Clean s) : s.head? ≠ some '}' := by
  cases s with
  | nil => simp
  | cons a s =>
    have := (h a (by simp)).2
    simpa using this

theorem Clean.no_quote {s : CStr} (h : Clean s) : ∀ c ∈ s, c ≠ '"' :=
  fun c hc => (h c hc).1

theorem RecordWF.tail_cons {e : Entry} {es : List Entry} {tail : CStr}
    (h : RecordWF (e :: es) tail) : RecordWF es tail :=
  ⟨fun x hx => h.1 x (by simp [hx]), h.2⟩

theorem RecordWF.head_wf {e : Entry} {es : List Entry} {tail : CStr}
    (h : RecordWF (e :: es) tail) : e.WF :=
  h.1 e (by simp)

/-- The tokenizer reads the key of the first pair of a well-formed record. -/
theorem parse_key (e : Entry) (he : e.WF) (rest : CStr) :
    MapEntity_ParseToken (Cursor.ptr (e.lead ++ (quoted e.key ++ rest))) =
      some (e.key, Cursor.ptr rest) := by
  obtain ⟨hl, hk, _, _, _⟩ := he
  simpa [MapEntity_ParseToken] using parseAt_quoted e.lead hl e.key hk.1.no_quote hk.2 rest

/-- The tokenizer reads the value of a pair of a well-formed record. -/
theorem parse_value (e : Entry) (he : e.WF) (rest : CStr) :
    MapEntity_ParseToken (Cursor.ptr (e.sep ++ (quoted e.value ++ rest))) =
      some (e.value, Cursor.ptr rest) := by
  obtain ⟨_, _, hs, _, hv⟩ := he
  simpa [MapEntity_ParseToken] using parseAt_quoted e.sep hs e.value hv.1.no_quote hv.2 rest

/-- The tokenizer reads the closing brace of a well-formed record. -/
theorem parse_close (tail : CStr) (ht : White tail) :
    MapEntity_ParseToken (Cursor.ptr (tail ++ ['}'])) = some (['}'], Cursor.ptr []) := by
  simpa [MapEntity_ParseToken] using parseAt_brace tail ht []

theorem GetKeyValue_scan_record (key : CStr) (bufSize : Nat) (es : List Entry) (tail : CStr)
    (h : RecordWF es tail) (n : Nat) (hn : es.length < n) :
    GetKeyValue.scan key bufSize n (Cursor.ptr (recordText es tail)) =
      some ((lookupNoCase key es).map fun v => V_strncpy v bufSize) := by
  induction es generalizing n with
  | nil =>
    cases n with
    | zero => simp at hn
    | succ n =>
      rw [recordText_nil, GetKeyValue.scan, parse_close tail h.2.1]
      simp [lookupNoCase]
      exact Cursor.noConfusion
  | cons e es ih =>
    cases n with
    | zero => simp at hn
    | succ n =>
      have he := h.head_wf
      rw [recordText_cons, GetKeyValue.scan, parse_key e he]
      · simp only [he.2.1.1.head_ne_brace, if_false, parse_value e he, lookupNoCase]
        by_cases hk : V_stricmp e.key key = true
        · simp [hk]
        · simp only [hk, if_false]
          exact ih h.tail_cons n (by simpa using hn)
      · exact Cursor.noConfusion

theorem length_le_recordText (es : List Entry) (tail : CStr) :
    es.length ≤ (recordText es tail).length := by
  induction es with
  | nil => simp
  | cons e es ih =>
    rw [recordText_cons]
    simp [quoted] at ih ⊢
    omega

/-- `GetKeyValue` on a well-formed record returns the value of the first pair
whose key equals the wanted key up to letter case, cut to the caller's
buffer. -/
theorem GetKeyValue_record (key : CStr) (bufSize : Nat) (es : List Entry) (tail : CStr)
    (h : RecordWF es tail) (cur : Cursor) (blockSize : Nat) :
    GetKeyValue ⟨recordText es tail, cur, blockSize⟩ key bufSize =
      some ((lookupNoCase key es).map fun v => V_strncpy v bufSize) := by
  unfold GetKeyValue
  exact GetKeyValue_scan_record key bufSize es tail h _
    (Nat.lt_succ_of_le (length_le_recordText es tail))

/-! ## `InsertValue` on a well-formed record -/

theorem findChar_append (x : Char) (pre : CStr) (hpre : ∀ c ∈ pre, c ≠ x) (rest : CStr) :
    findChar x (pre ++ x :: rest) = some pre.length := by
  induction pre with
  | nil => simp [findChar]
  | cons a pre ih =>
    have ha : a ≠ x := hpre a (by simp)
    have hpre' : ∀ c ∈ pre, c ≠ x := fun c hc => hpre c (by simp [hc])
    simp [findChar, ha, ih hpre']

theorem White.ne_brace {s : CStr} (h : White s) : ∀ c ∈ s, c ≠ '}' := by
  intro c hc hcb
  have := h c hc
  rw [hcb] at this
  exact absurd this (by decide)

theorem Clean.quoted_ne_brace {s : CStr} (h : Clean s) : ∀ c ∈ quoted s, c ≠ '}' := by
  intro c hc
  simp only [quoted, List.mem_cons, List.mem_append, List.mem_singleton, List.not_mem_nil,
    or_false] at hc
  rcases hc with hc | hc | hc
  · rw [hc]; decide
  · exact (h c hc).2
  · rw [hc]; decide

theorem Entry.WF.text_ne_brace {e : Entry} (he : e.WF) : ∀ c ∈ e.text, c ≠ '}' := by
  obtain ⟨hl, hk, hs, _, hv⟩ := he
  intro c hc
  simp only [Entry.text, List.mem_append] at hc
  rcases hc with hc | hc | hc | hc
  · exact hl.ne_brace c hc
  · exact hk.1.quoted_ne_brace c hc
  · exact hs.ne_brace c hc
  · exact hv.1.quoted_ne_brace c hc

theorem entriesText_ne_brace (es : List Entry) (h : ∀ e ∈ es, e.WF) :
    ∀ c ∈ entriesText es, c ≠ '}' := by
  induction es with
  | nil => simp [entriesText]
  | cons e es ih =>
    intro c hc
    simp only [entriesText, List.mem_append] at hc
    rcases hc with hc | hc
    · exact (h e (by simp)).text_ne_brace c hc
    · exact ih (fun x hx => h x (by simp [hx])) c hc

theorem entriesText_append (a b : List Entry) :
    entriesText (a ++ b) = entriesText a ++ entriesText b := by
  induction a with
  | nil => simp [entriesText]
  | cons e a ih => simp [entriesText, ih, List.append_assoc]

/-- `InsertValue` on a well-formed record whose text fits its block: the last
whitespace character before the closing brace is overwritten, the formatted
line is appended and the brace is put back on a line of its own. -/
theorem InsertValue_text (es : List Entry) (tail : CStr) (h : RecordWF es tail)
    (cur : Cursor) (blockSize : Nat) (hcap : (recordText es tail).length < blockSize)
    (key value : CStr) :
    InsertValue ⟨recordText es tail, cur, blockSize⟩ key value =
      some (true, ⟨entriesText es ++ (tail.dropLast ++ (insertLine key value ++ ['\n', '}'])),
        cur, blockSize + (insertLine key value).length + 3⟩) := by
  obtain ⟨hes, hw, hne⟩ := h
  have hfind : findChar '}' (recordText es tail) =
      some ((entriesText es ++ tail.dropLast).length + 1) := by
    have hb : ∀ c ∈ entriesText es ++ tail, c ≠ '}' := by
      intro c hc
      rcases List.mem_append.mp hc with hc | hc
      · exact entriesText_ne_brace es hes c hc
      · exact hw.ne_brace c hc
    have := findChar_append '}' (entriesText es ++ tail) hb []
    rw [recordText, ← List.append_assoc, this]
    have hlen : tail.length ≠ 0 := by simpa using hne
    simp [List.length_dropLast]
    omega
  have htake : (recordText es tail).take (entriesText es ++ tail.dropLast).length =
      entriesText es ++ tail.dropLast := by
    have : recordText es tail =
        (entriesText es ++ tail.dropLast) ++ ([tail.getLast hne] ++ ['}']) := by
      rw [recordText]
      conv_lhs => rw [← List.dropLast_append_getLast hne]
      simp [List.append_assoc]
    rw [this, List.take_left]
  have hlen : (recordText es tail).length = (entriesText es ++ tail.dropLast).length + 2 := by
    have hlen' : tail.length ≠ 0 := by simpa using hne
    simp [recordText, List.length_dropLast]
    omega
  unfold InsertValue
  simp only [hfind, htake]
  simp only [V_strcat, insertLine]
  rw [hlen] at hcap
  congr 2
  rw [List.take_of_length_le (by simp at hcap ⊢; omega),
    List.take_of_length_le (by simp at hcap ⊢; omega)]
  simp [List.append_assoc]

theorem insertLine_fits (key value : CStr) (hfit : key.length + value.length + 6 ≤ 255) :
    insertLine key value = ['\n'] ++ (quoted key ++ ([' '] ++ quoted value)) := by
  unfold insertLine V_sprintf_safe
  rw [List.take_of_length_le (by simp; omega)]
  simp

theorem White.dropLast {s : CStr} (h : White s) : White s.dropLast :=
  fun c hc => h c (List.mem_of_mem_dropLast hc)

theorem insertedEntry_wf (tail key value : CStr) (ht : White tail) (hk : Plain key)
    (hv : Plain value) : (insertedEntry tail key value).WF := by
  refine ⟨?_, hk, ?_, by simp [insertedEntry], hv⟩
  · intro c hc
    simp only [insertedEntry, List.mem_append, List.mem_singleton] at hc
    rcases hc with hc | hc
    · exact ht.dropLast c hc
    · rw [hc]; decide
  · intro c hc
    simp only [insertedEntry, List.mem_singleton] at hc
    rw [hc]; decide

theorem RecordWF.insert {es : List Entry} {tail : CStr} (h : RecordWF es tail)
    {key value : CStr} (hk : Plain key) (hv : Plain value) :
    RecordWF (es ++ [insertedEntry tail key value]) ['\n'] := by
  refine ⟨?_, ?_, by simp⟩
  · intro e he
    rcases List.mem_append.mp he with he | he
    · exact h.1 e he
    · rw [List.mem_singleton.mp he]
      exact insertedEntry_wf tail key value h.2.1 hk hv
  · intro c hc
    rw [List.mem_singleton.mp hc]; decide

/-- `InsertValue` with a line that fits `szLine` appends the new pair to the
record. -/
theorem InsertValue_record (es : List Entry) (tail : CStr) (h : RecordWF es tail)
    (cur : Cursor) (blockSize : Nat) (hcap : (recordText es tail).length < blockSize)
    (key value : CStr) (hfit : key.length + value.length + 6 ≤ 255) :
    InsertValue ⟨recordText es tail, cur, blockSize⟩ key value =
      some (true, ⟨recordText (es ++ [insertedEntry tail key value]) ['\n'],
        cur, blockSize + (key.length + value.length + 6) + 3⟩) := by
  rw [InsertValue_text es tail h cur blockSize hcap, insertLine_fits key value hfit]
  congr 3
  · simp [recordText, entriesText_append, entriesText, Entry.text, insertedEntry,
      List.append_assoc]
  · simp [quoted]; omega

theorem replacedText_quoted (key value tail : CStr) (es : List Entry) :
    replacedText key (quoted value) tail es = recordText (setFirst key value es) tail := by
  induction es with
  | nil => simp [replacedText, setFirst, recordText, entriesText]
  | cons e es ih =>
    by_cases hk : e.key = key
    · simp [replacedText, setFirst, hk, recordText_cons]
    · simp [replacedText, setFirst, hk, recordText_cons, ih, Entry.text, List.append_assoc]

theorem setValueText_fits (value : CStr) (hfit : value.length ≤ 1021) :
    setValueText value = quoted value := by
  unfold setValueText V_sprintf_safe
  rw [List.take_of_length_le (by simp; omega)]

theorem replace_paste (pre suf post sz : CStr) (c : Char) (hpost : post.length ≤ suf.length) :
    (pre ++ c :: suf).take ((pre ++ c :: suf).length - (c :: suf).length) ++
      V_strcat (c :: V_strncpy sz (sz.length + 1))
        (V_strncpy post ((pre ++ c :: suf).length + (sz.length + 1)))
        ((pre ++ c :: suf).length + (sz.length + 1) -
          ((pre ++ c :: suf).length - (c :: suf).length) + 1) =
      pre ++ (c :: (sz ++ post)) := by
  have h1 : (pre ++ c :: suf).length - (c :: suf).length = pre.length := by simp
  rw [h1, List.take_left]
  simp only [V_strncpy, V_strcat, Nat.add_sub_cancel]
  rw [List.take_of_length_le (Nat.le_refl _), List.take_of_length_le (by simp; omega),
    List.take_of_length_le (by simp; omega)]
  simp

theorem SetKeyValue_replace_text (pre : CStr) (e : Entry) (he : e.WF) (post : CStr)
    (cur : Cursor) (blockSize : Nat) (value : CStr) :
    SetKeyValue.replace ⟨pre ++ (e.sep ++ (quoted e.value ++ post)), cur, blockSize⟩ value
        (Cursor.ptr (e.sep ++ (quoted e.value ++ post))) =
      if (pre ++ (e.sep.take 1 ++ (setValueText value ++ post))).length < blockSize then
        some (true, ⟨pre ++ (e.sep.take 1 ++ (setValueText value ++ post)),
          Cursor.ptr (pre ++ (e.sep.take 1 ++ (setValueText value ++ post))), blockSize⟩)
      else none := by
  obtain ⟨_, _, hs, hne, hv⟩ := he
  have hp := parseAt_quoted e.sep hs e.value hv.1.no_quote hv.2 post
  revert hp hne
  generalize e.sep = s
  intro hne hp
  cases s with
  | nil => exact absurd rfl hne
  | cons c sep =>
    simp only [List.cons_append] at hp
    simp only [SetKeyValue.replace, List.cons_append, hp]
    have := replace_paste pre (sep ++ (quoted e.value ++ post)) post (setValueText value) c
      (by simp; omega)
    simp only [setValueText] at this ⊢
    rw [this]
    simp

/-- With an instance number of one or more, or without a pair of the wanted
key, the loop of `SetKeyValue` ends in `InsertValue`. -/
theorem SetKeyValue_scan_insert (self : MapHackEntityData_t) (key value : CStr)
    (keyInstance : Int) (es : List Entry) (tail : CStr) (h : RecordWF es tail)
    (hcase : 1 ≤ keyInstance ∨ ∀ e ∈ es, e.key ≠ key) (n : Nat) (hn : es.length < n) :
    SetKeyValue.scan self key value keyInstance 0 n (Cursor.ptr (recordText es tail)) =
      InsertValue self key value := by
  induction es generalizing n with
  | nil =>
    cases n with
    | zero => simp at hn
    | succ n =>
      rw [recordText_nil, SetKeyValue.scan, parse_close tail h.2.1]
      · simp
      · exact Cursor.noConfusion
  | cons e es ih =>
    cases n with
    | zero => simp at hn
    | succ n =>
      have he := h.head_wf
      rw [recordText_cons, SetKeyValue.scan, parse_key e he]
      · simp only [he.2.1.1.head_ne_brace, if_false, parse_value e he]
        by_cases hk : e.key = key
        · rcases hcase with hi | hno
          · have : ¬ ((0 : Int) + 1 > keyInstance) := by omega
            simp only [hk, if_true, this, if_false]
          · exact absurd hk (hno e (by simp))
        · simp only [hk, if_false]
          refine ih h.tail_cons ?_ n (by simpa using hn)
          rcases hcase with hi | hno
          · exact Or.inl hi
          · exact Or.inr (fun x hx => hno x (by simp [hx]))
      · exact Cursor.noConfusion

/-- `SetKeyValue` with an instance number of one or more, or for a key that the
record does not hold, is `InsertValue`. -/
theorem SetKeyValue_eq_insert (es : List Entry) (tail : CStr) (h : RecordWF es tail)
    (cur : Cursor) (blockSize : Nat) (key value : CStr) (keyInstance : Int)
    (hcase : 1 ≤ keyInstance ∨ ∀ e ∈ es, e.key ≠ key) :
    SetKeyValue ⟨recordText es tail, cur, blockSize⟩ key value keyInstance =
      InsertValue ⟨recordText es tail, cur, blockSize⟩ key value := by
  unfold SetKeyValue
  exact SetKeyValue_scan_insert _ key value keyInstance es tail h hcase _
    (Nat.lt_succ_of_le (length_le_recordText es tail))

theorem SetKeyValue_replace_self (self : MapHackEntityData_t) (pre : CStr) (e : Entry)
    (he : e.WF) (post : CStr) (hself : self.m_pEntData = pre ++ (e.sep ++ (quoted e.value ++ post)))
    (value : CStr) :
    SetKeyValue.replace self value (Cursor.ptr (e.sep ++ (quoted e.value ++ post))) =
      if (pre ++ (e.sep.take 1 ++ (setValueText value ++ post))).length < self.m_iBlockSize then
        some (true, ⟨pre ++ (e.sep.take 1 ++ (setValueText value ++ post)),
          Cursor.ptr (pre ++ (e.sep.take 1 ++ (setValueText value ++ post))),
          self.m_iBlockSize⟩)
      else none := by
  obtain ⟨text, cur, blockSize⟩ := self
  simp only at hself
  subst hself
  exact SetKeyValue_replace_text pre e he post cur blockSize value

/-- With instance number zero and a pair of the wanted key in the record, the
loop of `SetKeyValue` pastes the new value over the value of the first such
pair when the new text fits the block, and has no defined result when it does
not. -/
theorem SetKeyValue_scan_replace (self : MapHackEntityData_t) (key value : CStr)
    (keyInstance : Int) (hinst : keyInstance ≤ 0) (es : List Entry) (tail : CStr)
    (h : RecordWF es tail) (hk : ∃ e ∈ es, e.key = key) (pre : CStr)
    (hself : self.m_pEntData = pre ++ recordText es tail) (n : Nat) (hn : es.length < n) :
    SetKeyValue.scan self key value keyInstance 0 n (Cursor.ptr (recordText es tail)) =
      if (pre ++ replacedText key (setValueText value) tail es).length < self.m_iBlockSize then
        some (true, ⟨pre ++ replacedText key (setValueText value) tail es,
          Cursor.ptr (pre ++ replacedText key (setValueText value) tail es),
          self.m_iBlockSize⟩)
      else none := by
  induction es generalizing n pre with
  | nil => simp at hk
  | cons e es ih =>
    cases n with
    | zero => simp at hn
    | succ n =>
      have he := h.head_wf
      rw [recordText_cons] at hself ⊢
      rw [SetKeyValue.scan, parse_key e he]
      · simp only [he.2.1.1.head_ne_brace, if_false]
        by_cases hke : e.key = key
        · have hgt : (0 : Int) + 1 > keyInstance := by omega
          simp only [hke, if_true, hgt, replacedText]
          rw [SetKeyValue_replace_self self (pre ++ (e.lead ++ quoted e.key)) e he
            (recordText es tail) (by rw [hself]; simp [List.append_assoc]) value]
          simp [List.append_assoc, hke]
        · simp only [hke, if_false, parse_value e he, replacedText]
          have hk' : ∃ x ∈ es, x.key = key := by
            obtain ⟨x, hx, hxk⟩ := hk
            rcases List.mem_cons.mp hx with rfl | hx
            · exact absurd hxk hke
            · exact ⟨x, hx, hxk⟩
          rw [ih h.tail_cons hk' (pre ++ e.text)
            (by rw [hself]; simp [Entry.text, List.append_assoc]) n (by simpa using hn)]
          simp [List.append_assoc]
      · exact Cursor.noConfusion

/-- `SetKeyValue( key, value, 0 )` on a well-formed record that holds the key:
the formatted new value is pasted over the value of the first pair with that
key, whatever the new value is, when the new text fits the block with its
terminator; when it does not, the call has no defined result. -/
theorem SetKeyValue_text (es : List Entry) (tail : CStr) (h : RecordWF es tail)
    (cur : Cursor) (blockSize : Nat) (key value : CStr) (hk : ∃ e ∈ es, e.key = key) :
    SetKeyValue ⟨recordText es tail, cur, blockSize⟩ key value 0 =
      if (replacedText key (setValueText value) tail es).length < blockSize then
        some (true, ⟨replacedText key (setValueText value) tail es,
          Cursor.ptr (replacedText key (setValueText value) tail es), blockSize⟩)
      else none := by
  unfold SetKeyValue
  have := SetKeyValue_scan_replace ⟨recordText es tail, cur, blockSize⟩ key value 0
    (Int.le_refl 0) es tail h hk [] (by simp) ((recordText es tail).length + 1)
    (Nat.lt_succ_of_le (length_le_recordText es tail))
  simpa using this

/-- `SetKeyValue( key, value, 0 )` with a value that fits `szNewValue` replaces
the value of the first pair with that key when the new text fits the block
with its terminator; when it does not, the call has no defined result. -/
theorem SetKeyValue_record (es : List Entry) (tail : CStr) (h : RecordWF es tail)
    (cur : Cursor) (blockSize : Nat) (key value : CStr) (hk : ∃ e ∈ es, e.key = key)
    (hfit : value.length ≤ 1021) :
    SetKeyValue ⟨recordText es tail, cur, blockSize⟩ key value 0 =
      if (recordText (setFirst key value es) tail).length < blockSize then
        some (true, ⟨recordText (setFirst key value es) tail,
          Cursor.ptr (recordText (setFirst key value es) tail), blockSize⟩)
      else none := by
  rw [SetKeyValue_text es tail h cur blockSize key value hk, setValueText_fits value hfit,
    replacedText_quoted]

/-! ## The iterator on a well-formed record -/

theorem V_strncpy_short (s : CStr) (n : Nat) (h : s.length < n) : V_strncpy s n = s := by
  unfold V_strncpy
  exact List.take_of_length_le (by omega)

theorem GetNextKey_record_cons (text : CStr) (blockSize : Nat) (e : Entry) (es : List Entry)
    (tail : CStr) (h : RecordWF (e :: es) tail) :
    GetNextKey ⟨text, Cursor.ptr (recordText (e :: es) tail), blockSize⟩ =
      some (some (stripTrailingSpaces e.key, e.value),
        ⟨text, Cursor.ptr (recordText es tail), blockSize⟩) := by
  have he := h.head_wf
  unfold GetNextKey
  simp only [recordText_cons, parse_key e he, parse_value e he, he.2.1.1.head_ne_brace,
    he.2.2.2.2.1.head_ne_brace, if_false, V_strncpy_short _ _ he.2.1.2,
    V_strncpy_short _ _ he.2.2.2.2.2]
  simp

theorem GetNextKey_record_nil (text : CStr) (blockSize : Nat) (tail : CStr) (ht : White tail) :
    GetNextKey ⟨text, Cursor.ptr (recordText [] tail), blockSize⟩ =
      some (none, ⟨text, Cursor.ptr (recordText [] tail), blockSize⟩) := by
  unfold GetNextKey
  simp [recordText_nil, parse_close tail ht]

theorem allPairs_loop_record (text : CStr) (blockSize : Nat) (es : List Entry) (tail : CStr)
    (h : RecordWF es tail) (n : Nat) (hn : es.length < n) :
    allPairs.loop n ⟨text, Cursor.ptr (recordText es tail), blockSize⟩ =
      some (es.map fun e => (stripTrailingSpaces e.key, e.value)) := by
  induction es generalizing n with
  | nil =>
    cases n with
    | zero => simp at hn
    | succ n => simp [allPairs.loop, GetNextKey_record_nil text blockSize tail h.2.1]
  | cons e es ih =>
    cases n with
    | zero => simp at hn
    | succ n =>
      simp [allPairs.loop, GetNextKey_record_cons text blockSize e es tail h,
        ih h.tail_cons n (by simpa using hn)]

/-- The iterator of a well-formed record hands out its pairs in order, the keys
without trailing spaces. -/
theorem allPairs_record (es : List Entry) (tail : CStr) (h : RecordWF es tail)
    (cur : Cursor) (blockSize : Nat) :
    allPairs ⟨recordText es tail, cur, blockSize⟩ =
      some (es.map fun e => (stripTrailingSpaces e.key, e.value)) := by
  unfold allPairs
  exact allPairs_loop_record _ blockSize es tail h _
    (Nat.lt_succ_of_le (length_le_recordText es tail))

/-! ## Serialization -/

theorem copy_unbounded (outSize : Nat) (data : CStr) (outIdx : Nat)
    (h : outIdx + data.length ≤ outSize) :
    GetEntDataString.copy outSize outIdx data = (throughBrace data).map tabToSpace := by
  induction data generalizing outIdx with
  | nil => simp [GetEntDataString.copy, throughBrace]
  | cons c cs ih =>
    have h1 : ¬ outIdx ≥ outSize := by simp at h; omega
    have h2 : outIdx + 1 + cs.length ≤ outSize := by simp at h; omega
    by_cases hb : c = '}'
    · simp [GetEntDataString.copy, throughBrace, h1, hb, tabToSpace]
    · by_cases ht : c = '\t'
      · simp [GetEntDataString.copy, throughBrace, h1, ht, tabToSpace, ih (outIdx + 1) h2]
      · simp [GetEntDataString.copy, throughBrace, h1, hb, ht, tabToSpace, ih (outIdx + 1) h2]

theorem throughBrace_length (data : CStr) : (throughBrace data).length ≤ data.length := by
  induction data with
  | nil => simp [throughBrace]
  | cons c cs ih =>
    by_cases hb : c = '}'
    · simp [throughBrace, hb]
    · simp [throughBrace, hb]; omega

theorem FinalizeEntData_step (acc : CStr) (r : MapHackEntityData_t) :
    FinalizeEntData.step acc r = acc ++ entityBlock r := by
  have hcopy := copy_unbounded (r.m_pEntData.length + 3) r.m_pEntData 1 (by omega)
  have hlen := throughBrace_length r.m_pEntData
  have h1 : ¬ (List.map tabToSpace (throughBrace r.m_pEntData)).length + 1 ≥
      r.m_pEntData.length + 3 := by simp; omega
  simp only [FinalizeEntData.step, GetEntDataString, hcopy, List.length_cons, h1, if_false,
    V_strcat, entityBlock]
  rw [List.take_of_length_le (by simp; omega), List.take_of_length_le (by simp)]
  simp

theorem FinalizeEntData_foldl (acc : CStr) (vec : List MapHackEntityData_t) :
    vec.foldl FinalizeEntData.step acc = acc ++ entityStream vec := by
  induction vec generalizing acc with
  | nil => simp [entityStream]
  | cons r rs ih => simp [List.foldl, FinalizeEntData_step, ih, entityStream, List.append_assoc]

theorem entityStream_no_tab (vec : List MapHackEntityData_t) :
    ∀ c ∈ entityStream vec, c ≠ '\t' := by
  induction vec with
  | nil => simp [entityStream]
  | cons r rs ih =>
    intro c hc
    simp only [entityStream, entityBlock, List.mem_append, List.mem_cons, List.mem_map,
      List.mem_singleton, List.not_mem_nil, or_false] at hc
    rcases hc with (hc | ⟨a, _, ha⟩ | hc) | hc
    · rw [hc]; decide
    · rw [← ha]
      unfold tabToSpace
      split
      · decide
      · assumption
    · rw [hc]; decide
    · exact ih c hc

/-- C8: `FinalizeEntData` produces the concatenation, in staged order, of one
block per staged record, each block being an opening brace, the record's text
up to and including its closing brace with every tab replaced by a space, and
one newline; the stream holds no tab. -/
theorem FinalizeEntData_stream (m_vecEntData : List MapHackEntityData_t) :
    FinalizeEntData m_vecEntData = entityStream m_vecEntData ∧
      '\t' ∉ FinalizeEntData m_vecEntData := by
  have h : FinalizeEntData m_vecEntData = entityStream m_vecEntData := by
    unfold FinalizeEntData
    simpa using FinalizeEntData_foldl [] m_vecEntData
  refine ⟨h, ?_⟩
  rw [h]
  exact fun hmem => entityStream_no_tab m_vecEntData '\t' hmem rfl

/-! ## Instance addressing (C1) -/

/-- C1, counterexample: on the record with two `"angle" "0"` lines,
`SetKeyValue( "angle", "90", 1 )` leaves both lines as they are and appends a
third `"angle" "90"` line, so the second occurrence is not changed and the key
occurs three times. -/
theorem SetKeyValue_instance_one_counterexample :
    (SetKeyValue (MapHackEntityData_t.new "\n\"angle\" \"0\"\n\"angle\" \"0\"\n\x7d".toList 1050)
        "angle".toList "90".toList 1).bind (fun r => allPairs r.2) =
      some [("angle".toList, "0".toList), ("angle".toList, "0".toList),
        ("angle".toList, "90".toList)] ∧
    (SetKeyValue (MapHackEntityData_t.new "\n\"angle\" \"0\"\n\"angle\" \"0\"\n\x7d".toList 1050)
        "angle".toList "90".toList 1).bind (fun r => allPairs r.2) ≠
      some [("angle".toList, "0".toList), ("angle".toList, "90".toList)] := by
  decide

theorem pairsOf_append (a b : List Entry) : pairsOf (a ++ b) = pairsOf a ++ pairsOf b := by
  simp [pairsOf]

/-- C1, amended: on a well-formed record that fits its block and holds key
`key` twice, `SetKeyValue( key, value, 1 )` with a line that fits `szLine`
changes neither occurrence: it appends the pair `(key, value)` before the
closing brace, and the key then occurs three times. -/
theorem SetKeyValue_instance_one_appends (es : List Entry) (tail : CStr)
    (h : RecordWF es tail) (cur : Cursor) (blockSize : Nat)
    (hcap : (recordText es tail).length < blockSize) (key value : CStr)
    (hk : Plain key) (hv : Plain value) (hfit : key.length + value.length + 6 ≤ 255)
    (htwo : (pairsOf es).countP (fun p => p.1 = key) = 2) :
    ∃ r es', SetKeyValue ⟨recordText es tail, cur, blockSize⟩ key value 1 = some (true, r) ∧
      r.m_pEntData = recordText es' ['\n'] ∧ RecordWF es' ['\n'] ∧
      pairsOf es' = pairsOf es ++ [(key, value)] ∧
      (pairsOf es').countP (fun p => p.1 = key) = 3 := by
  refine ⟨⟨recordText (es ++ [insertedEntry tail key value]) ['\n'], cur,
    blockSize + (key.length + value.length + 6) + 3⟩, es ++ [insertedEntry tail key value],
    ?_, rfl, h.insert hk hv, ?_, ?_⟩
  · rw [SetKeyValue_eq_insert es tail h cur blockSize key value 1 (Or.inl (Int.le_refl 1))]
    exact InsertValue_record es tail h cur blockSize hcap key value hfit
  · simp [pairsOf_append, pairsOf, insertedEntry]
  · rw [pairsOf_append, List.countP_append, htwo]
    simp [pairsOf, insertedEntry]

/-- C1, witness: the record with two `"angle" "0"` lines. -/
theorem SetKeyValue_instance_one_appends_witness :
    ∃ r es', SetKeyValue ⟨recordText [⟨['\n'], "angle".toList, [' '], "0".toList⟩,
          ⟨['\n'], "angle".toList, [' '], "0".toList⟩] ['\n'], Cursor.null, 1050⟩
        "angle".toList "90".toList 1 = some (true, r) ∧
      r.m_pEntData = recordText es' ['\n'] ∧ RecordWF es' ['\n'] ∧
      pairsOf es' = pairsOf [⟨['\n'], "angle".toList, [' '], "0".toList⟩,
          ⟨['\n'], "angle".toList, [' '], "0".toList⟩] ++ [("angle".toList, "90".toList)] ∧
      (pairsOf es').countP (fun p => p.1 = "angle".toList) = 3 :=
  SetKeyValue_instance_one_appends _ _ (by decide) _ _ (by decide) _ _ (by decide) (by decide)
    (by decide) (by decide)

/-! ## Insert-then-get (C3) -/

/-- C3, counterexample: on the fresh record `{ }`, `InsertValue` with key `k`
and a value of 249 letters formats a line of 256 characters, which is cut to
the 255 that fit `szLine`; the closing quote is lost, and `GetKeyValue( "k" )`
does not return the value. -/
theorem InsertValue_then_get_counterexample :
    (InsertValue (MapHackEntityData_t.new " \x7d".toList 1026) ['k']
        (List.replicate 249 'v')).bind (fun r => GetKeyValue r.2 ['k'] 2048) ≠
      some (some (List.replicate 249 'v')) := by
  decide

theorem V_stricmp_self (a : CStr) : V_stricmp a a = true := by
  simp [V_stricmp]

theorem lookupNoCase_append_single (j : CStr) (es : List Entry) (e : Entry) :
    lookupNoCase j (es ++ [e]) =
      match lookupNoCase j es with
      | some v => some v
      | none => if V_stricmp e.key j then some e.value else none := by
  induction es with
  | nil => simp [lookupNoCase]
  | cons x es ih =>
    by_cases hx : V_stricmp x.key j = true
    · simp [lookupNoCase, hx]
    · simp [lookupNoCase, hx, ih]

/-- C3, amended: on a well-formed record that fits its block, for a key that
the record does not hold in any letter case and a line `"key" "value"` that
fits the 255 characters of `szLine`: `InsertValue` returns true and appends the
pair before the closing brace without altering another pair; afterwards
`GetKeyValue( key )` returns the value (in a buffer that holds it) and
`GetKeyValue( j )` is unchanged for every key `j` that differs from `key` in
more than letter case. -/
theorem InsertValue_then_get (es : List Entry) (tail : CStr) (h : RecordWF es tail)
    (cur : Cursor) (blockSize : Nat) (hcap : (recordText es tail).length < blockSize)
    (key value : CStr) (hk : Plain key) (hv : Plain value)
    (hfit : key.length + value.length + 6 ≤ 255) (hnew : lookupNoCase key es = none)
    (bufSize : Nat) (hbuf : value.length < bufSize) :
    ∃ r, InsertValue ⟨recordText es tail, cur, blockSize⟩ key value = some (true, r) ∧
      r.m_pEntData = recordText (es ++ [insertedEntry tail key value]) ['\n'] ∧
      GetKeyValue r key bufSize = some (some value) ∧
      ∀ j n, V_stricmp key j = false →
        GetKeyValue r j n = GetKeyValue ⟨recordText es tail, cur, blockSize⟩ j n := by
  refine ⟨_, InsertValue_record es tail h cur blockSize hcap key value hfit, rfl, ?_, ?_⟩
  · rw [GetKeyValue_record key bufSize _ _ (h.insert hk hv), lookupNoCase_append_single, hnew]
    simp [insertedEntry, V_stricmp_self, V_strncpy_short value bufSize hbuf]
  · intro j n hj
    rw [GetKeyValue_record j n _ _ (h.insert hk hv), GetKeyValue_record j n _ _ h,
      lookupNoCase_append_single]
    cases lookupNoCase j es with
    | none => simp [insertedEntry, hj]
    | some v => simp

/-- C3, witness: `InsertValue( "foo", "bar" )` on the fresh record `{ }`. -/
theorem InsertValue_then_get_witness :
    ∃ r, InsertValue ⟨recordText [] [' '], Cursor.null, 1026⟩ "foo".toList "bar".toList =
        some (true, r) ∧
      r.m_pEntData = "\n\"foo\" \"bar\"\n\x7d".toList ∧
      GetKeyValue r "foo".toList 256 = some (some "bar".toList) :=
  let ⟨r, h1, h2, h3, _⟩ := InsertValue_then_get [] [' '] (by decide) Cursor.null 1026
    (by decide) "foo".toList "bar".toList (by decide) (by decide) (by decide) (by decide) 256
    (by decide)
  ⟨r, h1, by rw [h2]; decide, h3⟩

/-! ## `SetKeyValue` in place (C5) and its idempotence (C2) -/

theorem pairsOf_setFirst (key value : CStr) (es : List Entry) :
    pairsOf (setFirst key value es) = setFirstPair key value (pairsOf es) := by
  induction es with
  | nil => simp [setFirst, setFirstPair, pairsOf]
  | cons e es ih =>
    by_cases hk : e.key = key
    · simp [setFirst, setFirstPair, pairsOf, hk]
    · simp only [pairsOf] at ih
      simp [setFirst, setFirstPair, pairsOf, hk, ih]

theorem setFirst_idem (key value : CStr) (es : List Entry) :
    setFirst key value (setFirst key value es) = setFirst key value es := by
  induction es with
  | nil => simp [setFirst]
  | cons e es ih =>
    by_cases hk : e.key = key
    · simp [setFirst, hk, List.take_take]
    · simp [setFirst, hk, ih]

theorem setFirst_has_key (key value : CStr) (es : List Entry) (hk : ∃ e ∈ es, e.key = key) :
    ∃ e ∈ setFirst key value es, e.key = key := by
  induction es with
  | nil => simp at hk
  | cons e es ih =>
    by_cases hke : e.key = key
    · refine ⟨{ e with sep := e.sep.take 1, value := value }, ?_, hke⟩
      simp [setFirst, hke]
    · obtain ⟨x, hx, hxk⟩ := hk
      rcases List.mem_cons.mp hx with rfl | hx
      · exact absurd hxk hke
      · obtain ⟨y, hy, hyk⟩ := ih ⟨x, hx, hxk⟩
        exact ⟨y, by simp [setFirst, hke, hy], hyk⟩

theorem RecordWF.setFirst {es : List Entry} {tail : CStr} (h : RecordWF es tail)
    (key : CStr) {value : CStr} (hv : Plain value) : RecordWF (setFirst key value es) tail := by
  refine ⟨?_, h.2⟩
  have hes := h.1
  clear h
  induction es with
  | nil => simp [MapHack.setFirst]
  | cons e es ih =>
    have he := hes e (by simp)
    have hes' : ∀ x ∈ es, x.WF := fun x hx => hes x (by simp [hx])
    by_cases hk : e.key = key
    · subst hk
      intro x hx
      simp only [MapHack.setFirst, if_true, List.mem_cons] at hx
      rcases hx with rfl | hx
      · obtain ⟨hl, hkey, hs, hne, _⟩ := he
        refine ⟨hl, hkey, fun c hc => hs c (List.mem_of_mem_take hc), ?_, hv⟩
        cases hsep : e.sep with
        | nil => exact absurd hsep hne
        | cons a b => simp
      · exact hes' x hx
    · intro x hx
      simp only [MapHack.setFirst, hk, if_false, List.mem_cons] at hx
      rcases hx with rfl | hx
      · exact he
      · exact ih hes' x hx

theorem lookupNoCase_setFirst (key value : CStr) (es : List Entry)
    (hk : ∃ e ∈ es, e.key = key) (hcase : ∀ e ∈ es, V_stricmp e.key key = true → e.key = key) :
    lookupNoCase key (setFirst key value es) = some value := by
  induction es with
  | nil => simp at hk
  | cons e es ih =>
    by_cases hke : e.key = key
    · simp [setFirst, lookupNoCase, hke, V_stricmp_self]
    · have hne : ¬ V_stricmp e.key key = true := fun hc => hke (hcase e (by simp) hc)
      obtain ⟨x, hx, hxk⟩ := hk
      rcases List.mem_cons.mp hx with rfl | hx
      · exact absurd hxk hke
      · simp only [setFirst, hke, if_false, lookupNoCase, hne]
        exact ih ⟨x, hx, hxk⟩ (fun y hy => hcase y (by simp [hy]))

theorem setFirstPair_countP (key value : CStr) (ps : List (CStr × CStr)) :
    (setFirstPair key value ps).countP (fun p => p.1 = key) =
      ps.countP (fun p => p.1 = key) := by
  induction ps with
  | nil => simp [setFirstPair]
  | cons p ps ih =>
    by_cases hk : p.1 = key
    · simp [setFirstPair, hk, List.countP_cons]
    · simp [setFirstPair, hk, List.countP_cons, ih]

theorem setFirstPair_length (key value : CStr) (ps : List (CStr × CStr)) :
    (setFirstPair key value ps).length = ps.length := by
  induction ps with
  | nil => simp [setFirstPair]
  | cons p ps ih =>
    by_cases hk : p.1 = key
    · simp [setFirstPair, hk]
    · simp [setFirstPair, hk, ih]

theorem has_key_of_countP (key : CStr) (es : List Entry)
    (h : 0 < (pairsOf es).countP (fun p => p.1 = key)) : ∃ e ∈ es, e.key = key := by
  rw [List.countP_pos_iff] at h
  obtain ⟨p, hp, hpk⟩ := h
  simp only [pairsOf, List.mem_map] at hp
  obtain ⟨e, he, rfl⟩ := hp
  exact ⟨e, he, by simpa using hpk⟩

/-- C5, amended: on a well-formed record that holds key `key`, for a value
without double quote and closing brace of at most 1021 characters (so that it
fits `szNewValue` with its quotes), and a block that holds the text after the
replacement with its terminator (the branch does not grow the block):
`SetKeyValue( key, value, 0 )` returns true and the sequence of pairs
afterwards is the original one with the value of the first pair of that key
replaced; number and order of the pairs and every other value are unchanged,
the text still fits the block, and the block size is unchanged. -/
theorem SetKeyValue_in_place (es : List Entry) (tail : CStr) (h : RecordWF es tail)
    (cur : Cursor) (blockSize : Nat) (key value : CStr) (hk : ∃ e ∈ es, e.key = key)
    (hv : Clean value) (hfit : value.length ≤ 1021)
    (hroom : (recordText (setFirst key value es) tail).length < blockSize) :
    ∃ r es', SetKeyValue ⟨recordText es tail, cur, blockSize⟩ key value 0 = some (true, r) ∧
      r.m_pEntData = recordText es' tail ∧ RecordWF es' tail ∧
      pairsOf es' = setFirstPair key value (pairsOf es) ∧
      (pairsOf es').length = (pairsOf es).length ∧ r.m_iBlockSize = blockSize ∧
      r.m_pEntData.length < r.m_iBlockSize := by
  have hp : Plain value := ⟨hv, by unfold MAPKEY_MAXLENGTH; omega⟩
  refine ⟨⟨recordText (setFirst key value es) tail,
      Cursor.ptr (recordText (setFirst key value es) tail), blockSize⟩, setFirst key value es,
    ?_, rfl, h.setFirst key hp, pairsOf_setFirst key value es, ?_, rfl, hroom⟩
  · rw [SetKeyValue_record es tail h cur blockSize key value hk hfit, if_pos hroom]
  · rw [pairsOf_setFirst, setFirstPair_length]

/-- C5, witness: the value of `"angle"` in a record of two pairs. -/
theorem SetKeyValue_in_place_witness :
    ∃ r es', SetKeyValue ⟨recordText [⟨['\n'], "angle".toList, [' '], "0".toList⟩,
          ⟨['\n'], "skin".toList, [' '], "1".toList⟩] ['\n'], Cursor.null, 1050⟩
        "angle".toList "90".toList 0 = some (true, r) ∧
      r.m_pEntData = recordText es' ['\n'] ∧ RecordWF es' ['\n'] ∧
      pairsOf es' = [("angle".toList, "90".toList), ("skin".toList, "1".toList)] :=
  let ⟨r, es', h1, h2, h3, h4, _⟩ := SetKeyValue_in_place
    [⟨['\n'], "angle".toList, [' '], "0".toList⟩, ⟨['\n'], "skin".toList, [' '], "1".toList⟩]
    ['\n'] (by decide) Cursor.null 1050 "angle".toList "90".toList (by decide) (by decide)
    (by decide) (by decide)
  ⟨r, es', h1, h2, h3, by rw [h4]; decide⟩

/-- C2, amended: on a well-formed record that holds key `key` exactly once and
no other key equal to it up to letter case, for a value without double quote
and closing brace of at most 1021 characters, and a block that holds the text
after the replacement with its terminator: a second
`SetKeyValue( key, value, 0 )` leaves the record as the first one made it;
afterwards `GetKeyValue( key )` returns the value (in a buffer that holds it)
and the key occurs exactly once. -/
theorem SetKeyValue_idempotent (es : List Entry) (tail : CStr) (h : RecordWF es tail)
    (cur : Cursor) (blockSize : Nat) (key value : CStr)
    (honce : (pairsOf es).countP (fun p => p.1 = key) = 1)
    (hcase : ∀ e ∈ es, V_stricmp e.key key = true → e.key = key)
    (hv : Clean value) (hfit : value.length ≤ 1021)
    (hroom : (recordText (setFirst key value es) tail).length < blockSize)
    (bufSize : Nat) (hbuf : value.length < bufSize) :
    ∃ r es', SetKeyValue ⟨recordText es tail, cur, blockSize⟩ key value 0 = some (true, r) ∧
      SetKeyValue r key value 0 = some (true, r) ∧
      GetKeyValue r key bufSize = some (some value) ∧
      r.m_pEntData = recordText es' tail ∧ RecordWF es' tail ∧
      (pairsOf es').countP (fun p => p.1 = key) = 1 := by
  have hp : Plain value := ⟨hv, by unfold MAPKEY_MAXLENGTH; omega⟩
  have hk : ∃ e ∈ es, e.key = key := has_key_of_countP key es (by omega)
  have hwf := h.setFirst key hp
  refine ⟨⟨recordText (setFirst key value es) tail,
      Cursor.ptr (recordText (setFirst key value es) tail), blockSize⟩, setFirst key value es,
    ?_, ?_, ?_, rfl, hwf, ?_⟩
  · rw [SetKeyValue_record es tail h cur blockSize key value hk hfit, if_pos hroom]
  · rw [SetKeyValue_record _ tail hwf _ blockSize key value (setFirst_has_key key value es hk)
      hfit, setFirst_idem, if_pos hroom]
  · rw [GetKeyValue_record key bufSize _ tail hwf, lookupNoCase_setFirst key value es hk hcase]
    simp [V_strncpy_short value bufSize hbuf]
  · rw [pairsOf_setFirst, setFirstPair_countP, honce]

/-- C2, witness: setting `"angle"` to `"90"` twice. -/
theorem SetKeyValue_idempotent_witness :
    ∃ r es', SetKeyValue ⟨recordText [⟨['\n'], "angle".toList, [' '], "0".toList⟩,
          ⟨['\n'], "skin".toList, [' '], "1".toList⟩] ['\n'], Cursor.null, 1050⟩
        "angle".toList "90".toList 0 = some (true, r) ∧
      SetKeyValue r "angle".toList "90".toList 0 = some (true, r) ∧
      GetKeyValue r "angle".toList 256 = some (some "90".toList) ∧
      r.m_pEntData = recordText es' ['\n'] ∧ RecordWF es' ['\n'] ∧
      (pairsOf es').countP (fun p => p.1 = "angle".toList) = 1 :=
  SetKeyValue_idempotent
    [⟨['\n'], "angle".toList, [' '], "0".toList⟩, ⟨['\n'], "skin".toList, [' '], "1".toList⟩]
    ['\n'] (by decide) Cursor.null 1050 "angle".toList "90".toList (by decide) (by decide)
    (by decide) (by decide) (by decide) 256 (by decide)

/-! ## Values that do not fit `szNewValue` -/

theorem Clean_replicate (n : Nat) (c : Char) (hc : c ≠ '"' ∧ c ≠ '}') :
    Clean (List.replicate n c) := by
  intro x hx
  rw [List.mem_replicate] at hx
  rw [hx.2]
  exact hc

theorem setValueText_long (value : CStr) (hlen : value.length = 1022) :
    setValueText value = '"' :: value := by
  unfold setValueText V_sprintf_safe quoted
  show List.take 1023 ('"' :: (value ++ ['"'])) = '"' :: value
  rw [List.take_succ_cons, List.take_append_of_le_length (by omega),
    List.take_of_length_le (by omega)]

theorem GetNextKey_first (text : CStr) (blockSize : Nat) (e : Entry) (he : e.WF)
    (post : CStr) :
    GetNextKey ⟨text, Cursor.ptr (e.lead ++ (quoted e.key ++ (e.sep ++ (quoted e.value ++ post)))),
        blockSize⟩ =
      some (some (stripTrailingSpaces e.key, e.value), ⟨text, Cursor.ptr post, blockSize⟩) := by
  unfold GetNextKey
  simp only [parse_key e he, parse_value e he, he.2.1.1.head_ne_brace,
    he.2.2.2.2.1.head_ne_brace, if_false, V_strncpy_short _ _ he.2.1.2,
    V_strncpy_short _ _ he.2.2.2.2.2]
  simp

theorem SetKeyValue_first (e : Entry) (he : e.WF) (post : CStr) (cur : Cursor)
    (blockSize : Nat) (value : CStr)
    (hroom : (e.lead ++ (quoted e.key ++ (e.sep.take 1 ++ (setValueText value ++ post)))).length <
      blockSize) :
    SetKeyValue ⟨e.lead ++ (quoted e.key ++ (e.sep ++ (quoted e.value ++ post))), cur,
        blockSize⟩ e.key value 0 =
      some (true, MapHackEntityData_t.new
        (e.lead ++ (quoted e.key ++ (e.sep.take 1 ++ (setValueText value ++ post))))
        blockSize) := by
  unfold SetKeyValue
  rw [SetKeyValue.scan, parse_key e he]
  · simp only [he.2.1.1.head_ne_brace, if_false, if_true]
    have hgt : (0 : Int) + 1 > 0 := by omega
    simp only [hgt, if_true]
    rw [SetKeyValue_replace_self _ (e.lead ++ quoted e.key) e he post
      (by simp [List.append_assoc]) value, if_pos (by simpa [List.append_assoc] using hroom)]
    simp [MapHackEntityData_t.new, List.append_assoc]
  · exact Cursor.noConfusion

/-- The entry that the tokenizer reads at the start of `cutText v`: the value
runs on to the quote that opens the next key. -/
theorem cutText_entry (v : CStr) :
    cutText v = ['\n'] ++ (quoted ['k'] ++ ([' '] ++ (quoted (v ++ ['\n']) ++
      "z\" \"2\"\n\x7d".toList))) := by
  simp [cutText, quoted, List.append_assoc]

theorem cutEntry_wf (v : CStr) (hv : Clean v) (hlen : v.length = 1022) :
    Entry.WF ⟨['\n'], ['k'], [' '], v ++ ['\n']⟩ := by
  refine ⟨?_, ?_, ?_, ?_, ?_, ?_⟩
  · show White ['\n']
    decide
  · show Plain ['k']
    decide
  · show White [' ']
    decide
  · show [' '] ≠ []
    decide
  · intro c hc
    rcases List.mem_append.mp hc with hc | hc
    · exact hv c hc
    · rw [List.mem_singleton.mp hc]; decide
  · simp [MAPKEY_MAXLENGTH, hlen]

/-- `SetKeyValue( "k", v, 0 )` on `shortRecord` with a value of 1022 characters
leaves the value without its closing quote. -/
theorem SetKeyValue_shortRecord_long (v : CStr) (hlen : v.length = 1022) :
    SetKeyValue shortRecord ['k'] v 0 =
      some (true, MapHackEntityData_t.new (cutText v) (18 + 1024)) := by
  have h := SetKeyValue_first ⟨['\n'], ['k'], [' '], ['1']⟩ (by decide)
    "\n\"z\" \"2\"\n\x7d".toList (Cursor.ptr "\n\"k\" \"1\"\n\"z\" \"2\"\n\x7d".toList)
    (18 + 1024) v (by rw [setValueText_long v hlen]; simp [quoted, hlen])
  rw [setValueText_long v hlen] at h
  simpa [shortRecord, MapHackEntityData_t.new, cutText, quoted, List.append_assoc] using h

/-- A second `SetKeyValue( "k", v, 0 )` with the same value of 1022 characters
takes the text up to the next quote for the old value and cuts it out. -/
theorem SetKeyValue_cutText_long (v : CStr) (hv : Clean v) (hlen : v.length = 1022) :
    SetKeyValue (MapHackEntityData_t.new (cutText v) (18 + 1024)) ['k'] v 0 =
      some (true, MapHackEntityData_t.new (cutTwiceText v) (18 + 1024)) := by
  have h := SetKeyValue_first ⟨['\n'], ['k'], [' '], v ++ ['\n']⟩ (cutEntry_wf v hv hlen)
    "z\" \"2\"\n\x7d".toList (Cursor.ptr (cutText v)) (18 + 1024) v
    (by rw [setValueText_long v hlen]; simp [quoted, hlen])
  rw [setValueText_long v hlen] at h
  simp only [MapHackEntityData_t.new, cutText_entry]
  simpa [MapHackEntityData_t.new, cutTwiceText, quoted, List.append_assoc] using h

/-- C5, counterexample: on the record `"k" "1"`, `"z" "2"`,
`SetKeyValue( "k", v, 0 )` with a value of 1022 letters cuts the formatted
value to the 1023 characters that fit `szNewValue`; the closing quote is lost
and the pairs that the record's iterator reads afterwards are not
`("k", v)`, `("z", "2")`. -/
theorem SetKeyValue_in_place_counterexample :
    (SetKeyValue shortRecord ['k'] (List.replicate 1022 'v') 0).bind
        (fun r => allPairs r.2) ≠
      some [(['k'], List.replicate 1022 'v'), (['z'], ['2'])] := by
  have hlen : (List.replicate 1022 'v').length = 1022 := List.length_replicate _ _
  have hv : Clean (List.replicate 1022 'v') := Clean_replicate _ _ (by decide)
  rw [SetKeyValue_shortRecord_long _ hlen]
  simp only [Option.bind, allPairs, MapHackEntityData_t.new]
  rw [allPairs.loop]
  conv_lhs => rw [cutText_entry]
  rw [GetNextKey_first _ _ ⟨['\n'], ['k'], [' '], List.replicate 1022 'v' ++ ['\n']⟩
    (cutEntry_wf _ hv hlen)]
  intro hEq
  simp only [Option.map_eq_some', List.cons.injEq, Prod.mk.injEq] at hEq
  obtain ⟨_, _, ⟨_, hbad⟩, _⟩ := hEq
  have := congrArg List.length hbad
  simp at this

/-- C2, counterexample: (a) on the record `"Angle" "1"`, `"angle" "2"` the key
`angle` occurs once, and after two calls of `SetKeyValue( "angle", "90", 0 )`
`GetKeyValue( "angle" )` returns `"1"`, the value of `Angle`; (b) on the record
`"k" "1"`, `"z" "2"` with a value of 1022 letters, which does not fit
`szNewValue`, the second call changes the text that the first call left. -/
theorem SetKeyValue_idempotent_counterexample :
    ((SetKeyValue (MapHackEntityData_t.new "\n\"Angle\" \"1\"\n\"angle\" \"2\"\n\x7d".toList 1050)
          "angle".toList "90".toList 0).bind fun a =>
        (SetKeyValue a.2 "angle".toList "90".toList 0).bind fun b =>
          GetKeyValue b.2 "angle".toList 256) = some (some "1".toList) ∧
    ((SetKeyValue shortRecord ['k'] (List.replicate 1022 'v') 0).bind fun a =>
        SetKeyValue a.2 ['k'] (List.replicate 1022 'v') 0) ≠
      SetKeyValue shortRecord ['k'] (List.replicate 1022 'v') 0 := by
  refine ⟨by decide, ?_⟩
  have hlen : (List.replicate 1022 'v').length = 1022 := List.length_replicate _ _
  have hv : Clean (List.replicate 1022 'v') := Clean_replicate _ _ (by decide)
  rw [SetKeyValue_shortRecord_long _ hlen]
  simp only [Option.bind]
  rw [SetKeyValue_cutText_long _ hv hlen]
  intro hEq
  simp only [Option.some.injEq, Prod.mk.injEq, MapHackEntityData_t.new,
    MapHackEntityData_t.mk.injEq] at hEq
  have := congrArg List.length hEq.2.1
  simp [cutText, cutTwiceText] at this

/-! ## `RemoveValue` (C4) -/

/-- C4, the code at the failing input: in the record `"x" "k"`, `"k" "v"`,
`"y" "w"` the first loop of `RemoveValue( "k" )` does not skip the values and
stops at the value `"k"` of the first pair; the text `"k"` and the newline
after it are cut out of the first line, and the iterator then reads the pairs
`("x", "k")`, `("v", "y")` instead of `("x", "k")`, `("y", "w")`. -/
theorem RemoveValue_stops_at_value :
    (RemoveValue (MapHackEntityData_t.new "\n\"x\" \"k\"\n\"k\" \"v\"\n\"y\" \"w\"\n\x7d".toList
        (27 + 1024)) ['k']).map (fun r => (r.1, r.2.m_pEntData)) =
      some (true, "\n\"x\" \"k\" \"v\"\n\"y\" \"w\"\n\x7d".toList) ∧
    (RemoveValue (MapHackEntityData_t.new "\n\"x\" \"k\"\n\"k\" \"v\"\n\"y\" \"w\"\n\x7d".toList
        (27 + 1024)) ['k']).bind (fun r => allPairs r.2) =
      some [(['x'], ['k']), (['v'], ['y'])] := by
  decide

/-! ## Well-formedness after a mutation (C6) -/

theorem isCompleteRecord_scan_record (es : List Entry) (tail : CStr) (h : RecordWF es tail)
    (n : Nat) (hn : es.length < n) :
    isCompleteRecord.scan n (recordText es tail) = true := by
  induction es generalizing n with
  | nil =>
    cases n with
    | zero => simp at hn
    | succ n =>
      have := parseAt_brace tail h.2.1 []
      simp [isCompleteRecord.scan, recordText_nil, this]
  | cons e es ih =>
    cases n with
    | zero => simp at hn
    | succ n =>
      obtain ⟨hl, hk, hs, _, hv⟩ := h.head_wf
      have h1 := parseAt_quoted e.lead hl e.key hk.1.no_quote hk.2
        (e.sep ++ (quoted e.value ++ recordText es tail))
      have h2 := parseAt_quoted e.sep hs e.value hv.1.no_quote hv.2 (recordText es tail)
      rw [recordText_cons, isCompleteRecord.scan]
      simp only [h1, h2, hk.1.head_ne_brace, hv.1.head_ne_brace, if_false]
      simp [ih h.tail_cons n (by simpa using hn)]

/-- A well-formed record is a syntactically complete record. -/
theorem isCompleteRecord_record (es : List Entry) (tail : CStr) (h : RecordWF es tail) :
    isCompleteRecord (recordText es tail) = true :=
  isCompleteRecord_scan_record es tail h _ (Nat.lt_succ_of_le (length_le_recordText es tail))

/-- C6, counterexample: the fresh record `{ }` is syntactically complete, and
after `InsertValue` with key `k` and a value of 249 letters, whose line is cut
to the 255 characters of `szLine`, the buffer is not: the value has no closing
quote and swallows the closing brace. -/
theorem mutation_keeps_record_counterexample :
    isCompleteRecord " \x7d".toList = true ∧
    (InsertValue (MapHackEntityData_t.new " \x7d".toList 1026) ['k']
        (List.replicate 249 'v')).map (fun r => isCompleteRecord r.2.m_pEntData) =
      some false := by
  decide

/-- C6, amended: on a well-formed record that fits its block, for a key and a
value without double quote and closing brace whose line `"key" "value"` fits
the 255 characters of `szLine`, the buffer after `InsertValue` is again a
well-formed, syntactically complete record, and so is the buffer after
`SetKeyValue` (with any instance number) when the block also holds the text
with the value of the first pair of that key replaced, which is what the call
with the instance number 0 writes into the block as it is. -/
theorem mutation_keeps_record (es : List Entry) (tail : CStr) (h : RecordWF es tail)
    (cur : Cursor) (blockSize : Nat) (hcap : (recordText es tail).length < blockSize)
    (key value : CStr) (hk : Plain key) (hv : Plain value)
    (hfit : key.length + value.length + 6 ≤ 255) (keyInstance : Nat)
    (hroom : (recordText (setFirst key value es) tail).length < blockSize) :
    (∃ r es' tail', InsertValue ⟨recordText es tail, cur, blockSize⟩ key value = some (true, r) ∧
      r.m_pEntData = recordText es' tail' ∧ RecordWF es' tail' ∧
      isCompleteRecord r.m_pEntData = true) ∧
    (∃ r es' tail', SetKeyValue ⟨recordText es tail, cur, blockSize⟩ key value keyInstance =
        some (true, r) ∧
      r.m_pEntData = recordText es' tail' ∧ RecordWF es' tail' ∧
      isCompleteRecord r.m_pEntData = true) := by
  have hins : ∃ r es' tail', InsertValue ⟨recordText es tail, cur, blockSize⟩ key value =
      some (true, r) ∧ r.m_pEntData = recordText es' tail' ∧ RecordWF es' tail' ∧
      isCompleteRecord r.m_pEntData = true :=
    ⟨_, es ++ [insertedEntry tail key value], ['\n'],
      InsertValue_record es tail h cur blockSize hcap key value hfit, rfl, h.insert hk hv,
      isCompleteRecord_record _ _ (h.insert hk hv)⟩
  refine ⟨hins, ?_⟩
  by_cases hcase : (1 : Int) ≤ keyInstance ∨ ∀ e ∈ es, e.key ≠ key
  · rw [SetKeyValue_eq_insert es tail h cur blockSize key value keyInstance hcase]
    exact hins
  · have hzero : keyInstance = 0 := by
      by_contra hne
      exact hcase (Or.inl (by omega))
    have hkey : ∃ e ∈ es, e.key = key := by
      by_contra hno
      exact hcase (Or.inr (fun e he hek => hno ⟨e, he, hek⟩))
    subst hzero
    refine ⟨⟨recordText (setFirst key value es) tail,
        Cursor.ptr (recordText (setFirst key value es) tail), blockSize⟩,
      setFirst key value es, tail, ?_, rfl,
      h.setFirst key hv, isCompleteRecord_record _ _ (h.setFirst key hv)⟩
    rw [Nat.cast_zero, SetKeyValue_record es tail h cur blockSize key value hkey (by omega),
      if_pos hroom]

/-- C6, witness: `SetKeyValue` and `InsertValue` on a record of two pairs. -/
theorem mutation_keeps_record_witness :
    (∃ r es' tail', InsertValue ⟨recordText [⟨['\n'], "angle".toList, [' '], "0".toList⟩,
          ⟨['\n'], "skin".toList, [' '], "1".toList⟩] ['\n'], Cursor.null, 1050⟩
        "angle".toList "90".toList = some (true, r) ∧
      r.m_pEntData = recordText es' tail' ∧ RecordWF es' tail' ∧
      isCompleteRecord r.m_pEntData = true) ∧
    (∃ r es' tail', SetKeyValue ⟨recordText [⟨['\n'], "angle".toList, [' '], "0".toList⟩,
          ⟨['\n'], "skin".toList, [' '], "1".toList⟩] ['\n'], Cursor.null, 1050⟩
        "angle".toList "90".toList ((0 : Nat) : Int) = some (true, r) ∧
      r.m_pEntData = recordText es' tail' ∧ RecordWF es' tail' ∧
      isCompleteRecord r.m_pEntData = true) :=
  mutation_keeps_record
    [⟨['\n'], "angle".toList, [' '], "0".toList⟩, ⟨['\n'], "skin".toList, [' '], "1".toList⟩]
    ['\n'] (by decide) Cursor.null 1050 (by decide) "angle".toList "90".toList (by decide)
    (by decide) (by decide) 0 (by decide)

/-! ## Growth of the buffer (C7) -/

theorem shortRecord_eq :
    shortRecord = ⟨recordText [⟨['\n'], ['k'], [' '], ['1']⟩, ⟨['\n'], ['z'], [' '], ['2']⟩]
      ['\n'], Cursor.ptr "\n\"k\" \"1\"\n\"z\" \"2\"\n\x7d".toList, 18 + 1024⟩ := by
  decide

/-- C7, the code at the failing input: the record `"k" "1"`, `"z" "2"` is
staged with a text of 18 characters in a block of 18 + 1024 bytes.  After
`SetKeyValue( "k", x, 0 )` with a value of 600 letters the text with its
terminator still fits the block, whose size is unchanged.
`SetKeyValue( "z", y, 0 )` with another 600 letters then writes a text that
takes 1217 bytes with its terminator into the block of 1042 bytes: the call
has no defined result, in this block as in every block of fewer than 1217
bytes, and in a block of 1217 bytes it returns true with that text. -/
theorem SetKeyValue_overruns_block :
    ∃ r1, SetKeyValue shortRecord ['k'] (List.replicate 600 'x') 0 = some (true, r1) ∧
      r1.m_pEntData.length + 1 ≤ r1.m_iBlockSize ∧ r1.m_iBlockSize = 18 + 1024 ∧
      SetKeyValue r1 ['z'] (List.replicate 600 'y') 0 = none ∧
      (∀ blockSize, blockSize < 1217 →
        SetKeyValue { r1 with m_iBlockSize := blockSize } ['z'] (List.replicate 600 'y') 0 =
          none) ∧
      ∃ r2, SetKeyValue { r1 with m_iBlockSize := 1217 } ['z'] (List.replicate 600 'y') 0 =
          some (true, r2) ∧
        r2.m_iBlockSize = 1217 ∧ r2.m_pEntData.length + 1 = 1217 := by
  have hwf0 : RecordWF [⟨['\n'], ['k'], [' '], ['1']⟩, ⟨['\n'], ['z'], [' '], ['2']⟩] ['\n'] := by
    decide
  have hx : Plain (List.replicate 600 'x') :=
    ⟨Clean_replicate _ _ (by decide), by simp [MAPKEY_MAXLENGTH]⟩
  have hwf1 := hwf0.setFirst ['k'] hx
  have h1 := SetKeyValue_record _ _ hwf0 (Cursor.ptr "\n\"k\" \"1\"\n\"z\" \"2\"\n\x7d".toList)
    (18 + 1024) ['k'] (List.replicate 600 'x') ⟨_, List.mem_cons_self _ _, rfl⟩ (by simp)
  rw [← shortRecord_eq, if_pos (by simp [setFirst, recordText, entriesText, Entry.text,
    quoted])] at h1
  have h2 := fun blockSize => SetKeyValue_record _ _ hwf1
    (Cursor.ptr (recordText (setFirst ['k'] (List.replicate 600 'x')
      [⟨['\n'], ['k'], [' '], ['1']⟩, ⟨['\n'], ['z'], [' '], ['2']⟩]) ['\n']))
    blockSize ['z'] (List.replicate 600 'y')
    ⟨⟨['\n'], ['z'], [' '], ['2']⟩, by simp [setFirst], rfl⟩ (by simp)
  have hlen : (recordText (setFirst ['z'] (List.replicate 600 'y')
      (setFirst ['k'] (List.replicate 600 'x')
        [⟨['\n'], ['k'], [' '], ['1']⟩, ⟨['\n'], ['z'], [' '], ['2']⟩])) ['\n']).length =
      1216 := by
    simp [setFirst, recordText, entriesText, Entry.text, quoted]
  have h3 := h2 1217
  rw [if_pos (by rw [hlen]; omega)] at h3
  refine ⟨_, h1, ?_, rfl, ?_, ?_, _, h3, rfl, ?_⟩
  · simp [setFirst, recordText, entriesText, Entry.text, quoted]
  · rw [h2 (18 + 1024), if_neg (by rw [hlen]; omega)]
  · intro blockSize hlt
    rw [h2 blockSize, if_neg (by rw [hlen]; omega)]
  · show (recordText _ _).length + 1 = 1217
    rw [hlen]

/-! ## The condition evaluator: splitting at the operator -/

theorem strstr_skip (pre rest : CStr) (c0 : Char) (tl : CStr) (h : c0 ∉ pre) :
    V_strstr (pre ++ rest) (c0 :: tl) = (V_strstr rest (c0 :: tl)).map (· + pre.length) := by
  induction pre with
  | nil => simp
  | cons a pre ih =>
    have ha : ¬ (c0 = a) := fun e => h (by simp [e])
    have hpre : c0 ∉ pre := fun e => h (by simp [e])
    simp [V_strstr, List.isPrefixOf, ha, ih hpre, Option.map_map, Function.comp_def, Nat.add_assoc]

theorem strstr_absent (s : CStr) (c0 : Char) (tl : CStr) (h : c0 ∉ s) :
    V_strstr s (c0 :: tl) = none := by
  induction s with
  | nil => simp [V_strstr]
  | cons a s ih =>
    have ha : ¬ (c0 = a) := fun e => h (by simp [e])
    have hs : c0 ∉ s := fun e => h (by simp [e])
    simp [V_strstr, List.isPrefixOf, ha, ih hs]

theorem splitString_two (l r o : CStr)
    (h1 : V_strstr (l ++ ' ' :: (o ++ ' ' :: r)) o = some (l.length + 1))
    (h2 : V_strstr (' ' :: r) o = none) :
    V_SplitString (l ++ ' ' :: (o ++ ' ' :: r)) o = [l ++ [' '], ' ' :: r] := by
  have hlen : (l ++ ' ' :: (o ++ ' ' :: r)).length + 1 = (l.length + o.length + r.length + 1) + 2 := by
    simp; omega
  have htake : (l ++ ' ' :: (o ++ ' ' :: r)).take (l.length + 1) = l ++ [' '] := by
    have : l ++ ' ' :: (o ++ ' ' :: r) = (l ++ [' ']) ++ (o ++ ' ' :: r) := by simp
    rw [this, List.take_left' (by simp)]
  have hdrop : (l ++ ' ' :: (o ++ ' ' :: r)).drop (l.length + 1 + o.length) = ' ' :: r := by
    have : l ++ ' ' :: (o ++ ' ' :: r) = (l ++ [' '] ++ o) ++ (' ' :: r) := by simp
    rw [this, List.drop_left' (by simp; omega)]
  unfold V_SplitString
  rw [hlen, V_SplitString.go, h1]
  simp only [htake, hdrop, Nat.succ_pos, if_true, Nat.lt_add_left_iff_pos, Nat.zero_lt_succ]
  rw [V_SplitString.go, h2]
  simp

/-- The first loop of `TestIfCondBlock` on `l op r` with plain operands finds
the operator itself and splits the string into `l ` and ` r`. -/
theorem split_cond (l r : CStr) (hl : OperandText l) (hr : OperandText r) (op : Nat)
    (hop : op < 6) :
    TestIfCondBlock.split (condText l op r) pszOps 0 = (op, [l ++ [' '], ' ' :: r]) := by
  have e1 : '=' ∉ l := fun h => (hl.2 _ h).2.1 rfl
  have e2 : '!' ∉ l := fun h => (hl.2 _ h).2.2.1 rfl
  have e3 : '<' ∉ l := fun h => (hl.2 _ h).2.2.2.1 rfl
  have e4 : '>' ∉ l := fun h => (hl.2 _ h).2.2.2.2 rfl
  have f1 : '=' ∉ r := fun h => (hr.2 _ h).2.1 rfl
  have f2 : '!' ∉ r := fun h => (hr.2 _ h).2.2.1 rfl
  have f3 : '<' ∉ r := fun h => (hr.2 _ h).2.2.2.1 rfl
  have f4 : '>' ∉ r := fun h => (hr.2 _ h).2.2.2.2 rfl
  have hsp : V_SplitString (condText l op r) (opText op) = [l ++ [' '], ' ' :: r] := by
    apply splitString_two
    · interval_cases op <;>
        simp [opText, pszOps, strstr_skip l _ _ _ e1, strstr_skip l _ _ _ e2,
          strstr_skip l _ _ _ e3, strstr_skip l _ _ _ e4, V_strstr, List.isPrefixOf] <;> omega
    · interval_cases op <;>
        simp [opText, pszOps, V_strstr, List.isPrefixOf, strstr_absent r _ _ f1,
          strstr_absent r _ _ f2, strstr_absent r _ _ f3, strstr_absent r _ _ f4]
  interval_cases op <;>
    simp only [condText, opText, pszOps, List.getD_cons_zero, List.getD_cons_succ,
      List.cons_append, List.nil_append] at hsp ⊢ <;>
    simp [TestIfCondBlock.split, strstr_skip l _ _ _ e1, strstr_skip l _ _ _ e2,
      strstr_skip l _ _ _ e3, strstr_skip l _ _ _ e4, V_strstr, List.isPrefixOf,
      strstr_absent r _ _ f1, strstr_absent r _ _ f2, strstr_absent r _ _ f3,
      strstr_absent r _ _ f4, hsp]

/-! ## The condition evaluator: operands -/

theorem dropWhile_spaces_append (a rest : CStr) (ha : ∀ c ∈ a, isSpaceC c = true) :
    (a ++ rest).dropWhile isSpaceC = rest.dropWhile isSpaceC := by
  induction a with
  | nil => simp
  | cons x a ih =>
    have hx := ha x (by simp)
    simp [List.dropWhile, hx, ih (fun c hc => ha c (by simp [hc]))]

theorem dropWhile_core (core rest : CStr) (hne : core ≠ [])
    (hcore : ∀ c ∈ core, isSpaceC c = false) :
    (core ++ rest).dropWhile isSpaceC = core ++ rest := by
  cases core with
  | nil => exact absurd rfl hne
  | cons x core =>
    have hx := hcore x (by simp)
    simp [List.dropWhile, hx]

/-- Stripping leaves the core of a text that is wrapped in whitespace. -/
theorem strip_core (a core b : CStr) (ha : ∀ c ∈ a, isSpaceC c = true)
    (hb : ∀ c ∈ b, isSpaceC c = true) (hne : core ≠ [])
    (hcore : ∀ c ∈ core, isSpaceC c = false) :
    Q_StripPrecedingAndTrailingWhitespace (a ++ (core ++ b)) = core := by
  unfold Q_StripPrecedingAndTrailingWhitespace
  have h1 : (a ++ (core ++ b)).reverse = b.reverse ++ (core.reverse ++ a.reverse) := by simp
  rw [h1, dropWhile_spaces_append _ _ (fun c hc => hb c (List.mem_reverse.mp hc)),
    dropWhile_core _ _ (by simpa using hne) (fun c hc => hcore c (List.mem_reverse.mp hc))]
  have h2 : (core.reverse ++ a.reverse).reverse = a ++ (core ++ []) := by simp
  rw [h2, dropWhile_spaces_append _ _ ha, dropWhile_core _ _ hne hcore]
  simp

theorem strip_left (l : CStr) (hl : OperandText l) :
    Q_StripPrecedingAndTrailingWhitespace (l ++ [' ']) = l := by
  have := strip_core [] l [' '] (by simp) (by simp [isSpaceC]) hl.1 (fun c hc => (hl.2 c hc).1)
  simpa using this

theorem strip_right (r : CStr) (hr : OperandText r) :
    Q_StripPrecedingAndTrailingWhitespace (' ' :: r) = r := by
  have := strip_core [' '] r [] (by simp [isSpaceC]) (by simp) hr.1 (fun c hc => (hr.2 c hc).1)
  simpa using this

theorem strip_both (l : CStr) (hl : OperandText l) :
    Q_StripPrecedingAndTrailingWhitespace (' ' :: (l ++ [' '])) = l := by
  have := strip_core [' '] l [' '] (by simp [isSpaceC]) (by simp [isSpaceC]) hl.1
    (fun c hc => (hl.2 c hc).1)
  simpa using this

/-! ## Decimal literals -/

theorem digit_char (d : Nat) (hd : d < 10) :
    (Char.ofNat (48 + d)).isDigit = true ∧ (Char.ofNat (48 + d)).toNat - 48 = d := by
  interval_cases d <;> decide

theorem isDigit_facts (c : Char) (hc : c.isDigit = true) :
    isSpaceC c = false ∧ c ≠ '=' ∧ c ≠ '!' ∧ c ≠ '<' ∧ c ≠ '>' ∧ c ≠ '-' ∧ c ≠ '+' ∧
      c ≠ '%' := by
  have h : 48 ≤ c.toNat ∧ c.toNat ≤ 57 := by
    simp only [Char.isDigit, Bool.and_eq_true, decide_eq_true_eq] at hc
    exact ⟨hc.1, hc.2⟩
  refine ⟨?_, ?_, ?_, ?_, ?_, ?_, ?_, ?_⟩
  · simp only [isSpaceC, Bool.or_eq_false_iff, Bool.and_eq_false_iff, decide_eq_false_iff_not,
      beq_eq_false_iff_ne]
    refine ⟨?_, Or.inr (by omega)⟩
    rintro rfl
    exact absurd h.1 (by decide)
  all_goals
    rintro rfl
    exact absurd h (by decide)

theorem digitsValue_append (a : CStr) (c : Char) :
    digitsValue (a ++ [c]) = digitsValue a * 10 + (c.toNat - 48) := by
  simp [digitsValue, List.foldl_append]

theorem digitsValue_digits (L : List Nat) (hL : ∀ d ∈ L, d < 10) :
    digitsValue (L.reverse.map fun d => Char.ofNat (48 + d)) = Nat.ofDigits 10 L := by
  induction L with
  | nil => simp [digitsValue]
  | cons d L ih =>
    have hd := (digit_char d (hL d (by simp))).2
    rw [List.reverse_cons, List.map_append, List.map_singleton, digitsValue_append,
      ih (fun x hx => hL x (by simp [hx])), hd, Nat.ofDigits_cons]
    omega

theorem decimalNat_digits (n : Nat) : ∀ c ∈ decimalNat n, c.isDigit = true := by
  intro c hc
  unfold decimalNat at hc
  split at hc
  · rw [List.mem_singleton.mp hc]; decide
  · simp only [List.mem_map, List.mem_reverse] at hc
    obtain ⟨d, hd, rfl⟩ := hc
    exact (digit_char d (Nat.digits_lt_base (by decide) hd)).1

theorem decimalNat_ne_nil (n : Nat) : decimalNat n ≠ [] := by
  unfold decimalNat
  split
  · simp
  · rename_i hn
    simpa using (Nat.digits_ne_nil_iff_ne_zero.mpr hn)

theorem decimalNat_value (n : Nat) : digitsValue (decimalNat n) = n := by
  unfold decimalNat
  split
  · rename_i hn
    rw [hn]; decide
  · rw [digitsValue_digits _ (fun d hd => Nat.digits_lt_base (by decide) hd),
      Nat.ofDigits_digits]

theorem takeWhile_all (p : Char → Bool) (s : CStr) (h : ∀ c ∈ s, p c = true) :
    s.takeWhile p = s ∧ s.dropWhile p = [] := by
  induction s with
  | nil => simp
  | cons a s ih =>
    have ha := h a (by simp)
    have := ih (fun c hc => h c (by simp [hc]))
    simp [List.takeWhile, List.dropWhile, ha, this.1, this.2]

/-- A decimal literal is a plain operand text that does not start with the
variable sigil. -/
theorem decimalText_operand (a : Int) :
    OperandText (decimalText a) ∧ (decimalText a).head? ≠ some '%' := by
  have hd := decimalNat_digits a.natAbs
  have hne := decimalNat_ne_nil a.natAbs
  unfold decimalText
  split
  · refine ⟨⟨by simp, ?_⟩, by simp⟩
    intro c hc
    rcases List.mem_cons.mp hc with rfl | hc
    · decide
    · have := isDigit_facts c (hd c hc)
      exact ⟨this.1, this.2.1, this.2.2.1, this.2.2.2.1, this.2.2.2.2.1⟩
  · refine ⟨⟨hne, ?_⟩, ?_⟩
    · intro c hc
      have := isDigit_facts c (hd c hc)
      exact ⟨this.1, this.2.1, this.2.2.1, this.2.2.2.1, this.2.2.2.2.1⟩
    · cases hds : decimalNat a.natAbs with
      | nil => exact absurd hds hne
      | cons x t =>
        have := isDigit_facts x (hd x (by simp [hds]))
        simpa using this.2.2.2.2.2.2.2

/-! ## Typing of an integer literal -/

theorem toInt32_id (a : Int) (h1 : LONG_MIN ≤ a) (h2 : a ≤ LONG_MAX) : toInt32 a = a := by
  unfold toInt32
  unfold LONG_MIN at h1
  unfold LONG_MAX at h2
  omega

theorem head_digit (ds : CStr) (hne : ds ≠ []) (hd : ∀ c ∈ ds, c.isDigit = true) :
    ∃ x t, ds = x :: t ∧ x.isDigit = true ∧ isSpaceC x = false ∧ x ≠ '-' ∧ x ≠ '+' := by
  cases ds with
  | nil => exact absurd rfl hne
  | cons x t =>
    have hx := hd x (by simp)
    have := isDigit_facts x hx
    exact ⟨x, t, rfl, hx, this.1, this.2.2.2.2.2.1, this.2.2.2.2.2.2.1⟩

theorem scan_prefix_digit (x : Char) (t : CStr) (hsp : isSpaceC x = false) (hm : x ≠ '-')
    (hp : x ≠ '+') :
    (x :: t).takeWhile isSpaceC = [] ∧ (x :: t).dropWhile isSpaceC = x :: t ∧
      signLength (x :: t) = 0 ∧ (x :: t).head? ≠ some '-' := by
  refine ⟨by simp [hsp], by simp [hsp], by simp [signLength, hm, hp], by simpa using hm⟩

theorem scan_prefix_minus (ds : CStr) :
    ('-' :: ds).takeWhile isSpaceC = [] ∧ ('-' :: ds).dropWhile isSpaceC = '-' :: ds ∧
      signLength ('-' :: ds) = 1 ∧ ('-' :: ds).head? = some '-' := by
  have hsp : isSpaceC '-' = false := by decide
  refine ⟨by simp [hsp], by simp [hsp], by simp [signLength], rfl⟩

theorem strtol_pos (ds : CStr) (hne : ds ≠ []) (hd : ∀ c ∈ ds, c.isDigit = true)
    (hr : (digitsValue ds : Int) ≤ LONG_MAX) :
    strtol ds = ((digitsValue ds : Int), ds.length, false) := by
  obtain ⟨x, t, rfl, hx, hsp, hm, hp⟩ := head_digit ds hne hd
  obtain ⟨h1, h2, h3, h4⟩ := scan_prefix_digit x t hsp hm hp
  have htw := takeWhile_all Char.isDigit (x :: t) hd
  have hmin : ¬ ((digitsValue (x :: t) : Int) < LONG_MIN) := by
    unfold LONG_MIN; omega
  have hmax : ¬ ((digitsValue (x :: t) : Int) > LONG_MAX) := by omega
  unfold strtol
  simp only [h1, h2, h3, h4, List.drop_zero, htw.1, if_false, hmin, hmax]
  simp

theorem strtol_neg (ds : CStr) (hne : ds ≠ []) (hd : ∀ c ∈ ds, c.isDigit = true)
    (hr : LONG_MIN ≤ -(digitsValue ds : Int)) :
    strtol ('-' :: ds) = (-(digitsValue ds : Int), ds.length + 1, false) := by
  obtain ⟨h1, h2, h3, h4⟩ := scan_prefix_minus ds
  have htw := takeWhile_all Char.isDigit ds hd
  have hmin : ¬ (-(digitsValue ds : Int) < LONG_MIN) := by omega
  have hmax : ¬ (-(digitsValue ds : Int) > LONG_MAX) := by
    unfold LONG_MAX; omega
  have hne' : ds.isEmpty = false := by
    cases ds with
    | nil => exact absurd rfl hne
    | cons _ _ => rfl
  unfold strtol
  simp only [h1, h2, h3, h4, List.drop_succ_cons, List.drop_zero, htw.1, hne', if_true, hmin,
    hmax]
  simp
  omega

theorem strtodEnd_pos (ds : CStr) (hne : ds ≠ []) (hd : ∀ c ∈ ds, c.isDigit = true) :
    strtodEnd ds = ds.length := by
  obtain ⟨x, t, rfl, hx, hsp, hm, hp⟩ := head_digit ds hne hd
  obtain ⟨h1, h2, h3, h4⟩ := scan_prefix_digit x t hsp hm hp
  have htw := takeWhile_all Char.isDigit (x :: t) hd
  unfold strtodEnd
  simp only [h1, h2, h3, List.drop_zero, htw.1, htw.2]
  simp [exponentLength]

theorem strtodEnd_neg (ds : CStr) (hne : ds ≠ []) (hd : ∀ c ∈ ds, c.isDigit = true) :
    strtodEnd ('-' :: ds) = ds.length + 1 := by
  obtain ⟨h1, h2, h3, h4⟩ := scan_prefix_minus ds
  have htw := takeWhile_all Char.isDigit ds hd
  have hlen : ds.length ≠ 0 := by simpa using hne
  unfold strtodEnd
  simp only [h1, h2, h3, List.drop_succ_cons, List.drop_zero, htw.1, htw.2]
  simp [exponentLength, hlen]
  omega

theorem decimalText_scan (a : Int) (h1 : LONG_MIN ≤ a) (h2 : a ≤ LONG_MAX) :
    strtol (decimalText a) = (a, (decimalText a).length, false) ∧
      strtodEnd (decimalText a) = (decimalText a).length ∧ V_atoi (decimalText a) = a := by
  have hd := decimalNat_digits a.natAbs
  have hne := decimalNat_ne_nil a.natAbs
  have hv := decimalNat_value a.natAbs
  unfold decimalText
  split
  · rename_i hneg
    have hval : -((digitsValue (decimalNat a.natAbs) : Nat) : Int) = a := by
      rw [hv]; omega
    refine ⟨?_, ?_, ?_⟩
    · rw [strtol_neg _ hne hd (by rw [hval]; exact h1), hval]
      simp
    · rw [strtodEnd_neg _ hne hd]; simp
    · have htw := takeWhile_all Char.isDigit _ hd
      simp only [V_atoi, List.head?_cons, if_true, List.drop_succ_cons, List.drop_zero, htw.1,
        hval]
      exact toInt32_id a h1 h2
  · rename_i hpos
    have hval : ((digitsValue (decimalNat a.natAbs) : Nat) : Int) = a := by
      rw [hv]; omega
    obtain ⟨x, t, hxt, hx, hsp, hm, hp⟩ := head_digit _ hne hd
    refine ⟨?_, ?_, ?_⟩
    · rw [strtol_pos _ hne hd (by rw [hval]; exact h2), hval]
    · rw [strtodEnd_pos _ hne hd]
    · have htw := takeWhile_all Char.isDigit _ hd
      have hm' : ¬ (x = '-') := hm
      have hhead : (decimalNat a.natAbs).head? ≠ some '-' := by
        rw [hxt]; simpa using hm'
      simp only [V_atoi, hhead, if_false, htw.1, hval]
      exact toInt32_id a h1 h2

/-- The literal of a 32-bit integer is typed as an integer when `errno` is clear
on entry or the integer is neither `LONG_MIN` nor `LONG_MAX`; `errno` is left
as it was. -/
theorem GetTypeForString_decimal (fl : FloatLib) (e : Bool) (a : Int) (h1 : LONG_MIN ≤ a)
    (h2 : a ≤ LONG_MAX) (hfl : fl.strtodRange (decimalText a) = false)
    (he : e = false ∨ (a ≠ LONG_MIN ∧ a ≠ LONG_MAX)) :
    GetTypeForString fl e (decimalText a) = (MapHackType_t.TYPE_INT, e) := by
  obtain ⟨hl, hf, _⟩ := decimalText_scan a h1 h2
  have hne : (decimalText a).isEmpty = false := by
    have := (decimalText_operand a).1.1
    cases h : decimalText a with
    | nil => exact absurd h this
    | cons _ _ => rfl
  have hov : ((toInt32 a == LONG_MAX || toInt32 a == LONG_MIN) && e) = false := by
    rw [toInt32_id a h1 h2]
    rcases he with he | ⟨hmin, hmax⟩
    · simp [he]
    · simp [hmin, hmax]
  simp only [GetTypeForString, hl, hf, hfl, hne, Bool.or_false, hov]
  simp

/-! ## Integer conditions (C9) -/

theorem operand_int (fl : FloatLib) (G : CStr → Option (MapHackVariable_t fl.F)) (text : CStr) :
    TestIfCondBlock.operand fl G MapHackType_t.TYPE_INT text =
      some ⟨[], MapHackType_t.TYPE_INT, some (decimalText (V_atoi text)), V_atoi text,
        fl.zero⟩ := by
  simp [TestIfCondBlock.operand, MapHackVariable_t.SetInt, MapHackVariable_t.Convert,
    MapHackVariable_t.init]

theorem test_int (fl : FloatLib) (op : Nat) (hop : op < 6) (l r : MapHackVariable_t fl.F)
    (hl : l.m_Type = MapHackType_t.TYPE_INT) (hr : r.m_Type = MapHackType_t.TYPE_INT) :
    TestIfCondBlock.test fl op l r = some (intCompare op l.m_iValue r.m_iValue) := by
  interval_cases op <;>
    simp [TestIfCondBlock.test, TestIfCondBlock.switchInt, intCompare,
      MapHackVariable_t.GetInt, hl, hr]

/-- Integer conditions with `errno` in order: for all 32-bit integers `a` and
`b` and each of the six operators, `TestIfCondBlock` on the decimal literal of
`a`, a space, the operator, a space and the decimal literal of `b` returns the
truth value of `a op b`, so that `>=` and `<=` are detected as themselves,
when `strtod` reports no range error on the two literals and `errno` is not
`ERANGE` on entry, or neither integer is `LONG_MIN` or `LONG_MAX`. -/
theorem TestIfCondBlock_int (fl : FloatLib) (G : CStr → Option (MapHackVariable_t fl.F))
    (a b : Int) (ha1 : LONG_MIN ≤ a) (ha2 : a ≤ LONG_MAX) (hb1 : LONG_MIN ≤ b)
    (hb2 : b ≤ LONG_MAX) (op : Nat) (hop : op < 6)
    (hfa : fl.strtodRange (decimalText a) = false)
    (hfb : fl.strtodRange (decimalText b) = false) (errnoRange : Bool)
    (he : errnoRange = false ∨
      (a ≠ LONG_MIN ∧ a ≠ LONG_MAX ∧ b ≠ LONG_MIN ∧ b ≠ LONG_MAX)) :
    TestIfCondBlock fl G errnoRange (condText (decimalText a) op (decimalText b)) =
      some (intCompare op a b) := by
  obtain ⟨hoa, hha⟩ := decimalText_operand a
  obtain ⟨hob, _⟩ := decimalText_operand b
  have hc1 : (decimalText a ++ [' ']).head? ≠ some '%' := by
    cases h : decimalText a with
    | nil => exact absurd h hoa.1
    | cons x t => rw [h] at hha; simpa using hha
  have hc2 : ¬ ((' ' : Char) = '%') := by decide
  have hea : errnoRange = false ∨ (a ≠ LONG_MIN ∧ a ≠ LONG_MAX) :=
    he.imp id (fun h => ⟨h.1, h.2.1⟩)
  have heb : errnoRange = false ∨ (b ≠ LONG_MIN ∧ b ≠ LONG_MAX) :=
    he.imp id (fun h => ⟨h.2.2.1, h.2.2.2⟩)
  unfold TestIfCondBlock
  rw [split_cond _ _ hoa hob op hop]
  simp only [List.map_cons, List.map_nil, hc1, List.head?_cons, Option.some.injEq, hc2, if_false,
    strip_left _ hoa, strip_right _ hob, GetTypeForString_decimal fl _ a ha1 ha2 hfa hea,
    GetTypeForString_decimal fl _ b hb1 hb2 hfb heb, operand_int]
  rw [test_int fl op hop _ _ rfl rfl, (decimalText_scan a ha1 ha2).2.2,
    (decimalText_scan b hb1 hb2).2.2]

theorem decimalText_five : decimalText 5 = ['5'] := by
  simp [decimalText, decimalNat]

theorem decimalText_three : decimalText 3 = ['3'] := by
  simp [decimalText, decimalNat]

/-- With `errno` clear, `5 > 3` is true, `3 >= 3` is true and `3 > 3` is
false. -/
theorem TestIfCondBlock_int_examples :
    TestIfCondBlock unitFloat (fun _ => none) false "5 > 3".toList = some true ∧
      TestIfCondBlock unitFloat (fun _ => none) false "3 >= 3".toList = some true ∧
      TestIfCondBlock unitFloat (fun _ => none) false "3 > 3".toList = some false := by
  have h1 := TestIfCondBlock_int unitFloat (fun _ => none) 5 3 (by decide) (by decide)
    (by decide) (by decide) 3 (by decide) rfl rfl false (Or.inl rfl)
  have h2 := TestIfCondBlock_int unitFloat (fun _ => none) 3 3 (by decide) (by decide)
    (by decide) (by decide) 2 (by decide) rfl rfl false (Or.inl rfl)
  have h3 := TestIfCondBlock_int unitFloat (fun _ => none) 3 3 (by decide) (by decide)
    (by decide) (by decide) 3 (by decide) rfl rfl false (Or.inl rfl)
  rw [decimalText_five, decimalText_three] at h1
  rw [decimalText_three] at h2 h3
  exact ⟨h1, h2, h3⟩

/-- C9: the condition `2147483647 > 5` on two 32-bit integers is true, and
`TestIfCondBlock` returns true for it while `errno` is clear.  A condition
with a literal outside of the range of `long`, such as `99999999999 == 1`,
leaves `errno` at `ERANGE`; evaluated after it, `2147483647 > 5` is false:
`GetTypeForString` takes the stale `errno` together with the value `LONG_MAX`
for an overflow of its own `strtol` and types the literal as a string, and a
string and an integer never compare.  The same holds for `-2147483648 < 5`. -/
theorem TestIfCondBlock_stale_errno :
    intCompare 3 2147483647 5 = true ∧
      TestIfCondBlock unitFloat (fun _ => none) false "2147483647 > 5".toList = some true ∧
      TestIfCondBlock.errnoAfter unitFloat false "99999999999 == 1".toList = true ∧
      TestIfCondBlock unitFloat (fun _ => none)
          (TestIfCondBlock.errnoAfter unitFloat false "99999999999 == 1".toList)
          "2147483647 > 5".toList = some false ∧
      intCompare 5 (-2147483648) 5 = true ∧
      TestIfCondBlock unitFloat (fun _ => none)
          (TestIfCondBlock.errnoAfter unitFloat false "99999999999 == 1".toList)
          "-2147483648 < 5".toList = some false := by
  decide

/-! ## Variable operands (C10) -/

/-- C10, counterexample: with a String variable `s` whose value is the text
`5`, the condition `%s == 5` is false: the left operand is the variable with
its declared type String, the right operand is an Int, and operands of
different types never compare. -/
theorem TestIfCondBlock_variable_counterexample :
    TestIfCondBlock unitFloat storeOfS false "%s == 5".toList = some false := by
  decide

theorem operand_variable (fl : FloatLib) (G : CStr → Option (MapHackVariable_t fl.F))
    (name : CStr) (v : MapHackVariable_t fl.F) (hv : G name = some v) :
    TestIfCondBlock.operand fl G MapHackType_t.TYPE_STRING name = some v := by
  simp [TestIfCondBlock.operand, hv]

theorem test_string_int (fl : FloatLib) (op : Nat) (l r : MapHackVariable_t fl.F)
    (hl : l.m_Type = MapHackType_t.TYPE_STRING) (hr : r.m_Type = MapHackType_t.TYPE_INT) :
    TestIfCondBlock.test fl op l r = some false := by
  simp [TestIfCondBlock.test, hl, hr]

theorem GetTypeForString_nonnumeric (fl : FloatLib) (e : Bool) (s : CStr) (h : NonNumeric s) :
    (GetTypeForString fl e s).1 = MapHackType_t.TYPE_STRING := by
  obtain ⟨h1, h2, _⟩ := h
  unfold GetTypeForString
  rcases hs : strtol s with ⟨v, pend, rg⟩
  rw [hs] at h1
  simp only at h1 ⊢
  split_ifs with a b c
  · rfl
  · exact absurd b.2 h2
  · exact absurd c.1 h1
  · rfl

/-- `TestIfCondBlock` on `%name op n`: the left operand is the variable that
the store holds under `name`, the right operand the integer `n`. -/
theorem variable_operand_eval (fl : FloatLib)
    (G : CStr → Option (MapHackVariable_t fl.F)) (errnoRange : Bool) (name : CStr)
    (hname : OperandText name) (hnn : NonNumeric name)
    (v : MapHackVariable_t fl.F) (hv : G name = some v) (n : Int) (hn1 : LONG_MIN ≤ n)
    (hn2 : n ≤ LONG_MAX) (hfn : fl.strtodRange (decimalText n) = false)
    (he : (GetTypeForString fl errnoRange name).2 = false ∨ (n ≠ LONG_MIN ∧ n ≠ LONG_MAX))
    (op : Nat) (hop : op < 6) :
    TestIfCondBlock fl G errnoRange (condText ('%' :: name) op (decimalText n)) =
      TestIfCondBlock.test fl op v
        ⟨[], MapHackType_t.TYPE_INT, some (decimalText n), n, fl.zero⟩ := by
  obtain ⟨hon, _⟩ := decimalText_operand n
  have hol : OperandText ('%' :: name) := by
    refine ⟨by simp, ?_⟩
    intro c hc
    rcases List.mem_cons.mp hc with rfl | hc
    · decide
    · exact hname.2 c hc
  have hc2 : ¬ ((' ' : Char) = '%') := by decide
  unfold TestIfCondBlock
  rw [split_cond _ _ hol hon op hop]
  simp only [List.map_cons, List.map_nil, List.cons_append, List.head?_cons, if_true,
    Option.some.injEq, hc2, if_false, List.drop_succ_cons, List.drop_zero,
    strip_both _ hname, strip_right _ hon, GetTypeForString_nonnumeric fl errnoRange name hnn,
    GetTypeForString_decimal fl _ n hn1 hn2 hfn he, operand_int,
    operand_variable fl G name v hv, (decimalText_scan n hn1 hn2).2.2]

/-- C10, amended: in `TestIfCondBlock` an operand that names a variable stands
for the variable with its declared type, and only the text of a literal is
typed by the numeric-sniffing rule.  For a variable `name` (a plain text that
is not a number: neither number scan reads it to its end, and it is none of
the special float texts) and a 32-bit integer `n` whose literal is typed as an
integer (`errno` is not `ERANGE` after the typing of the name, or `n` is
neither `LONG_MIN` nor `LONG_MAX`): when the variable is an Int of value `n`,
`%name == n` is true and `%name != n` is false; when it is a String, whatever
its text, both conditions are false. -/
theorem TestIfCondBlock_variable (fl : FloatLib)
    (G : CStr → Option (MapHackVariable_t fl.F)) (errnoRange : Bool) (name : CStr)
    (hname : OperandText name) (hnn : NonNumeric name)
    (v : MapHackVariable_t fl.F) (hv : G name = some v) (n : Int) (hn1 : LONG_MIN ≤ n)
    (hn2 : n ≤ LONG_MAX) (hfn : fl.strtodRange (decimalText n) = false)
    (he : (GetTypeForString fl errnoRange name).2 = false ∨ (n ≠ LONG_MIN ∧ n ≠ LONG_MAX)) :
    (v.m_Type = MapHackType_t.TYPE_INT → v.m_iValue = n →
      TestIfCondBlock fl G errnoRange (condText ('%' :: name) 0 (decimalText n)) = some true ∧
      TestIfCondBlock fl G errnoRange (condText ('%' :: name) 1 (decimalText n)) =
        some false) ∧
    (v.m_Type = MapHackType_t.TYPE_STRING →
      TestIfCondBlock fl G errnoRange (condText ('%' :: name) 0 (decimalText n)) = some false ∧
      TestIfCondBlock fl G errnoRange (condText ('%' :: name) 1 (decimalText n)) =
        some false) := by
  have h0 := variable_operand_eval fl G errnoRange name hname hnn v hv n hn1 hn2 hfn he 0
    (by decide)
  have h1 := variable_operand_eval fl G errnoRange name hname hnn v hv n hn1 hn2 hfn he 1
    (by decide)
  refine ⟨fun ht hval => ?_, fun ht => ?_⟩
  · rw [h0, h1, test_int fl 0 (by decide) _ _ ht rfl, test_int fl 1 (by decide) _ _ ht rfl]
    simp [intCompare, hval]
  · rw [h0, h1, test_string_int fl 0 _ _ ht rfl, test_string_int fl 1 _ _ ht rfl]
    exact ⟨rfl, rfl⟩

theorem decimalText_hundred : decimalText 100 = "100".toList := by
  simp [decimalText, decimalNat]

/-- C10, witness: with the Int variable `health` of value 100, `%health == 100`
is true and `%health != 100` is false. -/
theorem TestIfCondBlock_variable_witness :
    TestIfCondBlock unitFloat storeOfHealth false "%health == 100".toList = some true ∧
      TestIfCondBlock unitFloat storeOfHealth false "%health != 100".toList = some false := by
  have h := (TestIfCondBlock_variable unitFloat storeOfHealth false "health".toList (by decide)
    (by decide) ⟨"health".toList, MapHackType_t.TYPE_INT, some "100".toList, 100, ()⟩ rfl
    100 (by decide) (by decide) rfl (Or.inl (by decide))).1 rfl rfl
  rw [decimalText_hundred] at h
  exact h

/-! ## Operands of different types (C11) -/

theorem TestIfCondBlock_eq_test (fl : FloatLib)
    (G : CStr → Option (MapHackVariable_t fl.F)) (errnoRange : Bool) (psz l r : CStr)
    (rest : List CStr) (hops : operandTexts psz = l :: r :: rest)
    (pLVal pRVal : MapHackVariable_t fl.F)
    (hL : TestIfCondBlock.operand fl G (GetTypeForString fl errnoRange l).1 l = some pLVal)
    (hR : TestIfCondBlock.operand fl G
      (GetTypeForString fl (GetTypeForString fl errnoRange l).2 r).1 r = some pRVal) :
    TestIfCondBlock fl G errnoRange psz =
      TestIfCondBlock.test fl (TestIfCondBlock.split psz pszOps 0).1 pLVal pRVal := by
  unfold operandTexts at hops
  unfold TestIfCondBlock
  simp only [hops, hL, hR]

/-- C11: a condition whose two operands resolve to variables of different types
is false, whatever its operator: `TestIfCondBlock` compares only Int with Int,
Float with Float and String with String. -/
theorem TestIfCondBlock_mismatch (fl : FloatLib)
    (G : CStr → Option (MapHackVariable_t fl.F)) (errnoRange : Bool) (psz l r : CStr)
    (rest : List CStr) (hops : operandTexts psz = l :: r :: rest)
    (pLVal pRVal : MapHackVariable_t fl.F)
    (hL : TestIfCondBlock.operand fl G (GetTypeForString fl errnoRange l).1 l = some pLVal)
    (hR : TestIfCondBlock.operand fl G
      (GetTypeForString fl (GetTypeForString fl errnoRange l).2 r).1 r = some pRVal)
    (hne : pLVal.m_Type ≠ pRVal.m_Type) :
    TestIfCondBlock fl G errnoRange psz = some false := by
  rw [TestIfCondBlock_eq_test fl G errnoRange psz l r rest hops pLVal pRVal hL hR]
  unfold TestIfCondBlock.test
  split
  · rename_i h; exact absurd (h.1.trans h.2.symm) hne
  · split
    · rename_i h; exact absurd (h.1.trans h.2.symm) hne
    · split
      · rename_i h; exact absurd (h.1.trans h.2.symm) hne
      · rfl

theorem type_of_five (e : Bool) :
    GetTypeForString unitFloat e ['5'] = (MapHackType_t.TYPE_INT, e) := by
  cases e <;> decide

theorem type_of_abc (e : Bool) :
    GetTypeForString unitFloat e "abc".toList = (MapHackType_t.TYPE_STRING, e) := by
  cases e <;> decide

/-- C11, witness: `5 > abc` and `5 != abc` are false. -/
theorem TestIfCondBlock_mismatch_witness :
    TestIfCondBlock unitFloat (fun _ => none) false "5 > abc".toList = some false ∧
      TestIfCondBlock unitFloat (fun _ => none) false "5 != abc".toList = some false :=
  ⟨TestIfCondBlock_mismatch unitFloat (fun _ => none) false "5 > abc".toList ['5']
      "abc".toList [] (by decide)
      ⟨[], MapHackType_t.TYPE_INT, some (decimalText (V_atoi ['5'])), V_atoi ['5'], ()⟩
      ⟨[], MapHackType_t.TYPE_STRING, some "abc".toList, 0, ()⟩
      (by rw [type_of_five]; exact operand_int unitFloat _ _)
      (by rw [type_of_five, type_of_abc]; rfl) (by decide),
    TestIfCondBlock_mismatch unitFloat (fun _ => none) false "5 != abc".toList ['5']
      "abc".toList [] (by decide)
      ⟨[], MapHackType_t.TYPE_INT, some (decimalText (V_atoi ['5'])), V_atoi ['5'], ()⟩
      ⟨[], MapHackType_t.TYPE_STRING, some "abc".toList, 0, ()⟩
      (by rw [type_of_five]; exact operand_int unitFloat _ _)
      (by rw [type_of_five, type_of_abc]; rfl) (by decide)⟩

/-! ## String conditions (C12) -/

theorem operand_string (fl : FloatLib) (G : CStr → Option (MapHackVariable_t fl.F))
    (text : CStr) (hG : G text = none) :
    TestIfCondBlock.operand fl G MapHackType_t.TYPE_STRING text =
      some ⟨[], MapHackType_t.TYPE_STRING, some text, 0, fl.zero⟩ := by
  simp [TestIfCondBlock.operand, hG, MapHackVariable_t.SetString, MapHackVariable_t.init]

theorem operandTexts_cond (s t : CStr) (hs : OperandText s) (ht : OperandText t)
    (hsp : s.head? ≠ some '%') (op : Nat) (hop : op < 6) :
    operandTexts (condText s op t) = [s, t] := by
  have hc1 : (s ++ [' ']).head? ≠ some '%' := by
    cases h : s with
    | nil => exact absurd h hs.1
    | cons x u => rw [h] at hsp; simpa using hsp
  have hc2 : ¬ ((' ' : Char) = '%') := by decide
  unfold operandTexts
  rw [split_cond _ _ hs ht op hop]
  simp only [List.map_cons, List.map_nil, hc1, List.head?_cons, Option.some.injEq, hc2, if_false,
    strip_left _ hs, strip_right _ ht]

/-- `TestIfCondBlock` on `s op t` for two texts that are typed as strings and
name no variable: the `switch` on strings applied to the two texts. -/
theorem string_operands_eval (fl : FloatLib) (G : CStr → Option (MapHackVariable_t fl.F))
    (e : Bool) (s t : CStr) (hs : OperandText s) (ht : OperandText t)
    (hsp : s.head? ≠ some '%') (hns : NonNumeric s) (hnt : NonNumeric t) (hGs : G s = none)
    (hGt : G t = none) (op : Nat) (hop : op < 6) :
    TestIfCondBlock fl G e (condText s op t) =
      TestIfCondBlock.switchString op (some s) (some t) := by
  rw [TestIfCondBlock_eq_test fl G e _ s t [] (operandTexts_cond s t hs ht hsp op hop)
    ⟨[], MapHackType_t.TYPE_STRING, some s, 0, fl.zero⟩
    ⟨[], MapHackType_t.TYPE_STRING, some t, 0, fl.zero⟩
    (by rw [GetTypeForString_nonnumeric fl _ s hns]; exact operand_string fl G s hGs)
    (by rw [GetTypeForString_nonnumeric fl _ t hnt]; exact operand_string fl G t hGt),
    split_cond _ _ hs ht op hop]
  simp [TestIfCondBlock.test, MapHackVariable_t.GetString]

/-- C12, counterexample: `abc == ABC` is true and `abc != ABC` is false although
the two texts differ, because `FStrEq` ignores the case of letters; and
`%abc == abc` is true, because a leading `%` is cleared before the comparison. -/
theorem TestIfCondBlock_string_counterexample :
    "abc".toList ≠ "ABC".toList ∧
      TestIfCondBlock unitFloat (fun _ => none) false "abc == ABC".toList = some true ∧
      TestIfCondBlock unitFloat (fun _ => none) false "abc != ABC".toList = some false ∧
      "%abc".toList ≠ "abc".toList ∧
      TestIfCondBlock unitFloat (fun _ => none) false "%abc == abc".toList = some true := by
  decide

/-- C12, amended: for two operand texts `s` and `t` that are not empty, hold no
operator character and no whitespace, are not numbers (neither number scan
reads them to their end, and they are none of the special float texts) and
name no variable, `s` not beginning with `%`: `s == t` is true exactly when `s`
and `t` are equal up to the case of letters, `s != t` is the negation of that,
and each of the four ordering operators gives false. -/
theorem TestIfCondBlock_string (fl : FloatLib) (G : CStr → Option (MapHackVariable_t fl.F))
    (e : Bool) (s t : CStr) (hs : OperandText s) (ht : OperandText t)
    (hsp : s.head? ≠ some '%') (hns : NonNumeric s) (hnt : NonNumeric t) (hGs : G s = none)
    (hGt : G t = none) :
    TestIfCondBlock fl G e (condText s 0 t) = some (V_stricmp s t) ∧
      TestIfCondBlock fl G e (condText s 1 t) = some (!V_stricmp s t) ∧
      ∀ op, 2 ≤ op → op < 6 → TestIfCondBlock fl G e (condText s op t) = some false := by
  refine ⟨?_, ?_, ?_⟩
  · rw [string_operands_eval fl G e s t hs ht hsp hns hnt hGs hGt 0 (by decide)]
    rfl
  · rw [string_operands_eval fl G e s t hs ht hsp hns hnt hGs hGt 1 (by decide)]
    rfl
  · intro op h2 h6
    rw [string_operands_eval fl G e s t hs ht hsp hns hnt hGs hGt op h6]
    interval_cases op <;> rfl

/-- C12, witness: `abc != def` is true, `abc == def` is false and `abc > def` is
false. -/
theorem TestIfCondBlock_string_witness :
    TestIfCondBlock unitFloat (fun _ => none) false "abc == def".toList = some false ∧
      TestIfCondBlock unitFloat (fun _ => none) false "abc != def".toList = some true ∧
      TestIfCondBlock unitFloat (fun _ => none) false "abc > def".toList = some false := by
  have h := TestIfCondBlock_string unitFloat (fun _ => none) false "abc".toList "def".toList
    (by decide) (by decide) (by decide) (by decide) (by decide) rfl rfl
  exact ⟨h.1, h.2.1, h.2.2 3 (by decide) (by decide)⟩

/-! ## Conditions without two operands (C13) -/

/-- C13: on the condition `abc`, which holds no operator, the split produces no
string, and on `==5` it produces the one string `5`; `TestIfCondBlock` then
reads `vecOutStrings[0]` and `vecOutStrings[1]` all the same, outside of what
the vector holds, so that the call has no defined result. -/
theorem TestIfCondBlock_reads_missing_operand (fl : FloatLib)
    (G : CStr → Option (MapHackVariable_t fl.F)) (errnoRange : Bool) :
    operandTexts "abc".toList = [] ∧ TestIfCondBlock fl G errnoRange "abc".toList = none ∧
      operandTexts "==5".toList = [['5']] ∧
      TestIfCondBlock fl G errnoRange "==5".toList = none := by
  have h1 : operandTexts "abc".toList = [] := by decide
  have h2 : operandTexts "==5".toList = [['5']] := by decide
  refine ⟨h1, ?_, h2, ?_⟩
  · unfold operandTexts at h1
    unfold TestIfCondBlock
    simp only [h1]
  · unfold operandTexts at h2
    unfold TestIfCondBlock
    simp only [h2]

/-! ## Substitution of variables (C14, C15) -/

theorem find_append_fresh {F : Type} (vars : List (MapHackVariable_t F)) (x : CStr)
    (hfresh : ∀ v ∈ vars, V_stricmp v.m_szName x = false) (pVar : MapHackVariable_t F)
    (hname : V_stricmp pVar.m_szName x = true) :
    (vars ++ [pVar]).find? (fun v => V_stricmp v.m_szName x) = some pVar := by
  induction vars with
  | nil => simp [List.find?, hname]
  | cons a vars ih =>
    have ha := hfresh a (by simp)
    simp only [List.cons_append, List.find?, ha]
    exact ih (fun v hv => hfresh v (by simp [hv]))

theorem make_int (fl : FloatLib) (x : CStr) (hx : x.length < 128) (n : Int)
    (hn1 : LONG_MIN ≤ n) (hn2 : n ≤ LONG_MAX) :
    RegisterVariables.make fl ⟨x, some "int".toList, some (decimalText n)⟩ =
      some ⟨x, MapHackType_t.TYPE_INT, some (decimalText n), n, fl.zero⟩ := by
  have ht : MapHack_GetTypeByIdentifier "int".toList = MapHackType_t.TYPE_INT := by decide
  simp only [RegisterVariables.make, Option.getD_some, ht, V_strncpy_short x 128 hx,
    (decimalText_scan n hn1 hn2).2.2]
  simp [MapHackVariable_t.SetInt, MapHackVariable_t.Convert, MapHackVariable_t.init]

/-- C14: for every variable name `x` of the Variable Store (at most 127
characters, and not held by the store yet, in any case of letters) and every
32-bit integer `n`: after registering `x` with type `int` and the decimal text
of `n` as its value, resolving the token `%x` yields the decimal text of `n`
(and stores the type Int through `pType`). -/
theorem VariableValueHelper_registered (fl : FloatLib) {KV : Type}
    (self : CMapHackManager fl.F KV) (x : CStr) (hx : x.length ≤ 127)
    (hfresh : ∀ v ∈ self.m_dictVars, V_stricmp v.m_szName x = false) (n : Int)
    (hn1 : LONG_MIN ≤ n) (hn2 : n ≤ LONG_MAX) :
    (MapHack_VariableValueHelper
      (RegisterVariables fl self [⟨x, some "int".toList, some (decimalText n)⟩])
      (some ('%' :: x))).value = some (decimalText n) ∧
    (MapHack_VariableValueHelper
      (RegisterVariables fl self [⟨x, some "int".toList, some (decimalText n)⟩])
      (some ('%' :: x))).type = some MapHackType_t.TYPE_INT := by
  have hfind := find_append_fresh self.m_dictVars x hfresh
    ⟨x, MapHackType_t.TYPE_INT, some (decimalText n), n, fl.zero⟩ (V_stricmp_self x)
  simp only [RegisterVariables, make_int fl x (by omega) n hn1 hn2, MapHack_VariableValueHelper,
    GetVariableByName, hfind]
  simp

/-- C14, witness: registering the Int `health` with the literal 100 and
resolving `%health` yields `100`. -/
theorem VariableValueHelper_registered_witness :
    (MapHack_VariableValueHelper
      (RegisterVariables unitFloat emptyManager
        [⟨"health".toList, some "int".toList, some "100".toList⟩])
      (some "%health".toList)).value = some "100".toList := by
  have h := (VariableValueHelper_registered unitFloat emptyManager "health".toList (by decide)
    (by simp [emptyManager]) 100 (by decide) (by decide)).1
  rw [decimalText_hundred] at h
  exact h

theorem VariableValueHelper_plain {F KV : Type} (self : CMapHackManager F KV) (s : CStr)
    (h : s.head? ≠ some '%') :
    MapHack_VariableValueHelper self (some s) = ⟨some s, none, none, self⟩ := by
  unfold MapHack_VariableValueHelper
  split
  · rename_i heq
    simp only [Option.some.injEq] at heq
    rw [heq] at h
    exact absurd rfl h
  · rfl

theorem VariableValueHelper_absent {F KV : Type} (self : CMapHackManager F KV) (pszVar : CStr)
    (h : GetVariableByName self pszVar = none) :
    MapHack_VariableValueHelper self (some ('%' :: pszVar)) =
      ⟨some ('%' :: pszVar), none,
        some ("MapHack WARNING: Variable \"".toList ++ pszVar ++ "\" does not exist!\n".toList),
        self⟩ := by
  simp [MapHack_VariableValueHelper, h]

/-- C15: a string that does not begin with `%`, or whose text after the leading
`%` names no registered variable, is returned as it is, nothing is stored
through `pType`, and the manager with its variable store is left as it was. -/
theorem VariableValueHelper_unresolved {F KV : Type} (self : CMapHackManager F KV) (s : CStr)
    (h : s.head? ≠ some '%' ∨ GetVariableByName self (s.drop 1) = none) :
    (MapHack_VariableValueHelper self (some s)).value = some s ∧
      (MapHack_VariableValueHelper self (some s)).type = none ∧
      (MapHack_VariableValueHelper self (some s)).manager = self := by
  by_cases hc : s.head? = some '%'
  · cases s with
    | nil => simp at hc
    | cons c rest =>
      have hc2 : c = '%' := by simpa using hc
      subst hc2
      have hG : GetVariableByName self rest = none := by
        rcases h with h | h
        · exact absurd hc h
        · simpa using h
      rw [VariableValueHelper_absent self rest hG]
      exact ⟨rfl, rfl, rfl⟩
  · rw [VariableValueHelper_plain self s hc]
    exact ⟨rfl, rfl, rfl⟩

/-- C15, witness: in a store that holds `health`, the undeclared `%nope` stays
`%nope` and the plain text `health` stays `health`. -/
theorem VariableValueHelper_unresolved_witness :
    (MapHack_VariableValueHelper managerOfHealth (some "%nope".toList)).value =
        some "%nope".toList ∧
      (MapHack_VariableValueHelper managerOfHealth (some "health".toList)).value =
        some "health".toList :=
  ⟨(VariableValueHelper_unresolved managerOfHealth "%nope".toList (Or.inr rfl)).1,
    (VariableValueHelper_unresolved managerOfHealth "health".toList (Or.inl (by decide))).1⟩

/-! ## The scheduler: a fire and a deferred fire (C19) -/

theorem writeEvent_get {F KV : Type} (self : CMapHackManager F KV) (i : Nat)
    (f : MapHackEvent_t F KV → MapHackEvent_t F KV) :
    (writeEvent self i f).m_dictEvents[i]? = (self.m_dictEvents[i]?).map f := by
  unfold writeEvent
  cases h : self.m_dictEvents[i]? with
  | none => simp [h]
  | some e =>
    have hi : i < self.m_dictEvents.length := (List.getElem?_eq_some.mp h).1
    simp [List.getElem?_set, hi]

theorem writeEvent_queue {F KV : Type} (self : CMapHackManager F KV) (i : Nat)
    (f : MapHackEvent_t F KV → MapHackEvent_t F KV) :
    (writeEvent self i f).m_vecEventQueue = self.m_vecEventQueue := by
  unfold writeEvent
  cases self.m_dictEvents[i]? <;> rfl

theorem TriggerEvent_deferred {fl : FloatLib} {KV : Type} (env : Engine fl KV) (now : fl.F)
    (self : CMapHackManager fl.F KV) (i : Nat) (ev : MapHackEvent_t fl.F KV) (kv : KV)
    (hev : self.m_dictEvents[i]? = some ev) (hkv : ev.m_pKVData = some kv) (d : fl.F)
    (hd : fl.compare 3 d fl.zero = true) :
    TriggerEvent env now self (some i) d =
      ({ self with m_vecEventQueue := self.m_vecEventQueue ++ [⟨i, env.add now d⟩] }, []) := by
  simp [TriggerEvent, hev, hkv, hd]

theorem TriggerEvent_immediate {fl : FloatLib} {KV : Type} (env : Engine fl KV) (now : fl.F)
    (self : CMapHackManager fl.F KV) (i : Nat) (ev : MapHackEvent_t fl.F KV) (kv : KV)
    (hev : self.m_dictEvents[i]? = some ev) (hkv : ev.m_pKVData = some kv) (d : fl.F)
    (hd : fl.compare 3 d fl.zero = false) :
    TriggerEvent env now self (some i) d =
      (writeEvent (TriggerEvent.run env now self ev.m_iDataType kv).1 i
          (TriggerEvent.finish env now),
        triggeredMsg ev.m_szName :: (TriggerEvent.run env now self ev.m_iDataType kv).2) := by
  simp [TriggerEvent, hev, hkv, hd]

/-- The run of a sub-tree in `TriggerEvent` is `RunEntities` for the data type
0, `Precache` for the data type 1, and nothing for another data type. -/
theorem TriggerEvent_run_cases {fl : FloatLib} {KV : Type} (env : Engine fl KV) (now : fl.F)
    (self : CMapHackManager fl.F KV) (dataType : Int) (kv : KV)
    (r : CMapHackManager fl.F KV × List CStr)
    (hr : (dataType = 0 → r = env.RunEntities now kv self) ∧
      (dataType = 1 → r = (self, env.Precache kv)) ∧
      (dataType ≠ 0 → dataType ≠ 1 → r = (self, []))) :
    TriggerEvent.run env now self dataType kv = r := by
  unfold TriggerEvent.run
  by_cases h0 : dataType = 0
  · rw [if_pos h0, hr.1 h0]
  · by_cases h1 : dataType = 1
    · rw [if_neg h0, if_pos h1, hr.2.1 h1]
    · rw [if_neg h0, if_neg h1, hr.2.2 h0 h1]

/-- C19: for an event that owns a sub-tree, `TriggerEvent` with a delay above
zero appends the one entry (event, now + delay) at the tail of the delayed
queue, runs nothing (it prints no message) and leaves every event as it was.
With the delay zero it prints the message of the fire and runs the sub-tree at
once, `RunEntities` on it for the data type 0 and `Precache` for the data type
1; it then sets `triggered` and, for a repeating event, the fire time
`now + delay`, and the queue afterwards is the one that the run left:
`TriggerEvent` itself queues nothing. -/
theorem TriggerEvent_delay {fl : FloatLib} {KV : Type} (env : Engine fl KV) (now : fl.F)
    (self : CMapHackManager fl.F KV) (i : Nat) (ev : MapHackEvent_t fl.F KV) (kv : KV)
    (hev : self.m_dictEvents[i]? = some ev) (hkv : ev.m_pKVData = some kv)
    (hz : fl.compare 3 fl.zero fl.zero = false) :
    (∀ d, fl.compare 3 d fl.zero = true →
      TriggerEvent env now self (some i) d =
        ({ self with m_vecEventQueue := self.m_vecEventQueue ++ [⟨i, env.add now d⟩] }, [])) ∧
    (ev.m_iDataType = 0 →
      TriggerEvent env now self (some i) fl.zero =
        (writeEvent (env.RunEntities now kv self).1 i
            (fun e =>
              { e with
                m_bTriggered := true
                m_flTriggerTime :=
                  if e.m_bRepeat then env.add now e.m_flDelayTime else e.m_flTriggerTime }),
          triggeredMsg ev.m_szName :: (env.RunEntities now kv self).2) ∧
      (TriggerEvent env now self (some i) fl.zero).1.m_vecEventQueue =
        (env.RunEntities now kv self).1.m_vecEventQueue) ∧
    (ev.m_iDataType = 1 →
      TriggerEvent env now self (some i) fl.zero =
        (writeEvent self i
            (fun e =>
              { e with
                m_bTriggered := true
                m_flTriggerTime :=
                  if e.m_bRepeat then env.add now e.m_flDelayTime else e.m_flTriggerTime }),
          triggeredMsg ev.m_szName :: env.Precache kv) ∧
      (TriggerEvent env now self (some i) fl.zero).1.m_vecEventQueue = self.m_vecEventQueue) ∧
    (ev.m_iDataType ≠ 0 → ev.m_iDataType ≠ 1 →
      TriggerEvent env now self (some i) fl.zero =
        (writeEvent self i
            (fun e =>
              { e with
                m_bTriggered := true
                m_flTriggerTime :=
                  if e.m_bRepeat then env.add now e.m_flDelayTime else e.m_flTriggerTime }),
          [triggeredMsg ev.m_szName])) := by
  have him := TriggerEvent_immediate env now self i ev kv hev hkv fl.zero hz
  refine ⟨fun d hd => TriggerEvent_deferred env now self i ev kv hev hkv d hd,
    fun h0 => ?_, fun h1 => ?_, fun h0 h1 => ?_⟩
  · have hrun := TriggerEvent_run_cases env now self ev.m_iDataType kv
      (env.RunEntities now kv self)
      ⟨fun _ => rfl, fun h => by rw [h0] at h; exact absurd h (by decide),
        fun h => absurd h0 h⟩
    rw [him, hrun]
    exact ⟨rfl, writeEvent_queue _ _ _⟩
  · have hrun := TriggerEvent_run_cases env now self ev.m_iDataType kv (self, env.Precache kv)
      ⟨fun h => by rw [h1] at h; exact absurd h (by decide), fun _ => rfl,
        fun _ h => absurd h1 h⟩
    rw [him, hrun]
    exact ⟨rfl, writeEvent_queue _ _ _⟩
  · have hrun := TriggerEvent_run_cases env now self ev.m_iDataType kv (self, [])
      ⟨fun h => absurd h h0, fun h => absurd h h1, fun _ _ => rfl⟩
    rw [him, hrun]
    rfl

/-- C19, witness: at the time 0, a trigger of the event `a` with the delay 1
queues the entry (`a`, 1) and prints nothing; a trigger without delay prints
`Triggered event "a"`, runs the sub-tree, which prints its message, and queues
nothing. -/
theorem TriggerEvent_delay_witness :
    TriggerEvent tracingEngine 0 (managerOfEvents [manualEvent ['a']]) (some 0) 1 =
      ({ managerOfEvents [manualEvent ['a']] with m_vecEventQueue := [⟨0, 1⟩] }, []) ∧
    (TriggerEvent tracingEngine 0 (managerOfEvents [manualEvent ['a']]) (some 0) 0).2 =
      [triggeredMsg ['a'], ranMsg] ∧
    (TriggerEvent tracingEngine 0 (managerOfEvents [manualEvent ['a']]) (some 0) 0).1.m_vecEventQueue =
      [] := by
  have h := TriggerEvent_delay tracingEngine 0 (managerOfEvents [manualEvent ['a']]) 0
    (manualEvent ['a']) () rfl rfl rfl
  refine ⟨h.1 1 rfl, ?_, ?_⟩
  · rw [(h.2.1 rfl).1]; rfl
  · rw [(h.2.1 rfl).2]; rfl

/-! ## The scheduler: Timed events (C16, C17, C20) -/

/-- The body of the first loop of `HandleEvents` at a Timed event that owns a
sub-tree. -/
theorem timed_visit {fl : FloatLib} {KV : Type} (env : Engine fl KV) (now : fl.F)
    (self : CMapHackManager fl.F KV) (out : List CStr) (i : Nat) (ev : MapHackEvent_t fl.F KV)
    (kv : KV) (hev : self.m_dictEvents[i]? = some ev)
    (htype : ev.m_Type = MapHackEventType_t.MAPHACK_EVENT_TIMED) (hkv : ev.m_pKVData = some kv)
    (hz : fl.compare 3 fl.zero fl.zero = false) :
    HandleEvents.timed env now (self, out) i =
      if (!ev.m_bStopped && (!ev.m_bTriggered || ev.m_bRepeat) &&
          fl.compare 4 ev.m_flTriggerTime now) = true then
        (writeEvent (TriggerEvent.run env now self ev.m_iDataType kv).1 i
            (TriggerEvent.finish env now),
          out ++ triggeredMsg ev.m_szName :: (TriggerEvent.run env now self ev.m_iDataType kv).2)
      else (self, out) := by
  unfold HandleEvents.timed
  simp only [hev, htype, if_true, TriggerEvent_immediate env now self i ev kv hev hkv fl.zero hz]
  cases ev.m_bStopped <;> cases ev.m_bTriggered <;> cases ev.m_bRepeat <;>
    cases fl.compare 4 ev.m_flTriggerTime now <;> simp

/-- A tick over a dictionary of one event: the step at that event, and then the
delayed queue, which is empty. -/
theorem HandleEvents_single {fl : FloatLib} {KV : Type} (env : Engine fl KV) (now : fl.F)
    (fuel : Nat) (self : CMapHackManager fl.F KV) (hone : self.m_dictEvents.length = 1)
    (hq : (HandleEvents.timed env now (self, []) 0).1.m_vecEventQueue = []) :
    HandleEvents env now (fuel + 1) self = some (HandleEvents.timed env now (self, []) 0) := by
  unfold HandleEvents
  rw [hone]
  simp only [List.range_succ, List.range_zero, List.nil_append, List.foldl_cons, List.foldl_nil]
  rw [HandleEvents.queue, hq]
  rfl

/-- C16, counterexample: the repeating timer `t` is start-disabled, so that
`stopped` is true.  A `$trigger` of `t` with the delay 1 at the time 0 queues
the entry (`t`, 1), and the tick at the time 1 fires the stopped event through
that entry: it prints the message of the fire and sets `triggered` and the
fire time 1 + 2. -/
theorem HandleEvents_fires_stopped_counterexample :
    ((managerOfEvents [timerEvent true]).m_dictEvents.map
        fun e => (e.m_bStopped, e.m_bTriggered, e.m_flTriggerTime)) = [(true, false, 0)] ∧
      queueView (TriggerEvent idleEngine 0 (managerOfEvents [timerEvent true]) (some 0) 1).1 =
        [(0, 1)] ∧
      (HandleEvents idleEngine 1 10
        (TriggerEvent idleEngine 0 (managerOfEvents [timerEvent true]) (some 0) 1).1).map
          (fun r => (r.2, r.1.m_dictEvents.map
            fun e => (e.m_bStopped, e.m_bTriggered, e.m_flTriggerTime))) =
        some ([triggeredMsg ['t']], [(true, true, 3)]) := by
  decide

/-- C16, amended: the rule of the walk of a tick over the events, at a Timed
event that owns a sub-tree; `r` is what the run of the sub-tree gives,
`RunEntities` for the data type 0, `Precache` for the data type 1 and nothing
for another data type.  The step of the walk at the event fires it exactly when
`stopped` is false, `triggered` is false or `repeat` is true, and the fire time
is at most `now`.  When it fires, it prints the message of the fire, runs the
sub-tree, and then sets `triggered` and, for a repeating event, the fire time
`now + delay`; so that after a run that leaves the events alone the event has
`triggered` true and, if it repeats, the fire time `now + delay`.  When it does
not fire, nothing changes; a stopped event in particular is not fired by the
walk.  And a whole tick of `HandleEvents` over a manager that holds this one
event and an empty delayed queue is that step: it fires the event under the
same condition, with that result when the run queues nothing, and changes
nothing otherwise. -/
theorem HandleEvents_timed_rule {fl : FloatLib} {KV : Type} (env : Engine fl KV) (now : fl.F)
    (self : CMapHackManager fl.F KV) (out : List CStr) (i : Nat) (ev : MapHackEvent_t fl.F KV)
    (kv : KV) (hev : self.m_dictEvents[i]? = some ev)
    (htype : ev.m_Type = MapHackEventType_t.MAPHACK_EVENT_TIMED) (hkv : ev.m_pKVData = some kv)
    (hz : fl.compare 3 fl.zero fl.zero = false)
    (r : CMapHackManager fl.F KV × List CStr)
    (hr : (ev.m_iDataType = 0 → r = env.RunEntities now kv self) ∧
      (ev.m_iDataType = 1 → r = (self, env.Precache kv)) ∧
      (ev.m_iDataType ≠ 0 → ev.m_iDataType ≠ 1 → r = (self, []))) :
    ((!ev.m_bStopped && (!ev.m_bTriggered || ev.m_bRepeat) &&
        fl.compare 4 ev.m_flTriggerTime now) = true →
      HandleEvents.timed env now (self, out) i =
        (writeEvent r.1 i
            (fun e =>
              { e with
                m_bTriggered := true
                m_flTriggerTime :=
                  if e.m_bRepeat then env.add now e.m_flDelayTime else e.m_flTriggerTime }),
          out ++ triggeredMsg ev.m_szName :: r.2) ∧
      (r.1.m_dictEvents = self.m_dictEvents →
        (HandleEvents.timed env now (self, out) i).1.m_dictEvents[i]? =
          some { ev with
            m_bTriggered := true
            m_flTriggerTime :=
              if ev.m_bRepeat then env.add now ev.m_flDelayTime else ev.m_flTriggerTime })) ∧
    ((!ev.m_bStopped && (!ev.m_bTriggered || ev.m_bRepeat) &&
        fl.compare 4 ev.m_flTriggerTime now) = false →
      HandleEvents.timed env now (self, out) i = (self, out)) ∧
    (ev.m_bStopped = true → HandleEvents.timed env now (self, out) i = (self, out)) ∧
    (self.m_dictEvents.length = 1 → self.m_vecEventQueue = [] → ∀ fuel,
      ((!ev.m_bStopped && (!ev.m_bTriggered || ev.m_bRepeat) &&
          fl.compare 4 ev.m_flTriggerTime now) = true → r.1.m_vecEventQueue = [] →
        HandleEvents env now (fuel + 1) self =
          some (writeEvent r.1 i
              (fun e =>
                { e with
                  m_bTriggered := true
                  m_flTriggerTime :=
                    if e.m_bRepeat then env.add now e.m_flDelayTime else e.m_flTriggerTime }),
            triggeredMsg ev.m_szName :: r.2)) ∧
      ((!ev.m_bStopped && (!ev.m_bTriggered || ev.m_bRepeat) &&
          fl.compare 4 ev.m_flTriggerTime now) = false →
        HandleEvents env now (fuel + 1) self = some (self, []))) := by
  have hrun := TriggerEvent_run_cases env now self ev.m_iDataType kv r hr
  have h := timed_visit env now self out i ev kv hev htype hkv hz
  rw [hrun] at h
  refine ⟨fun hf => ⟨?_, fun hkeep => ?_⟩, fun hf => ?_, fun hs => ?_, fun hone hq fuel => ?_⟩
  · rw [h, if_pos hf]; rfl
  · rw [h, if_pos hf]
    simp only [writeEvent_get, hkeep, hev]
    rfl
  · rw [h, if_neg (by simp [hf])]
  · rw [h, if_neg (by simp [hs])]
  · have hi : i = 0 := by
      have := (List.getElem?_eq_some.mp hev).1
      omega
    subst hi
    have h0 := timed_visit env now self [] 0 ev kv hev htype hkv hz
    rw [hrun] at h0
    refine ⟨fun hf hrq => ?_, fun hf => ?_⟩
    · rw [if_pos hf] at h0
      rw [HandleEvents_single env now fuel self hone (by rw [h0, writeEvent_queue]; exact hrq),
        h0]
      rfl
    · rw [if_neg (by simp [hf])] at h0
      rw [HandleEvents_single env now fuel self hone (by rw [h0]; exact hq), h0]

/-- C16, witness: the repeating timer `t` with the delay 2 and the fire time 0
fires in the tick at the time 3, which runs its sub-tree, and has the fire time
5 afterwards; when it is stopped, the tick changes nothing. -/
theorem HandleEvents_timed_rule_witness :
    (HandleEvents tracingEngine 3 1 (managerOfEvents [timerEvent false])).map (fun x => x.2) =
        some [triggeredMsg ['t'], ranMsg] ∧
      ((HandleEvents.timed tracingEngine 3 (managerOfEvents [timerEvent false], []) 0).1.m_dictEvents.map
        fun e => (e.m_bTriggered, e.m_flTriggerTime)) = [(true, 5)] ∧
      HandleEvents.timed tracingEngine 3 (managerOfEvents [timerEvent true], []) 0 =
        (managerOfEvents [timerEvent true], []) := by
  have h := HandleEvents_timed_rule tracingEngine 3 (managerOfEvents [timerEvent false]) [] 0
    (timerEvent false) () rfl rfl rfl rfl (managerOfEvents [timerEvent false], [ranMsg])
    ⟨fun _ => rfl, fun h => absurd h (by decide), fun h => absurd rfl h⟩
  have h2 := HandleEvents_timed_rule tracingEngine 3 (managerOfEvents [timerEvent true]) [] 0
    (timerEvent true) () rfl rfl rfl rfl (managerOfEvents [timerEvent true], [ranMsg])
    ⟨fun _ => rfl, fun h => absurd h (by decide), fun h => absurd rfl h⟩
  refine ⟨?_, ?_, h2.2.2.1 rfl⟩
  · rw [(h.2.2.2 rfl rfl 0).1 rfl rfl]; rfl
  · rw [(h.1 rfl).1]; rfl

theorem KvStartEvent_started {fl : FloatLib} {KV : Type} (t0 : fl.F)
    (self : CMapHackManager fl.F KV) (pKV : StartKV) (i : Nat)
    (hpost : self.m_bPreEntity = false) (hname : pKV.event.head? ≠ some '%')
    (hfind : GetEventByName self pKV.event = some i) :
    (KvStartEvent t0 self pKV).1 =
      writeEvent self i fun e =>
        { e with
          m_bStopped := false
          m_flTriggerTime := t0
          m_flDelayTime :=
            match (MapHack_VariableValueHelper self pKV.delay).value with
            | some d => fl.V_atof d
            | none => e.m_flDelayTime } := by
  unfold KvStartEvent
  simp only [hpost, VariableValueHelper_plain self pKV.event hname, GetEventByName.ptr, hfind]
  rfl

/-- The step of a tick at a Timed event that `$start` has just named. -/
theorem start_then_visit {fl : FloatLib} {KV : Type} (env : Engine fl KV) (t0 now : fl.F)
    (self : CMapHackManager fl.F KV) (pKV : StartKV) (i : Nat) (ev : MapHackEvent_t fl.F KV)
    (kv : KV) (hpost : self.m_bPreEntity = false) (hname : pKV.event.head? ≠ some '%')
    (hfind : GetEventByName self pKV.event = some i) (hev : self.m_dictEvents[i]? = some ev)
    (htype : ev.m_Type = MapHackEventType_t.MAPHACK_EVENT_TIMED) (hkv : ev.m_pKVData = some kv)
    (hz : fl.compare 3 fl.zero fl.zero = false) :
    (((!ev.m_bTriggered || ev.m_bRepeat) && fl.compare 4 t0 now) = true →
      (HandleEvents.timed env now ((KvStartEvent t0 self pKV).1, []) i).2.head? =
        some (triggeredMsg ev.m_szName)) ∧
    (((!ev.m_bTriggered || ev.m_bRepeat) && fl.compare 4 t0 now) = false →
      HandleEvents.timed env now ((KvStartEvent t0 self pKV).1, []) i =
        ((KvStartEvent t0 self pKV).1, [])) := by
  have hs := KvStartEvent_started t0 self pKV i hpost hname hfind
  have hget := writeEvent_get self i (fun e : MapHackEvent_t fl.F KV =>
    { e with
      m_bStopped := false
      m_flTriggerTime := t0
      m_flDelayTime :=
        match (MapHack_VariableValueHelper self pKV.delay).value with
        | some d => fl.V_atof d
        | none => e.m_flDelayTime })
  rw [← hs, hev] at hget
  have h := timed_visit env now (KvStartEvent t0 self pKV).1 [] i _ kv hget htype hkv hz
  simp only [Option.map_some', Bool.not_false, Bool.true_and] at h
  refine ⟨fun hf => ?_, fun hf => ?_⟩
  · rw [h, if_pos hf]; rfl
  · rw [h, if_neg (by simp [hf])]

/-- C17, counterexample: the repeating timer `t` with the delay 2, started by
`$start` at the time 0, fires in the tick at the time 1, before 0 + 2; and the
same timer as registered at load, not start-disabled, fires in the tick at the
time 1 as well. -/
theorem timer_waits_delay_counterexample :
    (1 : Int) < 0 + 2 ∧
      (HandleEvents idleEngine 1 10
        (KvStartEvent (0 : Int) (managerOfEvents [timerEvent true]) ⟨['t'], none⟩).1).map
          (fun r => r.2) = some [triggeredMsg ['t']] ∧
      (HandleEvents idleEngine 1 10 (managerOfEvents [timerEvent false])).map (fun r => r.2) =
        some [triggeredMsg ['t']] := by
  decide

/-- C17, amended: a started timer does not wait its delay.  For a repeating
Timed event that owns a sub-tree, whatever its delay: after `$start` named it
at the time `t0`, the step of a tick at the time `now` fires it exactly when
`t0 <= now`; and as `RegisterEvents` makes it, not start-disabled, its fire time
is the zero of the constructor and the step of a tick fires it exactly when
`0 <= now`. -/
theorem timer_fires_from_start {fl : FloatLib} {KV : Type} (env : Engine fl KV) (t0 now : fl.F)
    (self : CMapHackManager fl.F KV) (pKV : StartKV) (i : Nat) (ev : MapHackEvent_t fl.F KV)
    (kv : KV) (hpost : self.m_bPreEntity = false) (hname : pKV.event.head? ≠ some '%')
    (hfind : GetEventByName self pKV.event = some i) (hev : self.m_dictEvents[i]? = some ev)
    (htype : ev.m_Type = MapHackEventType_t.MAPHACK_EVENT_TIMED) (hkv : ev.m_pKVData = some kv)
    (hrep : ev.m_bRepeat = true) (hz : fl.compare 3 fl.zero fl.zero = false) :
    (fl.compare 4 t0 now = true →
      (HandleEvents.timed env now ((KvStartEvent t0 self pKV).1, []) i).2.head? =
        some (triggeredMsg ev.m_szName)) ∧
    (fl.compare 4 t0 now = false →
      HandleEvents.timed env now ((KvStartEvent t0 self pKV).1, []) i =
        ((KvStartEvent t0 self pKV).1, [])) ∧
    (∀ (loaded : CMapHackManager fl.F KV) (j : Nat) (name : CStr) (delay : fl.F)
      (dataType : Int),
      loaded.m_dictEvents[j]? =
          some (RegisterEvents.label (RegisterEvents.timed fl KV name delay true false)
            dataType kv) →
        (fl.compare 4 fl.zero now = true →
          (HandleEvents.timed env now (loaded, []) j).2.head? =
            some (triggeredMsg (V_strncpy name 128))) ∧
        (fl.compare 4 fl.zero now = false →
          HandleEvents.timed env now (loaded, []) j = (loaded, []))) := by
  have h := start_then_visit env t0 now self pKV i ev kv hpost hname hfind hev htype hkv hz
  simp only [hrep, Bool.or_true, Bool.true_and] at h
  refine ⟨h.1, h.2, ?_⟩
  intro loaded j name delay dataType hj
  have hv := timed_visit env now loaded [] j _ kv hj rfl rfl hz
  refine ⟨fun hf => ?_, fun hf => ?_⟩
  · rw [hv]
    simp [RegisterEvents.label, RegisterEvents.timed, MapHackEvent_t.init, hf]
  · rw [hv]
    simp [RegisterEvents.label, RegisterEvents.timed, MapHackEvent_t.init, hf]

/-- C17, witness: the timer `t` with the delay 2 that `$start` names at the
time 0 fires in the step of the tick at the time 0. -/
theorem timer_fires_from_start_witness :
    (HandleEvents.timed idleEngine 0
      ((KvStartEvent (0 : Int) (managerOfEvents [timerEvent true]) ⟨['t'], none⟩).1, []) 0).2.head? =
        some (triggeredMsg ['t']) :=
  (timer_fires_from_start idleEngine 0 0 (managerOfEvents [timerEvent true]) ⟨['t'], none⟩ 0
    (timerEvent true) () rfl (by decide) (by decide) rfl rfl rfl rfl rfl).1 rfl

/-! ## The scheduler: the delayed queue (C18) -/

/-- C18: two triggers at the time 0 with the delay 1, of the events `a` and
`b`, queue the entries (`a`, 1) and (`b`, 1).  The tick at the time 1 fires
`a` only and leaves (`b`, 1) in the queue: `FastRemove` has moved it into the
slot that the loop has just left.  With the entry (`b`, 5) between two due
entries of `a` and `c`, the tick at the time 1 fires `a` only and leaves the
due entry of `c` in the queue, now in front of (`b`, 5). -/
theorem HandleEvents_skips_due_entry :
    queueView (TriggerEvent idleEngine 0
        (TriggerEvent idleEngine 0 (managerOfEvents [manualEvent ['a'], manualEvent ['b']])
          (some 0) 1).1 (some 1) 1).1 = [(0, 1), (1, 1)] ∧
      (HandleEvents idleEngine 1 10 (TriggerEvent idleEngine 0
        (TriggerEvent idleEngine 0 (managerOfEvents [manualEvent ['a'], manualEvent ['b']])
          (some 0) 1).1 (some 1) 1).1).map (fun r => (r.2, queueView r.1)) =
        some ([triggeredMsg ['a']], [(1, 1)]) ∧
      (HandleEvents idleEngine 1 10
        { managerOfEvents [manualEvent ['a'], manualEvent ['b'], manualEvent ['c']] with
          m_vecEventQueue := [⟨0, 1⟩, ⟨1, 5⟩, ⟨2, 1⟩] }).map (fun r => (r.2, queueView r.1)) =
        some ([triggeredMsg ['a']], [(2, 1), (1, 5)]) := by
  decide

/-! ## `$start` on a Timed event (C20) -/

/-- C20, counterexample: the Timed event `t` without `repeat` has fired once;
`$start` names it at the time 5, which clears `stopped` and sets the fire time
5 but leaves `triggered` set, and the tick at the time 5 does not fire it. -/
theorem KvStartEvent_rearms_counterexample :
    ((@KvStartEvent intFloat Unit 5 (managerOfEvents [firedOnceEvent])
        ⟨['t'], none⟩).1.m_dictEvents.map
        fun e => (e.m_bStopped, e.m_bTriggered, e.m_flTriggerTime)) = [(false, true, 5)] ∧
      (HandleEvents idleEngine 5 10
        (KvStartEvent (5 : Int) (managerOfEvents [firedOnceEvent]) ⟨['t'], none⟩).1).map
          (fun r => r.2) = some [] := by
  decide

/-- C20, amended: in post-phase, `$start` on a Timed event that owns a sub-tree
clears `stopped` and sets the fire time to `now`, and leaves `triggered` and
`repeat` as they were.  The step of a following tick at a time at or after the
fire time fires the event when it repeats or `triggered` is false (it has not
fired since it was registered or last stopped); a non-repeating event whose
`triggered` is set is not fired. -/
theorem KvStartEvent_arms {fl : FloatLib} {KV : Type} (env : Engine fl KV) (t0 now : fl.F)
    (self : CMapHackManager fl.F KV) (pKV : StartKV) (i : Nat) (ev : MapHackEvent_t fl.F KV)
    (kv : KV) (hpost : self.m_bPreEntity = false) (hname : pKV.event.head? ≠ some '%')
    (hfind : GetEventByName self pKV.event = some i) (hev : self.m_dictEvents[i]? = some ev)
    (htype : ev.m_Type = MapHackEventType_t.MAPHACK_EVENT_TIMED) (hkv : ev.m_pKVData = some kv)
    (hz : fl.compare 3 fl.zero fl.zero = false) (hnow : fl.compare 4 t0 now = true) :
    (KvStartEvent t0 self pKV).1.m_dictEvents[i]? =
      some { ev with
        m_bStopped := false
        m_flTriggerTime := t0
        m_flDelayTime :=
          match (MapHack_VariableValueHelper self pKV.delay).value with
          | some d => fl.V_atof d
          | none => ev.m_flDelayTime } ∧
    ((!ev.m_bTriggered || ev.m_bRepeat) = true →
      (HandleEvents.timed env now ((KvStartEvent t0 self pKV).1, []) i).2.head? =
        some (triggeredMsg ev.m_szName)) ∧
    ((!ev.m_bTriggered || ev.m_bRepeat) = false →
      HandleEvents.timed env now ((KvStartEvent t0 self pKV).1, []) i =
        ((KvStartEvent t0 self pKV).1, [])) := by
  have h := start_then_visit env t0 now self pKV i ev kv hpost hname hfind hev htype hkv hz
  simp only [hnow, Bool.and_true] at h
  refine ⟨?_, h.1, h.2⟩
  rw [KvStartEvent_started t0 self pKV i hpost hname hfind, writeEvent_get, hev]
  rfl

/-- C20, witness: the stopped repeating timer `t` that `$start` names at the
time 5 fires in the step of the tick at the time 5. -/
theorem KvStartEvent_arms_witness :
    (HandleEvents.timed idleEngine 5
      ((KvStartEvent (5 : Int) (managerOfEvents [timerEvent true]) ⟨['t'], none⟩).1, []) 0).2.head? =
        some (triggeredMsg ['t']) :=
  (KvStartEvent_arms idleEngine 5 5 (managerOfEvents [timerEvent true]) ⟨['t'], none⟩ 0
    (timerEvent true) () rfl (by decide) (by decide) rfl rfl rfl rfl rfl).2.1 rfl

/-! ## Set-then-get and the case of letters (C28) -/

theorem lookupNoCase_none (key : CStr) (es : List Entry)
    (h : ∀ e ∈ es, V_stricmp e.key key = false) : lookupNoCase key es = none := by
  induction es with
  | nil => rfl
  | cons e es ih =>
    simp only [lookupNoCase, h e (by simp), Bool.false_eq_true, if_false]
    exact ih (fun x hx => h x (by simp [hx]))

/-- C28, counterexample: the record holds `Angle` with the value 0;
`SetKeyValue( "angle", "90", 0 )` compares keys with regard to case, finds no
`angle` and appends a pair, and `GetKeyValue( "angle" )` compares without regard
to case and returns the value 0 of `Angle`. -/
theorem SetKeyValue_then_get_counterexample :
    (SetKeyValue (MapHackEntityData_t.new "\n\"Angle\" \"0\"\n\x7d".toList (14 + 1024))
        "angle".toList "90".toList 0).bind
      (fun r => GetKeyValue r.2 "angle".toList 256) = some (some ['0']) := by
  decide

/-- C28, amended: for a well-formed record whose text fits its block, a key `k`
and a value `v` without double quote and closing brace whose line fits the 255
characters of `szLine`, and a block that also holds the text with the value of
the first pair of the key `k` replaced (which is what the call writes into the
block as it is when the record holds `k`): when every key of the record that
equals `k` up to the case of letters is `k` itself, `SetKeyValue( k, v, 0 )`
returns true and `GetKeyValue( k )`, read into a buffer that holds `v`, returns
`v`. -/
theorem SetKeyValue_then_get (es : List Entry) (tail : CStr) (h : RecordWF es tail)
    (cur : Cursor) (blockSize : Nat) (hcap : (recordText es tail).length < blockSize)
    (key value : CStr) (hk : Plain key) (hv : Plain value)
    (hfit : key.length + value.length + 6 ≤ 255)
    (hroom : (recordText (setFirst key value es) tail).length < blockSize)
    (hcase : ∀ e ∈ es, V_stricmp e.key key = true → e.key = key)
    (bufSize : Nat) (hbuf : value.length < bufSize) :
    ∃ r, SetKeyValue ⟨recordText es tail, cur, blockSize⟩ key value 0 = some (true, r) ∧
      GetKeyValue r key bufSize = some (some value) := by
  by_cases hex : ∃ e ∈ es, e.key = key
  · refine ⟨⟨recordText (setFirst key value es) tail,
      Cursor.ptr (recordText (setFirst key value es) tail), blockSize⟩, ?_, ?_⟩
    · rw [SetKeyValue_record es tail h cur blockSize key value hex (by omega), if_pos hroom]
    rw [GetKeyValue_record key bufSize _ tail (RecordWF.setFirst h key hv),
      lookupNoCase_setFirst key value es hex hcase]
    simp [V_strncpy_short value bufSize hbuf]
  · have hno : ∀ e ∈ es, e.key ≠ key := fun e he hke => hex ⟨e, he, hke⟩
    have hnone : lookupNoCase key es = none := by
      apply lookupNoCase_none
      intro e he
      cases hc : V_stricmp e.key key with
      | false => rfl
      | true => exact absurd (hcase e he hc) (hno e he)
    refine ⟨⟨recordText (es ++ [insertedEntry tail key value]) ['\n'], cur,
      blockSize + (key.length + value.length + 6) + 3⟩, ?_, ?_⟩
    · rw [SetKeyValue_eq_insert es tail h cur blockSize key value 0 (Or.inr hno)]
      exact InsertValue_record es tail h cur blockSize hcap key value hfit
    · rw [GetKeyValue_record key bufSize _ ['\n'] (RecordWF.insert h hk hv),
        lookupNoCase_append_single, hnone]
      simp [insertedEntry, V_stricmp_self, V_strncpy_short value bufSize hbuf]

/-- C28, witness: on the record that holds `angle` with the value 0,
`SetKeyValue( "angle", "90", 0 )` and then `GetKeyValue( "angle" )` gives 90. -/
theorem SetKeyValue_then_get_witness :
    ∃ r, SetKeyValue ⟨recordText [⟨['\n'], "angle".toList, [' '], ['0']⟩] ['\n'],
        Cursor.null, 2000⟩ "angle".toList "90".toList 0 = some (true, r) ∧
      GetKeyValue r "angle".toList 256 = some (some "90".toList) :=
  SetKeyValue_then_get [⟨['\n'], "angle".toList, [' '], ['0']⟩] ['\n'] (by decide) Cursor.null
    2000 (by decide) "angle".toList "90".toList (by decide) (by decide) (by decide) (by decide)
    (by decide) 256 (by decide)

/-! ## Bounded copies (C30) -/

theorem findChar_lt (x : Char) (text : CStr) (b : Nat) (h : findChar x text = some b) :
    b < text.length := by
  induction text generalizing b with
  | nil => simp [findChar] at h
  | cons c rest ih =>
    unfold findChar at h
    by_cases hc : c = x
    · simp only [hc, if_true, Option.some.injEq] at h
      simp only [List.length_cons]
      omega
    · simp only [hc, if_false, Option.map_eq_some'] at h
      obtain ⟨a, ha, hab⟩ := h
      have := ih a ha
      simp only [List.length_cons]
      omega

/-- The sizes that the three callers pass keep the closing brace off the last
character: `RunEntities` passes the length of the text plus 1024 to
`ParseEntityData`, `BuildEntityList` the index of the brace plus 1 plus 1024,
and `FinalizeEntData` the length of the text plus 3 to `GetEntDataString`. -/
theorem caller_sizes_keep_brace_inside (text : CStr) (b : Nat)
    (h : findChar '}' text = some b) :
    b + 1 ≠ text.length + 1024 ∧ b + 1 ≠ b + 1 + 1024 ∧ b + 2 ≠ text.length + 3 := by
  have := findChar_lt '}' text b h
  omega

theorem KvRemoveAllEntities_loop_safe {E : Type} (lib : EntityLib E) (test : E → Bool)
    (gEntList : List (Option E)) (e : E) (he : e ∈ KvRemoveAllEntities.loop lib test gEntList) :
    MapHack_IsSafeEntity lib (some e) = true := by
  induction gEntList with
  | nil => simp [KvRemoveAllEntities.loop] at he
  | cons x rest ih =>
    cases x with
    | none => exact ih (by simpa [KvRemoveAllEntities.loop] using he)
    | some p =>
      unfold KvRemoveAllEntities.loop at he
      cases hs : MapHack_IsSafeEntity lib (some p) with
      | false => exact ih (by simpa [hs] using he)
      | true =>
        simp only [hs, Bool.not_true, Bool.false_eq_true, if_false] at he
        split at he
        · rcases List.mem_cons.mp he with h | h
          · rw [h]; exact hs
          · exact ih h
        · exact ih he

theorem KvFilter_post_safe {E F KV : Type} (lib : EntityLib E) (self : CMapHackManager F KV)
    (pKV : KeyValues) (gEntList : List (Option E)) (e : E)
    (he : e ∈ KvFilter.post lib self pKV gEntList) :
    MapHack_IsSafeEntity lib (some e) = true := by
  induction gEntList with
  | nil => simp [KvFilter.post] at he
  | cons x rest ih =>
    cases x with
    | none => exact ih (by simpa [KvFilter.post] using he)
    | some p =>
      unfold KvFilter.post at he
      cases hs : MapHack_IsSafeEntity lib (some p) with
      | false => exact ih (by simpa [hs] using he)
      | true =>
        simp only [hs, Bool.not_true, Bool.false_eq_true, if_false] at he
        split at he
        · simp at he
        · rcases List.mem_cons.mp he with h | h
          · rw [h]; exact hs
          · exact ih h
        · exact ih he

/-- C22: in post-phase, an entity that `$filter` or `$remove_all` (by target
name or by class name) hands to `UTIL_Remove` is no player and its class does
not match `worldspawn`, whatever the entity list and the node. -/
theorem protected_entities_stay {E F KV : Type} (lib : EntityLib E)
    (self : CMapHackManager F KV) (pKV : KeyValues) (gEntList : List (Option E)) (e : E)
    (he : e ∈ KvFilter.post lib self pKV gEntList ∨
      e ∈ KvRemoveAllEntities.post lib self pKV gEntList) :
    lib.IsPlayer e = false ∧ lib.ClassMatches e "worldspawn".toList = false := by
  have hsafe : MapHack_IsSafeEntity lib (some e) = true := by
    rcases he with he | he
    · exact KvFilter_post_safe lib self pKV gEntList e he
    · unfold KvRemoveAllEntities.post at he
      split at he
      · exact KvRemoveAllEntities_loop_safe lib _ gEntList e he
      · split at he
        · exact KvRemoveAllEntities_loop_safe lib _ gEntList e he
        · simp at he
  simpa [MapHack_IsSafeEntity] using hsafe

/-- C22, witness: with the world, the player and a prop all named `x`,
`$remove_all` with the target name `x` removes the prop only, and the prop is
no player and not the world. -/
theorem protected_entities_stay_witness :
    (KvRemoveAllEntities.post sampleLib emptyManager
      (KeyValues.block "$remove_all".toList [KeyValues.value "targetname".toList ['x']])
      [some sampleWorld, some samplePlayer, none, some sampleProp]).map
        (fun e => e.classname) = ["prop".toList] ∧
      sampleLib.IsPlayer sampleProp = false ∧
      sampleLib.ClassMatches sampleProp "worldspawn".toList = false :=
  ⟨by decide, protected_entities_stay sampleLib emptyManager
    (KeyValues.block "$remove_all".toList [KeyValues.value "targetname".toList ['x']])
    [some sampleWorld, some samplePlayer, none, some sampleProp] sampleProp
    (Or.inr (by simp [KvRemoveAllEntities.post, KeyValues.GetStringOf, KeyValues.FindKey,
      KeyValues.subKeys, KeyValues.GetName, V_stricmp, MapHack_VariableValueHelper,
      KvRemoveAllEntities.loop, MapHack_IsSafeEntity, sampleLib, sampleWorld, samplePlayer,
      sampleProp]))⟩

/-! ## The match predicate (C23) -/

/-- In a manager all of whose variables hold a text, the value helper returns
no `NULL` for a string. -/
theorem VariableValueHelper_value {F KV : Type} (self : CMapHackManager F KV)
    (hvars : ∀ v ∈ self.m_dictVars, v.m_pszValue ≠ none) (s : CStr) :
    ∃ w, (MapHack_VariableValueHelper self (some s)).value = some w := by
  by_cases hc : s.head? = some '%'
  · cases s with
    | nil => simp at hc
    | cons c pszVar =>
      have hc2 : c = '%' := by simpa using hc
      subst hc2
      cases hfind : GetVariableByName self pszVar with
      | none => exact ⟨'%' :: pszVar, by simp [MapHack_VariableValueHelper, hfind]⟩
      | some pVar =>
        have hmem : pVar ∈ self.m_dictVars := by
          unfold GetVariableByName at hfind
          exact List.mem_of_find?_eq_some hfind
        cases hv : pVar.m_pszValue with
        | none => exact absurd hv (hvars pVar hmem)
        | some w => exact ⟨w, by simp [MapHack_VariableValueHelper, hfind, hv]⟩
  · exact ⟨s, by rw [VariableValueHelper_plain self s hc]⟩

theorem HasMatches_loop_record {F KV : Type} (self : CMapHackManager F KV) (es : List Entry)
    (tail : CStr) (h : RecordWF es tail) (cur : Cursor) (blockSize : Nat)
    (ms : List KeyValues)
    (hval : ∀ m ∈ ms, ∃ w, (MapHack_VariableValueHelper self (some m.GetString)).value = some w)
    (totalKeys totalMatches : Nat) :
    HasMatches.loop self (GetKeyValue ⟨recordText es tail, cur, blockSize⟩) ms totalKeys
        totalMatches =
      some (totalKeys + ms.length, totalMatches + ms.countP (nodeMatches self es)) := by
  induction ms generalizing totalKeys totalMatches with
  | nil => simp [HasMatches.loop]
  | cons m ms ih =>
    obtain ⟨w, hw⟩ := hval m (by simp)
    have ih' := ih (fun x hx => hval x (by simp [hx]))
    unfold HasMatches.loop
    rw [GetKeyValue_record m.GetName 256 es tail h cur blockSize]
    cases hl : lookupNoCase m.GetName es with
    | none =>
      simp only [Option.map_none', ih']
      simp [List.countP_cons, nodeMatches, hl]
      omega
    | some v =>
      simp only [Option.map_some', hw, FStrEq.ptr, ih']
      by_cases hm : FStrEq (V_strncpy v 256) w = true
      · simp [List.countP_cons, nodeMatches, hl, hw, hm]
        omega
      · simp [List.countP_cons, nodeMatches, hl, hw, hm]
        omega

theorem HasMatches_record {F KV : Type} (self : CMapHackManager F KV)
    (hvars : ∀ v ∈ self.m_dictVars, v.m_pszValue ≠ none) (es : List Entry)
    (tail : CStr) (h : RecordWF es tail) (cur : Cursor) (blockSize : Nat)
    (pParentNode : KeyValues) :
    HasMatches self pParentNode (GetKeyValue ⟨recordText es tail, cur, blockSize⟩) =
      some (filterMatches self pParentNode es) := by
  unfold HasMatches filterMatches
  rw [HasMatches_loop_record self es tail h cur blockSize _
    (fun m _ => VariableValueHelper_value self hvars m.GetString)]
  simp only [Option.map_some', Nat.zero_add, Option.some.injEq]
  cases hs : pParentNode.subKeys with
  | nil => simp
  | cons m ms =>
    have hle := List.countP_le_length (nodeMatches self es) (l := m :: ms)
    by_cases hall : (m :: ms).all (nodeMatches self es) = true
    · have hc : (m :: ms).countP (nodeMatches self es) = (m :: ms).length :=
        List.countP_eq_length.mpr (by simpa using hall)
      rw [hall, hc]
      simp
    · have hc : (m :: ms).countP (nodeMatches self es) ≠ (m :: ms).length := by
        intro hc
        exact hall (by simpa using List.countP_eq_length.mp hc)
      have hall2 : (m :: ms).all (nodeMatches self es) = false := by
        simpa using hall
      rw [hall2]
      simp only [List.isEmpty_cons, Bool.not_false, Bool.and_false, Bool.true_and]
      simp only [List.length_cons] at hc ⊢
      simpa using fun e => hc e.symm

/-- The colour variable `c` is declared with the value `red`, which `sscanf`
does not read as three integers, so that its text stays `NULL`.  `HasMatches`
on a block that expects `%c` for the key `skin`, which the record holds, hands
that `NULL` to `FStrEq` and has no defined result; for a key that the record
does not hold it does not read the expected value. -/
theorem HasMatches_null_value :
    ((RegisterVariables unitFloat emptyManager
        [⟨['c'], some "color".toList, some "red".toList⟩]).m_dictVars.map
        fun v => (v.m_szName, v.m_pszValue)) = [(['c'], none)] ∧
      HasMatches
        (RegisterVariables unitFloat emptyManager
          [⟨['c'], some "color".toList, some "red".toList⟩])
        (KeyValues.block "match".toList [KeyValues.value "skin".toList "%c".toList])
        (GetKeyValue (recordOf [("skin".toList, ['0'])])) = none ∧
      HasMatches
        (RegisterVariables unitFloat emptyManager
          [⟨['c'], some "color".toList, some "red".toList⟩])
        (KeyValues.block "match".toList [KeyValues.value "body".toList "%c".toList])
        (GetKeyValue (recordOf [("skin".toList, ['0'])])) = some false := by
  decide

/-- C23, counterexample: on the record that holds `classname` with the value
`foo`, `HasMatches` is false for a match block without keys, although no pair
of the block is unmatched, and true for the expected value `FOO`, which is not
the value of the record. -/
theorem HasMatches_iff_counterexample :
    HasMatches emptyManager (KeyValues.block "match".toList [])
        (GetKeyValue (recordOf [("classname".toList, "foo".toList)])) = some false ∧
      HasMatches emptyManager
        (KeyValues.block "match".toList [KeyValues.value "classname".toList "FOO".toList])
        (GetKeyValue (recordOf [("classname".toList, "foo".toList)])) = some true ∧
      "FOO".toList ≠ "foo".toList := by
  decide

/-- C23, amended: on a well-formed record, in a manager all of whose variables
hold a text, `HasMatches` returns true exactly when the match block has at
least one key and, for every key of the block, the record holds a key of that
name up to the case of letters and the first 255 characters of the value of the
first such pair equal the expected value, after variable substitution, up to
the case of letters. -/
theorem HasMatches_iff {F KV : Type} (self : CMapHackManager F KV)
    (hvars : ∀ v ∈ self.m_dictVars, v.m_pszValue ≠ none) (es : List Entry)
    (tail : CStr) (h : RecordWF es tail) (cur : Cursor) (blockSize : Nat)
    (pParentNode : KeyValues) :
    HasMatches self pParentNode (GetKeyValue ⟨recordText es tail, cur, blockSize⟩) =
      some (!pParentNode.subKeys.isEmpty && pParentNode.subKeys.all fun pMatchNode =>
        match lookupNoCase pMatchNode.GetName es,
            (MapHack_VariableValueHelper self (some pMatchNode.GetString)).value with
        | some v, some expected => FStrEq (V_strncpy v 256) expected
        | _, _ => false) := by
  rw [HasMatches_record self hvars es tail h cur blockSize pParentNode]
  rfl

/-- C23, witness: the record with `classname` `foo` and `origin` `0` matches the
block that asks for the class name `foo`. -/
theorem HasMatches_iff_witness :
    HasMatches emptyManager
      (KeyValues.block "match".toList [KeyValues.value "classname".toList "foo".toList])
      (GetKeyValue ⟨recordText [⟨['\n'], "classname".toList, [' '], "foo".toList⟩,
        ⟨['\n'], "origin".toList, [' '], ['0']⟩] ['\n'], Cursor.null, 2000⟩) = some true := by
  rw [HasMatches_iff emptyManager (fun v hv => absurd hv (List.not_mem_nil v))
    [⟨['\n'], "classname".toList, [' '], "foo".toList⟩,
    ⟨['\n'], "origin".toList, [' '], ['0']⟩] ['\n'] (by decide) Cursor.null 2000]
  decide

/-! ## Pre-entity `$filter` (C25) -/

theorem filterMatches_nil {F KV : Type} (self : CMapHackManager F KV) (pKV : KeyValues) :
    filterMatches self pKV [] = false := by
  unfold filterMatches
  cases pKV.subKeys with
  | nil => rfl
  | cons m ms => simp [nodeMatches, lookupNoCase]

theorem GetFirstKey_layout_nil (l : Layout) (h : RecordWF l.es l.tail) (hes : l.es = []) :
    GetFirstKey l.record =
      some (none, ⟨recordText l.es l.tail, Cursor.ptr (recordText l.es l.tail), l.blockSize⟩) := by
  unfold GetFirstKey Layout.record
  simp only [hes]
  exact GetNextKey_record_nil _ l.blockSize l.tail h.2.1

theorem GetFirstKey_layout_cons (l : Layout) (h : RecordWF l.es l.tail) (e : Entry)
    (es : List Entry) (hes : l.es = e :: es) :
    GetFirstKey l.record =
      some (some (stripTrailingSpaces e.key, e.value),
        ⟨recordText l.es l.tail, Cursor.ptr (recordText es l.tail), l.blockSize⟩) := by
  unfold GetFirstKey Layout.record
  rw [hes] at h ⊢
  exact GetNextKey_record_cons _ l.blockSize e es l.tail h

theorem KvFilter_pre_step {F KV : Type} (self : CMapHackManager F KV)
    (hvars : ∀ v ∈ self.m_dictVars, v.m_pszValue ≠ none) (pKV : KeyValues)
    (l : Layout) (hl : RecordWF l.es l.tail) (rest : List MapHackEntityData_t) :
    ∃ r : MapHackEntityData_t, r.m_pEntData = recordText l.es l.tail ∧
      KvFilter.pre self pKV (l.record :: rest) =
        if filterMatches self pKV l.es = true then KvFilter.pre self pKV rest
        else (KvFilter.pre self pKV rest).map fun kept => r :: kept := by
  obtain ⟨es, tail, cur, blockSize⟩ := l
  cases es with
  | nil =>
    refine ⟨⟨recordText [] tail, Cursor.ptr (recordText [] tail), blockSize⟩, rfl, ?_⟩
    simp only [KvFilter.pre, GetFirstKey_layout_nil ⟨[], tail, cur, blockSize⟩ hl rfl,
      filterMatches_nil, Bool.false_eq_true, if_false]
  | cons e es =>
    refine ⟨⟨recordText (e :: es) tail, Cursor.ptr (recordText es tail), blockSize⟩, rfl, ?_⟩
    simp only [KvFilter.pre, GetFirstKey_layout_cons ⟨e :: es, tail, cur, blockSize⟩ hl e es rfl,
      HasMatches_record self hvars (e :: es) tail hl _ blockSize pKV]
    cases filterMatches self pKV (e :: es) <;> simp

theorem KvFilter_pre_layouts {F KV : Type} (self : CMapHackManager F KV)
    (hvars : ∀ v ∈ self.m_dictVars, v.m_pszValue ≠ none) (pKV : KeyValues)
    (layouts : List Layout) (hwf : ∀ l ∈ layouts, RecordWF l.es l.tail) :
    (KvFilter.pre self pKV (layouts.map Layout.record)).map
        (fun kept => kept.map fun r => r.m_pEntData) =
      some ((layouts.filter fun l => !filterMatches self pKV l.es).map fun l =>
        recordText l.es l.tail) := by
  induction layouts with
  | nil => rfl
  | cons l rest ih =>
    have ih' := ih (fun x hx => hwf x (by simp [hx]))
    obtain ⟨r, hr, hstep⟩ := KvFilter_pre_step self hvars pKV l (hwf l (by simp))
      (rest.map Layout.record)
    rw [List.map_cons, hstep]
    cases hm : filterMatches self pKV l.es with
    | true =>
      simp only [if_true, List.filter_cons, hm, Bool.not_true, Bool.false_eq_true, if_false]
      exact ih'
    | false =>
      simp only [Bool.false_eq_true, if_false, List.filter_cons, hm, Bool.not_false, if_true,
        List.map_cons]
      cases hk : KvFilter.pre self pKV (rest.map Layout.record) with
      | none => rw [hk] at ih'; simp at ih'
      | some kept =>
        rw [hk] at ih'
        simp only [Option.map_some', Option.some.injEq] at ih' ⊢
        simp [ih', hr]

/-- C25, counterexample: a `$filter` node that carries a `match` block with the
pair `classname` `foo` leaves the record with the class name `foo` in the
collection: `KvFilter` hands the node itself to `HasMatches`, whose one sub-key
is then `match`, a key that the record does not hold. -/
theorem KvFilter_match_block_counterexample :
    (KvFilter.pre emptyManager
      (KeyValues.block "$filter".toList [KeyValues.block "match".toList
        [KeyValues.value "classname".toList "foo".toList]])
      [recordOf [("origin".toList, ['0']), ("classname".toList, "foo".toList)]]).map
        (fun kept => kept.length) = some 1 := by
  decide

/-- C25, amended: the pre-entity `$filter` is driven by the sub-keys of the
`$filter` node itself.  For every collection of well-formed records, in a
manager all of whose variables hold a text, the records removed are exactly
those for which the node has at least one sub-key and every sub-key is matched
(the record holds a key of its name, up to the case of letters, whose value,
cut to 255 characters, equals the string of the sub-key after substitution, up
to the case of letters); all other records stay, in order.  A `match` block is
one such sub-key, of the name `match` and with the empty string. -/
theorem KvFilter_pre_removes_matches {F KV : Type} (self : CMapHackManager F KV)
    (hvars : ∀ v ∈ self.m_dictVars, v.m_pszValue ≠ none)
    (pKV : KeyValues) (layouts : List Layout) (hwf : ∀ l ∈ layouts, RecordWF l.es l.tail) :
    (KvFilter.pre self pKV (layouts.map Layout.record)).map
        (fun kept => kept.map fun r => r.m_pEntData) =
      some ((layouts.filter fun l =>
        !(!pKV.subKeys.isEmpty && pKV.subKeys.all fun pMatchNode =>
          match lookupNoCase pMatchNode.GetName l.es,
              (MapHack_VariableValueHelper self (some pMatchNode.GetString)).value with
          | some v, some expected => FStrEq (V_strncpy v 256) expected
          | _, _ => false)).map fun l => recordText l.es l.tail) := by
  rw [KvFilter_pre_layouts self hvars pKV layouts hwf]
  rfl

/-- C25, witness: a `$filter` node with the pair `classname` `foo` removes the
record with the class name `foo` and keeps the record with the class name
`bar`. -/
theorem KvFilter_pre_removes_matches_witness :
    (KvFilter.pre emptyManager
      (KeyValues.block "$filter".toList [KeyValues.value "classname".toList "foo".toList])
      ([⟨[⟨['\n'], "classname".toList, [' '], "foo".toList⟩], ['\n'], Cursor.null, 2000⟩,
        ⟨[⟨['\n'], "classname".toList, [' '], "bar".toList⟩], ['\n'], Cursor.null, 2000⟩].map
        Layout.record)).map (fun kept => kept.map fun r => r.m_pEntData) =
      some ["\n\"classname\" \"bar\"\n\x7d".toList] := by
  rw [KvFilter_pre_removes_matches emptyManager (fun v hv => absurd hv (List.not_mem_nil v))
    (KeyValues.block "$filter".toList [KeyValues.value "classname".toList "foo".toList])
    [⟨[⟨['\n'], "classname".toList, [' '], "foo".toList⟩], ['\n'], Cursor.null, 2000⟩,
      ⟨[⟨['\n'], "classname".toList, [' '], "bar".toList⟩], ['\n'], Cursor.null, 2000⟩]
    (by decide)]
  decide

/-! ## Pre-entity `$remove_all` (C24) -/

theorem scan_layout (c text : CStr) (blockSize : Nat) (es : List Entry) (tail : CStr)
    (h : RecordWF es tail) (n : Nat) (hn : es.length < n) :
    ∃ r, KvRemoveAllEntities.scan c n ⟨text, Cursor.ptr (recordText es tail), blockSize⟩ =
        some (es.any (isClassPair c), r) ∧ r.m_pEntData = text := by
  induction es generalizing n with
  | nil =>
    cases n with
    | zero => omega
    | succ n =>
      refine ⟨⟨text, Cursor.ptr (recordText [] tail), blockSize⟩, ?_, rfl⟩
      simp only [KvRemoveAllEntities.scan, GetNextKey_record_nil text blockSize tail h.2.1]
      rfl
  | cons e es ih =>
    cases n with
    | zero => omega
    | succ n =>
      simp only [KvRemoveAllEntities.scan, GetNextKey_record_cons text blockSize e es tail h]
      by_cases hc : isClassPair c e = true
      · refine ⟨⟨text, Cursor.ptr (recordText es tail), blockSize⟩, ?_, rfl⟩
        have hc' := hc
        unfold isClassPair at hc'
        simp only [hc', if_true, List.any_cons, hc, Bool.true_or]
      · obtain ⟨r, hr, ht⟩ := ih (RecordWF.tail_cons h) n (by simp at hn; omega)
        refine ⟨r, ?_, ht⟩
        have hc' := hc
        unfold isClassPair at hc'
        simp only [hc', if_false, hr, List.any_cons]
        simp [hc]

/-- C24, counterexample: the record holds `origin` and then `classname` with
the value `FOO`; `$remove_all` with the class name `foo` removes it, although
its class name is not `foo`: `FStrEq` ignores the case of letters. -/
theorem KvRemoveAllEntities_pre_counterexample :
    KvRemoveAllEntities.pre
      (KeyValues.block "$remove_all".toList [KeyValues.value "classname".toList "foo".toList])
      [recordOf [("origin".toList, ['0']), ("classname".toList, "FOO".toList)]] = some [] ∧
      "FOO".toList ≠ "foo".toList := by
  decide

theorem KvRemoveAllEntities_pre_step (pKV : KeyValues) (l : Layout)
    (hl : RecordWF l.es l.tail)
    (hfirst : ∀ e, l.es.head? = some e →
      FStrEq (stripTrailingSpaces e.key) "classname".toList = false)
    (rest : List MapHackEntityData_t) :
    ∃ r : MapHackEntityData_t, r.m_pEntData = recordText l.es l.tail ∧
      KvRemoveAllEntities.pre pKV (l.record :: rest) =
        if l.es.any (isClassPair ((pKV.GetStringOf "classname".toList (some [])).getD [])) =
            true then
          KvRemoveAllEntities.pre pKV rest
        else (KvRemoveAllEntities.pre pKV rest).map fun kept => r :: kept := by
  obtain ⟨es, tail, cur, blockSize⟩ := l
  cases es with
  | nil =>
    refine ⟨⟨recordText [] tail, Cursor.ptr (recordText [] tail), blockSize⟩, rfl, ?_⟩
    simp only [KvRemoveAllEntities.pre,
      GetFirstKey_layout_nil ⟨[], tail, cur, blockSize⟩ hl rfl, List.any_nil,
      Bool.false_eq_true, if_false]
  | cons e es =>
    have hwf' : RecordWF es tail := RecordWF.tail_cons hl
    obtain ⟨r, hr, ht⟩ := scan_layout
      ((pKV.GetStringOf "classname".toList (some [])).getD []) (recordText (e :: es) tail)
      blockSize es tail hwf' ((recordText (e :: es) tail).length + 1) (by
        have := length_le_recordText (e :: es) tail
        simp only [List.length_cons] at this
        omega)
    have he : isClassPair ((pKV.GetStringOf "classname".toList (some [])).getD []) e =
        false := by
      unfold isClassPair
      rw [hfirst e rfl]
      rfl
    refine ⟨r, ht, ?_⟩
    simp only [KvRemoveAllEntities.pre,
      GetFirstKey_layout_cons ⟨e :: es, tail, cur, blockSize⟩ hl e es rfl, hr, List.any_cons,
      he, Bool.false_or]
    cases es.any (isClassPair ((pKV.GetStringOf "classname".toList (some [])).getD [])) <;>
      simp

/-- The pre-entity `$remove_all` does not examine the first pair of a record:
the record whose first pair is `classname` `foo` stays. -/
theorem KvRemoveAllEntities_pre_first_pair :
    (KvRemoveAllEntities.pre
      (KeyValues.block "$remove_all".toList [KeyValues.value "classname".toList "foo".toList])
      [recordOf [("classname".toList, "foo".toList), ("origin".toList, ['0'])]]).map
        (fun kept => kept.length) = some 1 := by
  decide

/-- C24, amended: for every collection of well-formed records in which no
record has `classname` as the key of its first pair, the pre-entity
`$remove_all` with the class name `c` removes exactly the records that hold a
pair whose key is `classname` and whose value is `c`, both up to the case of
letters, and keeps all other records in their order. -/
theorem KvRemoveAllEntities_pre_removes (pKV : KeyValues) (layouts : List Layout)
    (hwf : ∀ l ∈ layouts, RecordWF l.es l.tail)
    (hfirst : ∀ l ∈ layouts, ∀ e, l.es.head? = some e →
      FStrEq (stripTrailingSpaces e.key) "classname".toList = false) :
    (KvRemoveAllEntities.pre pKV (layouts.map Layout.record)).map
        (fun kept => kept.map fun r => r.m_pEntData) =
      some ((layouts.filter fun l =>
        !l.es.any (isClassPair ((pKV.GetStringOf "classname".toList (some [])).getD []))).map
          fun l => recordText l.es l.tail) := by
  induction layouts with
  | nil => rfl
  | cons l rest ih =>
    have ih' := ih (fun x hx => hwf x (by simp [hx])) (fun x hx => hfirst x (by simp [hx]))
    obtain ⟨r, hr, hstep⟩ := KvRemoveAllEntities_pre_step pKV l (hwf l (by simp))
      (hfirst l (by simp)) (rest.map Layout.record)
    rw [List.map_cons, hstep]
    cases hm : l.es.any (isClassPair ((pKV.GetStringOf "classname".toList (some [])).getD []))
    with
    | true =>
      simp only [if_true, List.filter_cons, hm, Bool.not_true, Bool.false_eq_true, if_false]
      exact ih'
    | false =>
      simp only [Bool.false_eq_true, if_false, List.filter_cons, hm, Bool.not_false, if_true,
        List.map_cons]
      cases hk : KvRemoveAllEntities.pre pKV (rest.map Layout.record) with
      | none => rw [hk] at ih'; simp at ih'
      | some kept =>
        rw [hk] at ih'
        simp only [Option.map_some', Option.some.injEq] at ih' ⊢
        simp [ih', hr]

/-- C24, witness: of the records with the class names `foo` and `bar`, each
after an `origin` pair, `$remove_all` with the class name `foo` removes the
first and keeps the second. -/
theorem KvRemoveAllEntities_pre_removes_witness :
    (KvRemoveAllEntities.pre
      (KeyValues.block "$remove_all".toList [KeyValues.value "classname".toList "foo".toList])
      ([⟨[⟨['\n'], "origin".toList, [' '], ['0']⟩,
          ⟨['\n'], "classname".toList, [' '], "foo".toList⟩], ['\n'], Cursor.null, 2000⟩,
        ⟨[⟨['\n'], "origin".toList, [' '], ['0']⟩,
          ⟨['\n'], "classname".toList, [' '], "bar".toList⟩], ['\n'], Cursor.null, 2000⟩].map
        Layout.record)).map (fun kept => kept.map fun r => r.m_pEntData) =
      some ["\n\"origin\" \"0\"\n\"classname\" \"bar\"\n\x7d".toList] := by
  rw [KvRemoveAllEntities_pre_removes
    (KeyValues.block "$remove_all".toList [KeyValues.value "classname".toList "foo".toList])
    [⟨[⟨['\n'], "origin".toList, [' '], ['0']⟩,
        ⟨['\n'], "classname".toList, [' '], "foo".toList⟩], ['\n'], Cursor.null, 2000⟩,
      ⟨[⟨['\n'], "origin".toList, [' '], ['0']⟩,
        ⟨['\n'], "classname".toList, [' '], "bar".toList⟩], ['\n'], Cursor.null, 2000⟩]
    (by decide) (by decide)]
  decide

/-! ## Names and sub-trees of registered events (C26, C29) -/

/-- C26: a script whose one top-level sub-key is the label `door:entities`, and
which has no `events` section, leaves an event in the registry whose name is
the reserved name `entities`: the second loop of `RegisterEvents` tests the
whole name `door:entities` for a keyword, and then names the event after what
`MapHack_GetLabel` returns, the text behind the colon. -/
theorem RegisterEvents_registers_keyword :
    ((RegisterEvents intFloat emptyScript none
      (KeyValues.block "maphack".toList
        [KeyValues.block "door:entities".toList [KeyValues.block "prop".toList []]])).m_dictEvents.map
        fun e => e.m_szName) = ["entities".toList] ∧
      MapHack_IsKeyWord "entities".toList = true ∧
      MapHack_IsKeyWord "door:entities".toList = false := by
  decide

/-- C29: in a script with the sections `entities` and `events`, the latter
declaring the event `ent`, `RegisterEvents` gives the event `ent` a copy of the
section `entities` as its sub-tree, because the name `entities` holds `ent`;
this also when a later top-level sub-key is named `ent`. -/
theorem RegisterEvents_attaches_substring :
    ((RegisterEvents intFloat emptyScript
      (some (KeyValues.block "events".toList
        [KeyValues.block "ent".toList [KeyValues.value "type".toList "EVENT_TIMED".toList]]))
      (KeyValues.block "maphack".toList
        [KeyValues.block "entities".toList [KeyValues.block "prop".toList []],
          KeyValues.block "events".toList
            [KeyValues.block "ent".toList
              [KeyValues.value "type".toList "EVENT_TIMED".toList]],
          KeyValues.block "ent".toList [KeyValues.block "crate".toList []]])).m_dictEvents.map
        fun e => (e.m_szName, e.m_pKVData.map KeyValues.GetName)) =
      [("ent".toList, some "entities".toList)] := by
  decide

/-! ## A failed load (C27) -/

/-- C27, counterexample: a top-level load (no load flag set) of a document whose
root is named `foo`, into a state that holds a script, the variable `health`
and the event `a`, returns false and leaves the script, the variable and the
event where they were. -/
theorem LoadMapHack_wrong_root_counterexample :
    (LoadMapHack intFloat idleLoader loadedState (some (KeyValues.block "foo".toList [])) 0
        "maphack".toList).1 = false ∧
      ((LoadMapHack intFloat idleLoader loadedState (some (KeyValues.block "foo".toList [])) 0
        "maphack".toList).2.manager.m_dictVars.map fun v => v.m_szName) = ["health".toList] ∧
      ((LoadMapHack intFloat idleLoader loadedState (some (KeyValues.block "foo".toList [])) 0
        "maphack".toList).2.manager.m_dictEvents.map fun e => e.m_szName) = [['a']] ∧
      (LoadMapHack intFloat idleLoader loadedState (some (KeyValues.block "foo".toList [])) 0
        "maphack".toList).2.m_pMapHack.isSome = true := by
  decide

/-- C27, amended: `LoadMapHack` on a document whose root node is not named
`maphack` (up to the case of letters) returns false and leaves the state as it
was, the loaded script, the variables, the events and the delayed queue, for a
top-level load as for an include. -/
theorem LoadMapHack_wrong_root (fl : FloatLib) (ext : Loader fl.F) (st : LoadState fl.F)
    (kv : KeyValues) (loadFlags : Nat) (pszIdentifier : CStr)
    (hname : FStrEq kv.GetName "maphack".toList = false) :
    LoadMapHack fl ext st (some kv) loadFlags pszIdentifier = (false, st) := by
  unfold LoadMapHack
  simp only [hname, Bool.not_false, if_true]

/-- C27, witness: the load of a document with the root `foo` as an include
(`MAPHACK_INCLUDE` set) returns false and changes nothing. -/
theorem LoadMapHack_wrong_root_witness :
    LoadMapHack intFloat idleLoader loadedState (some (KeyValues.block "foo".toList [])) 1
      "maphack".toList = (false, loadedState) :=
  LoadMapHack_wrong_root intFloat idleLoader loadedState (KeyValues.block "foo".toList []) 1
    "maphack".toList (by decide)

/-! ## The recursion cap (C21) -/

theorem SelfTriggers.level {body : KeyValues} {st : RunState Int} (h : SelfTriggers body st)
    (g : Nat) : SelfTriggers body { st with g_iMapHackEntitiesRecursionLevel := g } := h

theorem SelfTriggers.write {body : KeyValues} {st : RunState Int} (h : SelfTriggers body st)
    (f : MapHackEvent_t Int KeyValues → MapHackEvent_t Int KeyValues)
    (hf : ∀ e, (f e).m_szName = e.m_szName ∧ (f e).m_pKVData = e.m_pKVData ∧
      (f e).m_iDataType = e.m_iDataType) :
    SelfTriggers body { st with manager := writeEvent st.manager 0 f } := by
  obtain ⟨hpre, ev, hev, hname, hkv, hdt⟩ := h
  refine ⟨?_, f ev, ?_, ?_, ?_, ?_⟩
  · simp [writeEvent, hev, hpre]
  · simp [writeEvent, hev]
  · rw [(hf ev).1, hname]
  · rw [(hf ev).2.1, hkv]
  · rw [(hf ev).2.2, hdt]

/-- In a state whose one event `e` has the sub-tree `body`, the node
`$trigger e` runs `body` and then marks the event. -/
theorem KvTriggerEvent_self (h : Handlers intFloat)
    (run : RunState Int → Option KeyValues → Option (RunState Int)) (curtime : Int)
    (body : KeyValues) (st : RunState Int) (hinv : SelfTriggers body st) :
    ∃ f : MapHackEvent_t Int KeyValues → MapHackEvent_t Int KeyValues,
      (∀ e, (f e).m_szName = e.m_szName ∧ (f e).m_pKVData = e.m_pKVData ∧
        (f e).m_iDataType = e.m_iDataType) ∧
      KvTriggerEvent h run curtime st triggerSelf =
        (run st (some body)).map fun r => { r with manager := writeEvent r.manager 0 f } := by
  obtain ⟨hpre, ev, hev, hname, hkv, hdt⟩ := hinv
  refine ⟨fun e =>
    { e with
      m_bTriggered := true
      m_flTriggerTime :=
        if e.m_bRepeat then h.add curtime e.m_flDelayTime else e.m_flTriggerTime },
    fun e => ⟨rfl, rfl, rfl⟩, ?_⟩
  have e1 : triggerSelf.GetStringOf "event".toList (some []) = some ['e'] := by decide
  have e2 : triggerSelf.GetStringOf "delay".toList (some "0.0".toList) = some "0.0".toList := by
    decide
  have e4 : GetEventByName st.manager ['e'] = some 0 := by
    unfold GetEventByName
    rw [hev]
    simp [List.findIdx?_cons, hname, V_stricmp]
  have hc : intFloat.compare 3 (intFloat.V_atof "0.0".toList) intFloat.zero = false := by
    decide
  unfold KvTriggerEvent
  simp only [hpre, Bool.false_eq_true, if_false, e1, e2,
    VariableValueHelper_plain st.manager ['e'] (by decide),
    VariableValueHelper_plain st.manager "0.0".toList (by decide), GetEventByName.ptr, e4]
  unfold TriggerEvent.nested
  simp only [hev, List.getElem?_cons_zero, hkv, hc, Bool.false_eq_true, if_false, hdt, if_true]
  cases run st (some body) <;> rfl

/-- At the level 64 a run of the sub-tree is cut at once and clears the
counter. -/
theorem RunEntities_cut (h : Handlers intFloat) (curtime : Int) (body : KeyValues) (fuel : Nat)
    (st : RunState Int) (hinv : SelfTriggers body st)
    (hg : st.g_iMapHackEntitiesRecursionLevel = 64) :
    RunEntities h curtime fuel st (some body) = none ∨
      ∃ r, RunEntities h curtime fuel st (some body) = some r ∧ SelfTriggers body r ∧
        r.g_iMapHackEntitiesRecursionLevel = 0 := by
  cases fuel with
  | zero => exact Or.inl rfl
  | succ fuel =>
    refine Or.inr ⟨{ st with g_iMapHackEntitiesRecursionLevel := 0 }, ?_, hinv.level 0, rfl⟩
    simp [RunEntities, hg, MAPHACK_ENTITIES_MAX_RECURSION_LEVEL]

/-- Below the level 64, no fuel suffices for a run of the sub-tree that
triggers its own event twice. -/
theorem RunEntities_twice_none (h : Handlers intFloat) (curtime : Int) (fuel : Nat) :
    ∀ st : RunState Int, SelfTriggers triggersTwice st →
      st.g_iMapHackEntitiesRecursionLevel < 64 →
      RunEntities h curtime fuel st (some triggersTwice) = none := by
  induction fuel with
  | zero => intro st _ _; rfl
  | succ fuel ih =>
    intro st hinv hg
    have hsub : triggersTwice.trueSubKeys = [triggerSelf, triggerSelf] := rfl
    have hn1 : V_stricmp triggerSelf.GetName "$if".toList = false := by decide
    have hn2 : V_stricmp triggerSelf.GetName "$trigger".toList = true := by decide
    have hinv1 := hinv.level (st.g_iMapHackEntitiesRecursionLevel + 1)
    obtain ⟨f, hf, hk⟩ := KvTriggerEvent_self h (RunEntities h curtime fuel) curtime
      triggersTwice _ hinv1
    have hle : ¬ (st.g_iMapHackEntitiesRecursionLevel + 1 >
        MAPHACK_ENTITIES_MAX_RECURSION_LEVEL) := by
      unfold MAPHACK_ENTITIES_MAX_RECURSION_LEVEL; omega
    have hchildren : RunEntities.children h (RunEntities h curtime fuel) curtime
        { st with
          g_iMapHackEntitiesRecursionLevel := st.g_iMapHackEntitiesRecursionLevel + 1 }
        [triggerSelf, triggerSelf] = none := by
      simp only [RunEntities.children, hn1, hn2, Bool.false_eq_true, if_false, if_true, hk]
      by_cases hlt : st.g_iMapHackEntitiesRecursionLevel + 1 < 64
      · rw [ih _ hinv1 hlt]
        rfl
      · have h64 : st.g_iMapHackEntitiesRecursionLevel + 1 = 64 := by omega
        rcases RunEntities_cut h curtime triggersTwice fuel _ hinv1 h64 with hnone | ⟨r, hr, hri, hr0⟩
        · rw [hnone]
          rfl
        · rw [hr]
          simp only [Option.map_some']
          have hinv2 := hri.write f hf
          obtain ⟨f2, _, hk2⟩ := KvTriggerEvent_self h (RunEntities h curtime fuel) curtime
            triggersTwice _ hinv2
          rw [hk2, ih _ hinv2 (by simp [hr0])]
          rfl
    simp only [RunEntities, hle, if_false, hsub, hchildren]

/-- With one `$trigger` child, a run that starts at the level `g` does not
return on fuel of at most `64 - g`. -/
theorem RunEntities_once_none (h : Handlers intFloat) (curtime : Int) (fuel : Nat) :
    ∀ st : RunState Int, SelfTriggers triggersOnce st →
      st.g_iMapHackEntitiesRecursionLevel + fuel ≤ 64 →
      RunEntities h curtime fuel st (some triggersOnce) = none := by
  induction fuel with
  | zero => intro st _ _; rfl
  | succ fuel ih =>
    intro st hinv hg
    have hsub : triggersOnce.trueSubKeys = [triggerSelf] := rfl
    have hn1 : V_stricmp triggerSelf.GetName "$if".toList = false := by decide
    have hn2 : V_stricmp triggerSelf.GetName "$trigger".toList = true := by decide
    have hinv1 := hinv.level (st.g_iMapHackEntitiesRecursionLevel + 1)
    obtain ⟨f, hf, hk⟩ := KvTriggerEvent_self h (RunEntities h curtime fuel) curtime
      triggersOnce _ hinv1
    have hle : ¬ (st.g_iMapHackEntitiesRecursionLevel + 1 >
        MAPHACK_ENTITIES_MAX_RECURSION_LEVEL) := by
      unfold MAPHACK_ENTITIES_MAX_RECURSION_LEVEL; omega
    have hchildren : RunEntities.children h (RunEntities h curtime fuel) curtime
        { st with
          g_iMapHackEntitiesRecursionLevel := st.g_iMapHackEntitiesRecursionLevel + 1 }
        [triggerSelf] = none := by
      simp only [RunEntities.children, hn1, hn2, Bool.false_eq_true, if_false, if_true, hk]
      rw [ih _ hinv1 (by simp only; omega)]
      rfl
    simp only [RunEntities, hle, if_false, hsub, hchildren]

/-- With one `$trigger` child, a run that starts at the level `64 - n` returns
on the fuel `n + 1`. -/
theorem RunEntities_once_some (h : Handlers intFloat) (curtime : Int) (n : Nat) :
    ∀ st : RunState Int, SelfTriggers triggersOnce st →
      st.g_iMapHackEntitiesRecursionLevel + n = 64 →
      (RunEntities h curtime (n + 1) st (some triggersOnce)).isSome = true := by
  induction n with
  | zero =>
    intro st hinv hg
    have hg64 : st.g_iMapHackEntitiesRecursionLevel = 64 := by omega
    simp [RunEntities, hg64, MAPHACK_ENTITIES_MAX_RECURSION_LEVEL]
  | succ n ih =>
    intro st hinv hg
    have hsub : triggersOnce.trueSubKeys = [triggerSelf] := rfl
    have hn1 : V_stricmp triggerSelf.GetName "$if".toList = false := by decide
    have hn2 : V_stricmp triggerSelf.GetName "$trigger".toList = true := by decide
    have hinv1 := hinv.level (st.g_iMapHackEntitiesRecursionLevel + 1)
    obtain ⟨f, hf, hk⟩ := KvTriggerEvent_self h (RunEntities h curtime (n + 1)) curtime
      triggersOnce _ hinv1
    have hle : ¬ (st.g_iMapHackEntitiesRecursionLevel + 1 >
        MAPHACK_ENTITIES_MAX_RECURSION_LEVEL) := by
      unfold MAPHACK_ENTITIES_MAX_RECURSION_LEVEL; omega
    have hsome := ih _ hinv1 (by simp only; omega)
    obtain ⟨r, hr⟩ := Option.isSome_iff_exists.mp hsome
    have hchildren : RunEntities.children h (RunEntities h curtime (n + 1)) curtime
        { st with
          g_iMapHackEntitiesRecursionLevel := st.g_iMapHackEntitiesRecursionLevel + 1 }
        [triggerSelf] = some { r with manager := writeEvent r.manager 0 f } := by
      simp only [RunEntities.children, hn1, hn2, Bool.false_eq_true, if_false, if_true, hk, hr,
        Option.map_some']
    rw [RunEntities]
    simp only [hle, if_false, hsub, hchildren]
    rfl

/-- C21: a script whose one top-level sub-key `e` holds two `$trigger` children
for the event `e`, without delay.  `RegisterEvents` makes `e` an event with
that sub-tree, and the run of the sub-tree in post-phase returns for no amount
of fuel, whatever the rest of the interpreter does: the run that is cut at the
level 65 clears the counter, and the second `$trigger` of the run above it
starts the count anew, one level deeper.  With one `$trigger` child the run
returns, and needs 65 nested activations for it: 64 are not enough. -/
theorem RunEntities_recursion_not_capped :
    ((selfTriggering triggersTwice).manager.m_dictEvents.map fun e =>
      (e.m_szName, e.m_pKVData.map fun kv => kv.trueSubKeys.map KeyValues.GetName)) =
        [(['e'], some ["$trigger".toList, "$trigger".toList])] ∧
    (∀ (h : Handlers intFloat) (curtime : Int) (fuel : Nat),
      RunEntities h curtime fuel (selfTriggering triggersTwice) (some triggersTwice) = none) ∧
    (∀ (h : Handlers intFloat) (curtime : Int),
      RunEntities h curtime 64 (selfTriggering triggersOnce) (some triggersOnce) = none ∧
      (RunEntities h curtime 65 (selfTriggering triggersOnce) (some triggersOnce)).isSome =
        true) := by
  refine ⟨by decide, fun h curtime fuel => ?_, fun h curtime => ⟨?_, ?_⟩⟩
  · exact RunEntities_twice_none h curtime fuel (selfTriggering triggersTwice)
      ⟨rfl, _, rfl, rfl, rfl, rfl⟩ (by decide)
  · exact RunEntities_once_none h curtime 64 (selfTriggering triggersOnce)
      ⟨rfl, _, rfl, rfl, rfl, rfl⟩ (by decide)
  · exact RunEntities_once_some h curtime 64 (selfTriggering triggersOnce)
      ⟨rfl, _, rfl, rfl, rfl, rfl⟩ (by decide)

end MapHack
